import Mathlib

/-! Qpong: the tabular Q-learning agent of the Pong game.

A shallow embedding of `State.h`, `QLearningAgent.{h,cpp}`, and of the game loop
of `Game.cpp` with the parts of `Ball.cpp` / `Paddle.cpp` it calls.

Modelling conventions

* C++ `double` quantities, and the `float` positions and velocities of the ball
  and the paddles, are exact rationals (`ℚ`): the arithmetic of the agent and of
  the ball and paddle movement is kept as written, evaluated without rounding.
* In `Game::getCurrentStateForAI` the `float` operations are rounded as IEEE
  binary32 does (`round_float`: nearest, ties to even), and `static_cast<int>`
  of a value outside the `int` range yields `INT_MIN`, the result of the x86-64
  conversion instruction (`static_cast_int`).
* C++ `int` is `Int`; `stream >> int` fails outside the `int` range, and
  `stream >> double` fails when the numeral read converts to an infinity.
* `std::unordered_map<State, std::array<double, 3>>` is an association list with
  the `find` / `operator[]` / assignment operations the source uses; iteration
  order is the list order.
* The random engine and its two distributions are a parameter (`RandomSource`).
* Keyboard state, frame time, the directions drawn for the ball and the results
  of the `intersects` tests on the drawable shapes are inputs of a frame
  (`FrameInput`); functions of the game loop return the game together with the
  list of `update_q_value` calls they made.
-/

namespace Qpong

/-! ## State.h -/

/-- Models `GRID_X_DIVISIONS` of `State.h`. -/
def GRID_X_DIVISIONS : Int := 10
/-- Models `GRID_Y_DIVISIONS` of `State.h`. -/
def GRID_Y_DIVISIONS : Int := 10
/-- Models `PADDLE_Y_DIVISIONS` of `State.h`. -/
def PADDLE_Y_DIVISIONS : Int := 10

/-- Models `struct State`: six `int` fields, all default-initialised to 0; `operator==`
compares all six fields, which is the derived equality. -/
@[ext]
structure State where
  ball_x_grid : Int := 0
  ball_y_grid : Int := 0
  ball_vx_category : Int := 0
  ball_vy_category : Int := 0
  cpu_paddle_y_grid : Int := 0
  player_paddle_y_grid : Int := 0
deriving DecidableEq, Repr

/-! ## QLearningAgent.h -/

/-- Models `enum class Action { STAY = 0, UP = 1, DOWN = 2 }`. -/
inductive Action where
  | STAY
  | UP
  | DOWN
deriving DecidableEq, Repr

/-- Models `NUM_ACTIONS`. -/
def NUM_ACTIONS : Nat := 3

/-- Models `static_cast<int>(action)`. -/
def Action.toIndex : Action → Fin 3
  | .STAY => 0
  | .UP => 1
  | .DOWN => 2

/-- Models `static_cast<Action>(index)` for an index in range. -/
def Action.ofIndex : Fin 3 → Action
  | 0 => .STAY
  | 1 => .UP
  | 2 => .DOWN

/-- Models `enum class DifficultyLevel`. -/
inductive DifficultyLevel where
  | EASY
  | MEDIUM
  | HARD
deriving DecidableEq, Repr

/-- Models `std::array<double, NUM_ACTIONS>`. -/
structure QValues where
  v0 : ℚ
  v1 : ℚ
  v2 : ℚ
deriving DecidableEq, Repr

/-- The value-initialised array `{0.0, 0.0, 0.0}`. -/
def QValues.zero : QValues := ⟨0, 0, 0⟩

/-- Array read `q[i]`. -/
def QValues.get (q : QValues) : Fin 3 → ℚ
  | 0 => q.v0
  | 1 => q.v1
  | 2 => q.v2

/-- Array write `q[i] = x`. -/
def QValues.set (q : QValues) (i : Fin 3) (x : ℚ) : QValues :=
  match i with
  | 0 => { q with v0 := x }
  | 1 => { q with v1 := x }
  | 2 => { q with v2 := x }

/-- Models `std::max_element(q.begin(), q.end())` as an index: the scan keeps the
current largest and moves only on a strict `<`. -/
def max_element (q : QValues) : Fin 3 :=
  let largest : Fin 3 := 0
  let largest := if q.get largest < q.get 1 then 1 else largest
  let largest := if q.get largest < q.get 2 then 2 else largest
  largest

/-- The Q-table: `std::unordered_map<State, std::array<double, NUM_ACTIONS>>`. -/
abbrev QTable := List (State × QValues)

/-- Models `q_table.find(state)`: `none` is `q_table.end()`. -/
def QTable.find : QTable → State → Option QValues
  | [], _ => none
  | (k, q) :: rest, s => if k = s then some q else QTable.find rest s

/-- Models `q_table[state] = q`: overwrite the mapped value of an existing key, insert
the pair otherwise. -/
def QTable.assign : QTable → State → QValues → QTable
  | [], s, q => [(s, q)]
  | (k, q0) :: rest, s, q =>
    if k = s then (k, q) :: rest else (k, q0) :: QTable.assign rest s q

/-- The mapped value `q_table[state]` refers to: the stored array, or the
value-initialised array that `operator[]` inserts for a missing key. -/
def QTable.subscript (t : QTable) (s : State) : QValues :=
  match t.find s with
  | some q => q
  | none => QValues.zero

/-- Models `q_table.size()`. -/
def QTable.size (t : QTable) : Nat := t.length

/-- The random engine `rng` (state type `G`) with the two distributions of the
agent: each draw advances the engine once. -/
structure RandomSource (G : Type) where
  advance : G → G
  exploration_value : G → ℚ
  action_value : G → Fin 3

/-- Models `exploration_distribution(rng)`: the value drawn and the engine afterwards. -/
def RandomSource.exploration_distribution {G : Type} (R : RandomSource G) (g : G) : ℚ × G :=
  (R.exploration_value g, R.advance g)

/-- Models `action_distribution(rng)`: the index drawn and the engine afterwards. -/
def RandomSource.action_distribution {G : Type} (R : RandomSource G) (g : G) : Fin 3 × G :=
  (R.action_value g, R.advance g)

/-- Models `class QLearningAgent`: the table, the three learning parameters and the
engine state. -/
structure QLearningAgent (G : Type) where
  q_table : QTable
  alpha : ℚ
  gamma : ℚ
  epsilon : ℚ
  rng : G

/-! ## QLearningAgent.cpp -/

/-- Models `QLearningAgent::set_difficulty`. -/
def set_difficulty {G : Type} (ag : QLearningAgent G) (level : DifficultyLevel) :
    QLearningAgent G :=
  match level with
  | .EASY => { ag with alpha := 1 / 10, gamma := 9 / 10, epsilon := 1 / 10 }
  | .MEDIUM => { ag with alpha := 2 / 10, gamma := 9 / 10, epsilon := 2 / 10 }
  | .HARD => { ag with alpha := 2 / 10, gamma := 95 / 100, epsilon := 4 / 10 }

/-- The constructor `QLearningAgent::QLearningAgent()`, given the seeded engine:
an empty table, the initialiser list `(0.1, 0.9, 0.1)`, then
`set_difficulty(EASY)`. -/
def QLearningAgent.new {G : Type} (seed : G) : QLearningAgent G :=
  set_difficulty { q_table := [], alpha := 1 / 10, gamma := 9 / 10, epsilon := 1 / 10,
                   rng := seed } .EASY

/-- Models `QLearningAgent::get_q_value`. -/
def get_q_value {G : Type} (ag : QLearningAgent G) (state : State) (action_index : Fin 3) : ℚ :=
  match ag.q_table.find state with
  | some q => q.get action_index
  | none => 0

/-- Models `QLearningAgent::get_best_action_index`: the index returned and the agent
afterwards (only the engine can change). -/
def get_best_action_index {G : Type} (R : RandomSource G) (ag : QLearningAgent G)
    (state : State) : Fin 3 × QLearningAgent G :=
  match ag.q_table.find state with
  | some q_values => (max_element q_values, ag)
  | none =>
    let d := R.action_distribution ag.rng
    (d.1, { ag with rng := d.2 })

/-- Models `QLearningAgent::choose_action`: the action returned and the agent afterwards. -/
def choose_action {G : Type} (R : RandomSource G) (ag : QLearningAgent G)
    (current_state : State) : Action × QLearningAgent G :=
  let d := R.exploration_distribution ag.rng
  let random_value := d.1
  let ag1 : QLearningAgent G := { ag with rng := d.2 }
  if random_value < ag1.epsilon then
    let c := R.action_distribution ag1.rng
    (Action.ofIndex c.1, { ag1 with rng := c.2 })
  else
    let b := get_best_action_index R ag1 current_state
    (Action.ofIndex b.1, b.2)

/-- Models `QLearningAgent::update_q_value`. -/
def update_q_value {G : Type} (ag : QLearningAgent G) (old_state : State) (action : Action)
    (reward : ℚ) (new_state : State) : QLearningAgent G :=
  let action_index := action.toIndex
  let old_q_value := get_q_value ag old_state action_index
  let max_future_q : ℚ :=
    match ag.q_table.find new_state with
    | some q => q.get (max_element q)
    | none => 0
  let new_q_value := old_q_value + ag.alpha * (reward + ag.gamma * max_future_q - old_q_value)
  let t1 := ag.q_table.assign old_state ((ag.q_table.subscript old_state).set action_index new_q_value)
  let t2 := if t1.find new_state = none then t1.assign new_state QValues.zero else t1
  { ag with q_table := t2 }

/-- Models `QLearningAgent::get_explored_state_count`. -/
def get_explored_state_count {G : Type} (ag : QLearningAgent G) : Nat := ag.q_table.size

/-- The agent after `n` successive calls `update_q_value(s, a, R, s)`. -/
def repeated_update {G : Type} (ag : QLearningAgent G) (s : State) (a : Action) (R : ℚ)
    (n : Nat) : QLearningAgent G :=
  (fun g => update_q_value g s a R s)^[n] ag

/-- The value read for `(s, a)` after `n` successive calls `update_q_value(s, a, R, s)`. -/
def repeated_value {G : Type} (ag : QLearningAgent G) (s : State) (a : Action) (R : ℚ)
    (n : Nat) : ℚ :=
  get_q_value (repeated_update ag s a R n) s a.toIndex

/-! ## Text streams

The model of the standard stream operations the persistence code calls:
`std::getline`, `operator>>` for `int` and `double`, `operator<<` for `int` and
`double` (default flags: decimal, precision 6, general notation). -/

/-- The newline character. -/
def newline : Char := Char.ofNat 10

/-- Models `std::isspace` in the classic locale: space, `\t`, `\n`, `\v`, `\f`, `\r`. -/
def isspace (c : Char) : Bool :=
  c = ' ' || c = Char.ofNat 9 || c = Char.ofNat 10 || c = Char.ofNat 11 || c = Char.ofNat 12 ||
    c = Char.ofNat 13

/-- A decimal digit character. -/
def isdigit (c : Char) : Bool := 48 ≤ c.toNat && c.toNat ≤ 57

/-- The value of a digit character. -/
def digit_value (c : Char) : Nat := c.toNat - 48

/-- The character of a digit `d < 10`. -/
def digit_char (d : Nat) : Char := Char.ofNat (48 + d)

/-- The lines `std::getline` returns one after the other until it fails: the
text is cut at each newline, and a last line without newline is returned when
it is not empty. `cur` holds the characters of the line being read, reversed. -/
def getlines_from : List Char → List Char → List (List Char)
  | [], cur => if cur = [] then [] else [cur.reverse]
  | c :: cs, cur => if c = newline then cur.reverse :: getlines_from cs [] else getlines_from cs (c :: cur)

/-- All lines of a file as read by `while (std::getline(infile, line))`. -/
def getlines (text : List Char) : List (List Char) := getlines_from text []

/-- The whitespace skipped before a formatted extraction. -/
def skip_ws : List Char → List Char
  | [] => []
  | c :: cs => if isspace c then skip_ws cs else c :: cs

/-- The run of digits at the head of the input: its value accumulated on `acc`,
the number of digits read added to `n`, and the remaining input. -/
def read_digits : List Char → Nat → Nat → Nat × Nat × List Char
  | [], acc, n => (acc, n, [])
  | c :: cs, acc, n =>
    if isdigit c then read_digits cs (10 * acc + digit_value c) (n + 1) else (acc, n, c :: cs)

/-- An optional sign at the head of the input: whether it is `-`, and the rest. -/
def read_sign : List Char → Bool × List Char
  | [] => (false, [])
  | c :: cs => if c = '-' then (true, cs) else if c = '+' then (false, cs) else (false, c :: cs)

/-- Models `INT_MAX` for the 32-bit `int`. -/
def INT_MAX : Int := 2147483647
/-- Models `INT_MIN` for the 32-bit `int`. -/
def INT_MIN : Int := -2147483648

/-- Models `stream >> int` on a stream in good state: whitespace is skipped, then an
optional sign and at least one digit are read; the extraction fails (`none`)
without a digit or when the value does not fit an `int`. On success the value
and the remaining input are returned. -/
def extract_int (input : List Char) : Option (Int × List Char) :=
  let sg := read_sign (skip_ws input)
  let d := read_digits sg.2 0 0
  if d.2.1 = 0 then none
  else
    let x : Int := if sg.1 then -(d.1 : Int) else (d.1 : Int)
    if INT_MIN ≤ x ∧ x ≤ INT_MAX then some (x, d.2.2) else none

/-- A decimal numeral `mantissa * 10 ^ exponent`. -/
structure Decimal where
  mantissa : Int
  exponent : Int
deriving DecidableEq, Repr

/-- The number a decimal numeral denotes. -/
def Decimal.toRat (d : Decimal) : ℚ := (d.mantissa : ℚ) * (10 : ℚ) ^ d.exponent

/-- The mantissa of a floating-point field: digits, then an optional point with
more digits. Returns the digits read as one number, the count of digits before
the point, the count after it, and the remaining input. -/
def read_mantissa (s : List Char) : Nat × Nat × Nat × List Char :=
  let ip := read_digits s 0 0
  match ip.2.2 with
  | [] => (ip.1, ip.2.1, 0, [])
  | c :: cs =>
    if c = '.' then
      let fp := read_digits cs ip.1 0
      (fp.1, ip.2.1, fp.2.1, fp.2.2)
    else (ip.1, ip.2.1, 0, c :: cs)

/-- The exponent of a floating-point field: nothing (exponent 0), or `e` / `E`
with an optional sign and at least one digit; `none` when the mark is not
followed by a digit. -/
def read_exponent (s : List Char) : Option (Int × List Char) :=
  match s with
  | [] => some (0, [])
  | c :: cs =>
    if c = 'e' ∨ c = 'E' then
      let es := read_sign cs
      let ed := read_digits es.2 0 0
      if ed.2.1 = 0 then none
      else some (if es.1 then -(ed.1 : Int) else (ed.1 : Int), ed.2.2)
    else some (0, c :: cs)

/-- The numeral read by `stream >> double`: whitespace is skipped, then an
optional sign, the mantissa and the exponent are read. The extraction fails
(`none`) without a mantissa digit or when an exponent mark is not followed by a
digit. -/
def extract_decimal (input : List Char) : Option (Decimal × List Char) :=
  let sg := read_sign (skip_ws input)
  let mt := read_mantissa sg.2
  if mt.2.1 + mt.2.2.1 = 0 then none
  else
    match read_exponent mt.2.2.2 with
    | none => none
    | some (e, rest) =>
      some (⟨if sg.1 then -(mt.1 : Int) else (mt.1 : Int), e - (mt.2.2.1 : Int)⟩, rest)

/-- The value of the numeral `stream >> double` reads, before the range test. -/
def extract_value (input : List Char) : Option (ℚ × List Char) :=
  (extract_decimal input).map (fun r => (r.1.toRat, r.2))

/-- The magnitude from which a decimal numeral converts to an infinite `double`:
halfway between `DBL_MAX = 2 ^ 1024 - 2 ^ 971` and `2 ^ 1024`. -/
def DBL_OVERFLOW : ℚ := 2 ^ 1024 - 2 ^ 970

/-- The largest finite `double`. -/
def DBL_MAX : ℚ := 2 ^ 1024 - 2 ^ 971

/-- Models `stream >> double`: the value of the numeral read. The extraction
fails (`none`) when no numeral can be read, and when the numeral does not fit a
`double`: the conversion then yields an infinity and the stream sets `failbit`. -/
def extract_double (input : List Char) : Option (ℚ × List Char) :=
  match extract_value input with
  | none => none
  | some r => if DBL_OVERFLOW ≤ |r.1| then none else some r

/-- The decimal digits of `n`, most significant first (`fuel` bounds the number
of digits after the first). -/
def nat_digits : Nat → Nat → List Char
  | 0, n => [digit_char (n % 10)]
  | fuel + 1, n =>
    if n < 10 then [digit_char n] else nat_digits fuel (n / 10) ++ [digit_char (n % 10)]

/-- A natural number as written by `operator<<`. -/
def format_nat (n : Nat) : List Char := nat_digits n n

/-- Models `stream << int`. -/
def format_int (x : Int) : List Char :=
  if x < 0 then '-' :: format_nat x.natAbs else format_nat x.natAbs

/-- Exactly `w` digits of `n` (its last `w` digits, zero-padded). -/
def pad_digits : Nat → Nat → List Char
  | 0, _ => []
  | w + 1, n => pad_digits w (n / 10) ++ [digit_char (n % 10)]

/-- The `w` fraction digits of `f` with the trailing zeros removed. -/
def fraction_digits : Nat → Nat → List Char
  | 0, _ => []
  | w + 1, f => if f % 10 = 0 then fraction_digits w (f / 10) else pad_digits (w + 1) f

/-- The number `m / 10 ^ w` in fixed notation with `w` decimals, trailing zeros
removed, and the point removed when no decimal is left. -/
def format_fixed (m w : Nat) : List Char :=
  let frac := fraction_digits w (m % 10 ^ w)
  format_nat (m / 10 ^ w) ++ (if frac = [] then [] else '.' :: frac)

/-- Division of `N` by `D` rounded to the nearest integer, ties to even. -/
def round_half_even (N D : Nat) : Nat :=
  let m := N / D
  let r := N % D
  if D < 2 * r ∨ (2 * r = D ∧ m % 2 = 1) then m + 1 else m

/-- The fraction `p / q` times `10 ^ j`, rounded to the nearest integer. -/
def scaled_round (p q : Nat) (j : Int) : Nat :=
  if 0 ≤ j then round_half_even (p * 10 ^ j.toNat) q else round_half_even p (q * 10 ^ (-j).toNat)

/-- The decimal exponent of `p / q` (`p, q > 0`): the `X` with
`10 ^ X <= p / q < 10 ^ (X + 1)`. -/
def decimal_exponent (p q : Nat) : Int :=
  let e0 : Int := ((format_nat p).length : Int) - ((format_nat q).length : Int)
  if 0 ≤ e0 then (if q * 10 ^ e0.toNat ≤ p then e0 else e0 - 1)
  else (if q ≤ p * 10 ^ (-e0).toNat then e0 else e0 - 1)

/-- The default stream precision. -/
def PRECISION : Nat := 6

/-- The six significant digits of `p / q`: `(m, X)` stands for
`m * 10 ^ (X - 5)` with `100000 <= m < 1000000`. -/
def six_digits (p q : Nat) : Nat × Int :=
  let X := decimal_exponent p q
  let m := scaled_round p q ((PRECISION : Int) - 1 - X)
  if m = 10 ^ PRECISION then (10 ^ (PRECISION - 1), X + 1) else (m, X)

/-- The exponent field of the scientific notation: a sign and at least two digits. -/
def format_exponent (X : Int) : List Char :=
  (if X < 0 then '-' else '+') ::
    (if X.natAbs < 10 then '0' :: format_nat X.natAbs else format_nat X.natAbs)

/-- Models `stream << double` with the default flags, which `save_q_table` never
changes (the `%g` conversion with precision 6): six significant digits, fixed
notation when the decimal exponent `X` satisfies `-4 <= X < 6` and scientific
notation otherwise, trailing zeros removed. -/
def format_double (x : ℚ) : List Char :=
  if x = 0 then ['0']
  else
    let d := six_digits x.num.natAbs x.den
    let body :=
      if -4 ≤ d.2 ∧ d.2 < (PRECISION : Int) then format_fixed d.1 ((PRECISION : Int) - 1 - d.2).toNat
      else format_fixed d.1 (PRECISION - 1) ++ 'e' :: format_exponent d.2
    if x < 0 then '-' :: body else body

/-- The value of the numeral `format_double` writes: `x` rounded to six
significant decimal digits. -/
def round6 (x : ℚ) : ℚ :=
  if x = 0 then 0
  else
    let d := six_digits x.num.natAbs x.den
    (if x < 0 then -1 else 1) * ((d.1 : ℚ) * (10 : ℚ) ^ (d.2 - ((PRECISION : Int) - 1)))

/-! ## QLearningAgent.cpp: persistence -/

/-- The line `save_q_table` writes for one entry (without the final newline). -/
def format_line (s : State) (q : QValues) : List Char :=
  format_int s.ball_x_grid ++ ' ' :: format_int s.ball_y_grid ++ ' ' ::
  format_int s.ball_vx_category ++ ' ' :: format_int s.ball_vy_category ++ ' ' ::
  format_int s.cpu_paddle_y_grid ++ ' ' :: format_int s.player_paddle_y_grid ++ ' ' ::
  format_double q.v0 ++ ' ' :: format_double q.v1 ++ ' ' :: format_double q.v2

/-- The text `save_q_table` writes for a table: one line per entry, in
iteration order. -/
def save_text : QTable → List Char
  | [] => []
  | (s, q) :: rest => format_line s q ++ newline :: save_text rest

/-- Models `QLearningAgent::save_q_table`: `can_open` tells whether the output file
opens. Returns the result flag and the text written; the agent is not changed
(the method is `const`). -/
def save_q_table {G : Type} (ag : QLearningAgent G) (can_open : Bool) : Bool × Option (List Char) :=
  if can_open then (true, some (save_text ag.q_table)) else (false, none)

/-- The extraction chain of `load_q_table` on one line:
`ss >> s.ball_x_grid >> ... >> q_values[2]`, `none` when the stream has failed. -/
def parse_line (line : List Char) : Option (State × QValues) := do
  let (x, r) ← extract_int line
  let (y, r) ← extract_int r
  let (vx, r) ← extract_int r
  let (vy, r) ← extract_int r
  let (cpu, r) ← extract_int r
  let (player, r) ← extract_int r
  let (q0, r) ← extract_double r
  let (q1, r) ← extract_double r
  let (q2, _) ← extract_double r
  pure (⟨x, y, vx, vy, cpu, player⟩, ⟨q0, q1, q2⟩)

/-- The `while (std::getline(...))` loop of `load_q_table`: the table, the count
`lines_read` and the count `errors` after the given lines. -/
def load_loop : List (List Char) → QTable → Nat → Nat → QTable × Nat × Nat
  | [], t, lines_read, errors => (t, lines_read, errors)
  | line :: rest, t, lines_read, errors =>
    match parse_line line with
    | some (s, q_values) => load_loop rest (t.assign s q_values) (lines_read + 1) errors
    | none => load_loop rest t lines_read (errors + 1)

/-- What `load_q_table` leaves: the returned flag, the agent, and the two counts
it reports. -/
structure LoadResult (G : Type) where
  ok : Bool
  agent : QLearningAgent G
  lines_read : Nat
  errors : Nat

/-- Models `QLearningAgent::load_q_table`: `infile` is the content of the file, `none`
when it cannot be opened. -/
def load_q_table {G : Type} (ag : QLearningAgent G) (infile : Option (List Char)) : LoadResult G :=
  match infile with
  | none => ⟨false, ag, 0, 0⟩
  | some text =>
    let r := load_loop (getlines text) [] 0 0
    ⟨true, { ag with q_table := r.1 }, r.2.1, r.2.2⟩

/-- The states that have an entry, in iteration order. -/
def QTable.keys (t : QTable) : List State := t.map Prod.fst

/-- A line is valid when the extraction chain of `load_q_table` succeeds on it. -/
def valid_line (line : List Char) : Bool := (parse_line line).isSome

/-- Models `class Ball`: centre position, velocity, speed, radius and the window
bounds (the drawable shape and the random engine are left out). -/
structure Ball where
  position : ℚ × ℚ
  velocity : ℚ × ℚ
  speed : ℚ
  radius : ℚ
  windowBounds : Nat × Nat

/-- Models `Ball::reset`: back to the centre; `direction` is the pair
`(cos angle, sin angle)` of the diagonal the random draw selects. -/
def Ball.reset (b : Ball) (direction : ℚ × ℚ) : Ball :=
  { b with
    position := ((b.windowBounds.1 : ℚ) / 2, (b.windowBounds.2 : ℚ) / 2)
    velocity := (direction.1 * b.speed, direction.2 * b.speed) }

/-- Models `Ball::bounceY`. -/
def Ball.bounceY (b : Ball) : Ball := { b with velocity := (b.velocity.1, -b.velocity.2) }

/-- Models `Ball::update`: the score event returned (0 none, 1 player scored, -1 CPU
scored) and the ball afterwards. -/
def Ball.update (b : Ball) (dt : ℚ) (direction : ℚ × ℚ) : Int × Ball :=
  let b1 : Ball :=
    { b with position := (b.position.1 + b.velocity.1 * dt, b.position.2 + b.velocity.2 * dt) }
  let b2 : Ball :=
    if b1.position.2 - b1.radius < 0 then
      Ball.bounceY { b1 with position := (b1.position.1, b1.radius) }
    else if b1.position.2 + b1.radius > (b1.windowBounds.2 : ℚ) then
      Ball.bounceY { b1 with position := (b1.position.1, (b1.windowBounds.2 : ℚ) - b1.radius) }
    else b1
  if b2.position.1 - b2.radius < 0 then (-1, b2.reset direction)
  else if b2.position.1 + b2.radius > (b2.windowBounds.1 : ℚ) then (1, b2.reset direction)
  else (0, b2)

/-- Models `class Paddle`: top-left position, size, speed and the window bounds. -/
structure Paddle where
  position : ℚ × ℚ
  size : ℚ × ℚ
  speed : ℚ
  windowBounds : Nat × Nat

/-! ## Arithmetic in `float` and the conversion to `int` -/

/-- The number of binary digits of `n`, with fuel. -/
def bit_length_aux : Nat → Nat → Nat
  | 0, _ => 0
  | fuel + 1, n => if n = 0 then 0 else bit_length_aux fuel (n / 2) + 1

/-- The number of binary digits of `n` (0 for 0). -/
def bit_length (n : Nat) : Nat := bit_length_aux n n

/-- The binary exponent of `x ≠ 0`: the `e` with `2 ^ e <= |x| < 2 ^ (e + 1)`. -/
def binary_exponent (x : ℚ) : Int :=
  let e0 : Int := (bit_length x.num.natAbs : Int) - (bit_length x.den : Int)
  if (2 : ℚ) ^ e0 ≤ |x| then e0 else e0 - 1

/-- Rounding to the nearest integer, ties to the even one. -/
def round_nearest_even (x : ℚ) : Int :=
  let f := Int.floor x
  let r := x - (f : ℚ)
  if r < 1 / 2 then f else if 1 / 2 < r then f + 1 else if f % 2 = 0 then f else f + 1

/-- The exponent of the `float` binade of `x ≠ 0`; `-126` for the subnormal
range. -/
def float_exponent (x : ℚ) : Int := max (binary_exponent x) (-126)

/-- The value of a `float` operation whose exact result is `x`: `x` rounded to
24 significant binary digits, to nearest, ties to even. Results beyond the
largest `float` are not turned into infinities. -/
def round_float (x : ℚ) : ℚ :=
  if x = 0 then 0
  else (round_nearest_even (x / (2 : ℚ) ^ (float_exponent x - 23)) : ℚ) *
    (2 : ℚ) ^ (float_exponent x - 23)

/-- Models `static_cast<int>(v)` for an integral `float` value `v`: the value
itself when it fits an `int`. Otherwise the conversion is undefined in C++; the
model returns `INT_MIN`, the "integer indefinite" value that the conversion
instruction of x86-64 produces. -/
def static_cast_int (v : Int) : Int := if INT_MIN ≤ v ∧ v ≤ INT_MAX then v else INT_MIN

/-- The largest `float` below `2 ^ 31`. -/
def INT_FLOAT_MAX : ℚ := 2147483520

/-- The bound on coordinates under which the code agrees with the reference
discretizer: `2 ^ 36`. -/
def COORDINATE_MAX : ℚ := 68719476736

/-! ## Game.h / Game.cpp -/

/-- Models `WINDOW_WIDTH`. -/
def WINDOW_WIDTH : Nat := 800
/-- Models `WINDOW_HEIGHT`. -/
def WINDOW_HEIGHT : Nat := 600
/-- Models `PADDLE_HEIGHT`. -/
def PADDLE_HEIGHT : ℚ := 80

/-- Models `enum class GameState`. -/
inductive GameState where
  | MainMenu
  | OptionsMenu
  | Playing
  | Paused
  | GameOver
deriving DecidableEq, Repr

/-- Models `class Game`: the members the game logic reads and writes (window, font,
texts and menus are left out). -/
structure Game (G : Type) where
  windowSize : Nat × Nat
  playerPaddle : Paddle
  cpuPaddle : Paddle
  ball : Ball
  aiAgent : QLearningAgent G
  previousAiState : State
  lastAiAction : Action
  aiStateInitialized : Bool
  currentDifficulty : DifficultyLevel
  currentState : GameState
  playerScore : Int
  cpuScore : Int

/-- Models `Game::getCurrentStateForAI` in `float` arithmetic: every quotient and
sum is rounded to `float` (`round_float`), `std::floor` is `Int.floor`,
`static_cast<int>` is `static_cast_int`, and
`std::max(0, std::min(DIVISIONS - 1, i))` is kept as written. -/
def getCurrentStateForAI {G : Type} (g : Game G) : State :=
  let ballPos := g.ball.position
  let ballVel := g.ball.velocity
  let cpuPos := g.cpuPaddle.position
  let playerPos := g.playerPaddle.position
  let ball_x_grid : Int := static_cast_int (Int.floor (round_float
    (ballPos.1 / round_float (round_float (g.windowSize.1 : ℚ) / (GRID_X_DIVISIONS : ℚ)))))
  let ball_y_grid : Int := static_cast_int (Int.floor (round_float
    (ballPos.2 / round_float (round_float (g.windowSize.2 : ℚ) / (GRID_Y_DIVISIONS : ℚ)))))
  let ball_x_grid := max 0 (min (GRID_X_DIVISIONS - 1) ball_x_grid)
  let ball_y_grid := max 0 (min (GRID_Y_DIVISIONS - 1) ball_y_grid)
  let ball_vx_category : Int := if ballVel.1 > 0 then 1 else (if ballVel.1 < 0 then -1 else 0)
  let ball_vy_category : Int := if ballVel.2 > 0 then 1 else (if ballVel.2 < 0 then -1 else 0)
  let cpuCenterY := round_float (cpuPos.2 + round_float (PADDLE_HEIGHT / 2))
  let playerCenterY := round_float (playerPos.2 + round_float (PADDLE_HEIGHT / 2))
  let cpu_paddle_y_grid : Int := static_cast_int (Int.floor (round_float
    (cpuCenterY / round_float (round_float (g.windowSize.2 : ℚ) / (PADDLE_Y_DIVISIONS : ℚ)))))
  let player_paddle_y_grid : Int := static_cast_int (Int.floor (round_float
    (playerCenterY / round_float (round_float (g.windowSize.2 : ℚ) / (PADDLE_Y_DIVISIONS : ℚ)))))
  let cpu_paddle_y_grid := max 0 (min (PADDLE_Y_DIVISIONS - 1) cpu_paddle_y_grid)
  let player_paddle_y_grid := max 0 (min (PADDLE_Y_DIVISIONS - 1) player_paddle_y_grid)
  { ball_x_grid := ball_x_grid
    ball_y_grid := ball_y_grid
    ball_vx_category := ball_vx_category
    ball_vy_category := ball_vy_category
    cpu_paddle_y_grid := cpu_paddle_y_grid
    player_paddle_y_grid := player_paddle_y_grid }

/-- Models `Game::calculateReward`. -/
def calculateReward (scoreEvent : Int) (cpuHitBall cpuMovedUnnecessarily : Bool) : ℚ :=
  let reward : ℚ := 0
  let reward := if cpuHitBall then reward + 10 else reward
  let reward := if scoreEvent = -1 then reward - 20 else reward
  let reward := if cpuMovedUnnecessarily then reward - 5 else reward
  reward

/-- The scoring block of `Game::updatePlaying` (from `bool scored = false` to
`aiStateInitialized = false`), for the score event `Ball::update` returned:
scores, ball reset, and the Q-update with `calculateReward(scoreEvent, false,
false)`. -/
def scoringBlock {G : Type} (g : Game G) (scoreEvent : Int) (direction : ℚ × ℚ) : Game G :=
  let g1 : Game G :=
    if scoreEvent = 1 then { g with cpuScore := g.cpuScore - 1 }
    else if scoreEvent = -1 then { g with playerScore := g.playerScore - 1 }
    else g
  let scored : Bool := scoreEvent = 1 || scoreEvent = -1
  if scored then
    let g2 : Game G := { g1 with ball := g1.ball.reset direction }
    let g3 : Game G :=
      if g2.aiStateInitialized then
        let reward := calculateReward scoreEvent false false
        let nextState := getCurrentStateForAI g2
        { g2 with aiAgent := update_q_value g2.aiAgent g2.previousAiState g2.lastAiAction reward
                    nextState }
      else g2
    { g3 with aiStateInitialized := false }
  else g1

/-! ## The discretizer as the specification words it -/

/-- Clamp `v` into `[lo, hi]`. -/
def clamp (v lo hi : Int) : Int := if v < lo then lo else if hi < v then hi else v

/-- Position bucket: `floor(position / (bound_dimension / divisions))`, then
clamped to `[0, divisions - 1]`. -/
def reference_bucket (position bound_dimension : ℚ) (divisions : Int) : Int :=
  clamp (Int.floor (position / (bound_dimension / (divisions : ℚ)))) 0 (divisions - 1)

/-- Velocity sign: `v == 0 → 0`, `v > 0 → +1`, `v < 0 → -1`. -/
def reference_sign (v : ℚ) : Int := if v = 0 then 0 else if v > 0 then 1 else -1

/-- The reference discretizer for the 800 x 600 window with 10 divisions each;
a paddle is bucketed by its vertical centre `top + 40`. -/
def reference_discretizer (x y vx vy cpuTop playerTop : ℚ) : State :=
  { ball_x_grid := reference_bucket x 800 10
    ball_y_grid := reference_bucket y 600 10
    ball_vx_category := reference_sign vx
    ball_vy_category := reference_sign vy
    cpu_paddle_y_grid := reference_bucket (cpuTop + 40) 600 10
    player_paddle_y_grid := reference_bucket (playerTop + 40) 600 10 }

/-! ## Sample games -/

/-- A paddle of the constructed game at height `y`. -/
def samplePaddle (x y : ℚ) : Paddle :=
  { position := (x, y), size := (15, 80), speed := 400, windowBounds := (800, 600) }

/-- A game in the Playing state with a pending transition `(previousAiState,
lastAiAction)` on a fresh EASY agent, the ball at `pos` with velocity `vel`. -/
def sampleGame (pos vel : ℚ × ℚ) : Game Unit :=
  { windowSize := (WINDOW_WIDTH, WINDOW_HEIGHT)
    playerPaddle := samplePaddle 20 260
    cpuPaddle := samplePaddle 765 260
    ball := { position := pos, velocity := vel, speed := 300, radius := 8,
              windowBounds := (800, 600) }
    aiAgent := QLearningAgent.new ()
    previousAiState := ⟨9, 5, 1, 1, 4, 4⟩
    lastAiAction := Action.UP
    aiStateInitialized := true
    currentDifficulty := DifficultyLevel.EASY
    currentState := GameState.Playing
    playerScore := 10
    cpuScore := 10 }

/-- A game as `sampleGame` with the CPU paddle's top at `top`. -/
def sampleGameWithCpu (pos vel : ℚ × ℚ) (top : ℚ) : Game Unit :=
  { sampleGame pos vel with cpuPaddle := samplePaddle 765 top }

/-- The grid of states with buckets in `[0, 9]` and velocity signs in
`{-1, 0, 1}`. -/
def state_grid : Finset State :=
  ((Finset.Icc (0 : Int) 9) ×ˢ (Finset.Icc (0 : Int) 9) ×ˢ (Finset.Icc (-1 : Int) 1) ×ˢ
    (Finset.Icc (-1 : Int) 1) ×ˢ (Finset.Icc (0 : Int) 9) ×ˢ (Finset.Icc (0 : Int) 9)).image
    (fun t => State.mk t.1 t.2.1 t.2.2.1 t.2.2.2.1 t.2.2.2.2.1 t.2.2.2.2.2)

/-- A table with one entry, for the state `(1,1,1,1,1,1)`. -/
def one_entry_agent : QLearningAgent Unit :=
  { q_table := [(⟨1, 1, 1, 1, 1, 1⟩, ⟨1, 2, 3⟩)], alpha := 1 / 10, gamma := 9 / 10,
    epsilon := 1 / 10, rng := () }

/-- The number a run of digit characters denotes, continuing from `acc`. -/
def digits_value : List Char → Nat → Nat
  | [], acc => acc
  | c :: cs, acc => digits_value cs (10 * acc + digit_value c)

/-- The three values of an entry as they are read back from the saved text. -/
def QValues.as_saved (q : QValues) : QValues := ⟨round6 q.v0, round6 q.v1, round6 q.v2⟩

/-- The three values of an entry, as `save_q_table` writes them, fit a `double`:
the numerals written can be read back. -/
def QValues.fits_double (q : QValues) : Prop :=
  |round6 q.v0| < DBL_OVERFLOW ∧ |round6 q.v1| < DBL_OVERFLOW ∧ |round6 q.v2| < DBL_OVERFLOW

instance QValues.decidable_fits_double (q : QValues) : Decidable q.fits_double := by
  unfold QValues.fits_double
  infer_instance

/-- Every entry of the table holds values that fit a `double`. -/
def QTable.values_fit_double (t : QTable) : Prop := ∀ e ∈ t, e.2.fits_double

instance QTable.decidable_values_fit_double (t : QTable) : Decidable t.values_fit_double := by
  unfold QTable.values_fit_double
  infer_instance

/-- The three values of an entry are finite `double` values: none exceeds
`DBL_MAX` in magnitude. -/
def QValues.in_double_range (q : QValues) : Prop :=
  |q.v0| ≤ DBL_MAX ∧ |q.v1| ≤ DBL_MAX ∧ |q.v2| ≤ DBL_MAX

instance QValues.decidable_in_double_range (q : QValues) : Decidable q.in_double_range := by
  unfold QValues.in_double_range
  infer_instance

/-- Every entry of the table holds finite `double` values. -/
def QTable.values_in_double_range (t : QTable) : Prop := ∀ e ∈ t, e.2.in_double_range

instance QTable.decidable_values_in_double_range (t : QTable) :
    Decidable t.values_in_double_range := by
  unfold QTable.values_in_double_range
  infer_instance

/-- All six fields of a state fit the 32-bit `int` of the source. -/
def State.in_int_range (s : State) : Prop :=
  (INT_MIN ≤ s.ball_x_grid ∧ s.ball_x_grid ≤ INT_MAX) ∧
  (INT_MIN ≤ s.ball_y_grid ∧ s.ball_y_grid ≤ INT_MAX) ∧
  (INT_MIN ≤ s.ball_vx_category ∧ s.ball_vx_category ≤ INT_MAX) ∧
  (INT_MIN ≤ s.ball_vy_category ∧ s.ball_vy_category ≤ INT_MAX) ∧
  (INT_MIN ≤ s.cpu_paddle_y_grid ∧ s.cpu_paddle_y_grid ≤ INT_MAX) ∧
  (INT_MIN ≤ s.player_paddle_y_grid ∧ s.player_paddle_y_grid ≤ INT_MAX)

/-- One learning call: `(old_state, action, reward, new_state)`. -/
abbrev Transition := State × Action × ℚ × State

/-- The agent after a sequence of `update_q_value` calls. -/
def apply_updates {G : Type} (ag : QLearningAgent G) : List Transition → QLearningAgent G
  | [] => ag
  | u :: rest => apply_updates (update_q_value ag u.1 u.2.1 u.2.2.1 u.2.2.2) rest

/-- The characters `save_q_table` writes inside a line. -/
def line_char (c : Char) : Bool :=
  isdigit c || c = '-' || c = '+' || c = '.' || c = 'e' || c = ' '

/-- The invariant of a table as a map of C++ states: no key twice, every key
made of `int` values. -/
def QTable.well_formed (t : QTable) : Prop :=
  t.keys.Nodup ∧ ∀ s ∈ t.keys, s.in_int_range

instance State.decidable_in_int_range (s : State) : Decidable s.in_int_range := by
  unfold State.in_int_range
  infer_instance

/-- Four learning calls on the state `(2,5,-1,1,3,3)` with reward 10, each
leading back to the same state. -/
def sample_updates : List Transition :=
  List.replicate 4 (⟨2, 5, -1, 1, 3, 3⟩, Action.STAY, 10, ⟨2, 5, -1, 1, 3, 3⟩)

/-- The nine fields `save_q_table` writes for one entry. -/
def fields_of (s : State) (q : QValues) : List (List Char) :=
  [format_int s.ball_x_grid, format_int s.ball_y_grid, format_int s.ball_vx_category,
   format_int s.ball_vy_category, format_int s.cpu_paddle_y_grid,
   format_int s.player_paddle_y_grid, format_double q.v0, format_double q.v1,
   format_double q.v2]

/-- Fields joined into a line, one space between two fields. -/
def join_fields : List (List Char) → List Char
  | [] => []
  | [f] => f
  | f :: g :: rest => f ++ ' ' :: join_fields (g :: rest)

/-- A character that can begin a number: a digit, a sign or the point. -/
def number_start (c : Char) : Bool := isdigit c || c = '-' || c = '+' || c = '.'

/-- A line with ten numeric fields. -/
def ten_field_line : List Char := "1 2 0 0 3 3 1 2 3 4".toList

/-- The agent after a sequence of `set_difficulty` calls. -/
def apply_difficulties {G : Type} (ag : QLearningAgent G) (levels : List DifficultyLevel) :
    QLearningAgent G :=
  levels.foldl set_difficulty ag

/-- The three learning parameters `(alpha, gamma, epsilon)` of an agent. -/
def QLearningAgent.parameters {G : Type} (ag : QLearningAgent G) : ℚ × ℚ × ℚ :=
  (ag.alpha, ag.gamma, ag.epsilon)

/-- A random source on a counter: every exploration sample is `1/2`, the action
drawn at the engine state `g` is `g mod 3`. -/
def sample_source : RandomSource Nat :=
  { advance := fun g => g + 1
    exploration_value := fun _ => 1 / 2
    action_value := fun g => ⟨g % 3, Nat.mod_lt g (by decide)⟩ }

/-- An agent holding `(1,1,1,1,1,1)` with the values `(1, 2, 3)`, with the given
exploration rate and the engine at state 0. -/
def sample_agent (epsilon : ℚ) : QLearningAgent Nat :=
  { q_table := [(⟨1, 1, 1, 1, 1, 1⟩, ⟨1, 2, 3⟩)], alpha := 1 / 10, gamma := 9 / 10,
    epsilon := epsilon, rng := 0 }

/-- The prior state `(2,5,-1,1,3,3)` of the worked learning example: ball moving
left, paddles centred. -/
def scenario_state : State := ⟨2, 5, -1, 1, 3, 3⟩

/-- Every value stored in the table lies in `[L, U]`. -/
def QTable.bounded (t : QTable) (L U : ℚ) : Prop :=
  ∀ e ∈ t, ∀ i : Fin 3, L ≤ e.2.get i ∧ e.2.get i ≤ U

/-- A call the game makes on its agent: a difficulty change, or a learning call
whose reward is `calculateReward(scoreEvent, cpuHitBall, cpuMovedUnnecessarily)`. -/
inductive AgentCall where
  | difficulty (level : DifficultyLevel)
  | learn (old_state : State) (action : Action) (scoreEvent : Int)
      (cpuHitBall cpuMovedUnnecessarily : Bool) (new_state : State)

/-- The agent after a sequence of calls. -/
def apply_calls {G : Type} (ag : QLearningAgent G) : List AgentCall → QLearningAgent G
  | [] => ag
  | AgentCall.difficulty level :: rest => apply_calls (set_difficulty ag level) rest
  | AgentCall.learn s a e h m s' :: rest =>
    apply_calls (update_q_value ag s a (calculateReward e h m) s') rest


/-- The learning parameters are those of one of the three profiles. -/
def profile_parameters {G : Type} (ag : QLearningAgent G) : Prop :=
  (ag.alpha = 1 / 10 ∧ ag.gamma = 9 / 10) ∨ (ag.alpha = 2 / 10 ∧ ag.gamma = 9 / 10) ∨
  (ag.alpha = 2 / 10 ∧ ag.gamma = 95 / 100)


/-- Models `Ball::bounceX`. -/
def Ball.bounceX (b : Ball) : Ball := { b with velocity := (-b.velocity.1, b.velocity.2) }

/-- Models `Ball::increaseSpeed(factor)`. -/
def Ball.increaseSpeed (b : Ball) (factor : ℚ) : Ball :=
  { b with velocity := (b.velocity.1 * factor, b.velocity.2 * factor) }

/-- The default argument `1.05f` of `Ball::increaseSpeed`. -/
def DEFAULT_FACTOR : ℚ := 105 / 100

/-- Models `Ball::setPosition`. -/
def Ball.setPosition (b : Ball) (x y : ℚ) : Ball := { b with position := (x, y) }

/-- Models `Paddle::moveUp`. -/
def Paddle.moveUp (p : Paddle) (dt : ℚ) : Paddle :=
  let y := p.position.2 - p.speed * dt
  { p with position := (p.position.1, if y < 0 then 0 else y) }

/-- Models `Paddle::moveDown`. -/
def Paddle.moveDown (p : Paddle) (dt : ℚ) : Paddle :=
  let y := p.position.2 + p.speed * dt
  let bottomEdge := y + p.size.2
  { p with position :=
      (p.position.1, if bottomEdge > (p.windowBounds.2 : ℚ) then (p.windowBounds.2 : ℚ) - p.size.2
                     else y) }

/-- Models `Paddle::setPosition`. -/
def Paddle.setPosition (p : Paddle) (x y : ℚ) : Paddle :=
  let y1 := if y < 0 then 0 else y
  let bottomEdge := y1 + p.size.2
  { p with position :=
      (x, if bottomEdge > (p.windowBounds.2 : ℚ) then (p.windowBounds.2 : ℚ) - p.size.2 else y1) }

/-- Models `PADDLE_WIDTH`. -/
def PADDLE_WIDTH : ℚ := 15
/-- Models `BALL_RADIUS`. -/
def BALL_RADIUS : ℚ := 8
/-- Models `PADDLE_SPEED`. -/
def PADDLE_SPEED : ℚ := 400
/-- Models `BALL_INITIAL_SPEED`. -/
def BALL_INITIAL_SPEED : ℚ := 300
/-- Models `PADDLE_MARGIN`. -/
def PADDLE_MARGIN : ℚ := 20
/-- Models `Game::startingScore`. -/
def startingScore : Int := 10
/-- Models `Game::scoreToWin`. -/
def scoreToWin : Int := 0

/-- The keys of `sf::Keyboard::Key` the game tests; `Other` is any other key. -/
inductive Key where
  | Up
  | Down
  | W
  | S
  | Return
  | Escape
  | Other
deriving DecidableEq, Repr

/-- What one call of `Game::updatePlaying` reads from outside the game: the frame
time in seconds, the states of the W and S keys, the direction the ball's engine
draws for the reset inside `Ball::update` and the one for the reset after a score,
and the results of the two `intersects` tests on the drawable shapes. -/
structure FrameInput where
  seconds : ℚ
  keyW : Bool
  keyS : Bool
  updateDirection : ℚ × ℚ
  resetDirection : ℚ × ℚ
  ballHitsPlayer : Bool
  ballHitsCpu : Bool

/-- The constructor `Game::Game()`: `seed` is the agent's seeded engine, `direction`
the direction drawn by the ball's constructor, `infile` the content of
`pong_q_table.dat` (`none` when it does not open). The constructor leaves
`previousAiState` at its default and `lastAiAction` unset; neither is read while
`aiStateInitialized` is false. -/
def Game.new {G : Type} (seed : G) (direction : ℚ × ℚ) (infile : Option (List Char)) : Game G :=
  { windowSize := (WINDOW_WIDTH, WINDOW_HEIGHT)
    currentState := GameState.MainMenu
    playerScore := startingScore
    cpuScore := startingScore
    aiStateInitialized := false
    currentDifficulty := DifficultyLevel.EASY
    playerPaddle :=
      { position := (PADDLE_MARGIN, (WINDOW_HEIGHT : ℚ) / 2 - PADDLE_HEIGHT / 2)
        size := (PADDLE_WIDTH, PADDLE_HEIGHT), speed := PADDLE_SPEED
        windowBounds := (WINDOW_WIDTH, WINDOW_HEIGHT) }
    cpuPaddle :=
      { position := ((WINDOW_WIDTH : ℚ) - PADDLE_WIDTH - PADDLE_MARGIN,
                     (WINDOW_HEIGHT : ℚ) / 2 - PADDLE_HEIGHT / 2)
        size := (PADDLE_WIDTH, PADDLE_HEIGHT), speed := PADDLE_SPEED
        windowBounds := (WINDOW_WIDTH, WINDOW_HEIGHT) }
    ball := Ball.reset
      { position := ((WINDOW_WIDTH : ℚ) / 2, (WINDOW_HEIGHT : ℚ) / 2), velocity := (0, 0)
        speed := BALL_INITIAL_SPEED, radius := BALL_RADIUS
        windowBounds := (WINDOW_WIDTH, WINDOW_HEIGHT) } direction
    aiAgent :=
      (load_q_table (set_difficulty (QLearningAgent.new seed) DifficultyLevel.EASY) infile).agent
    previousAiState := {}
    lastAiAction := Action.STAY }

/-- Models `Game::resetGame`; `direction` is the direction `Ball::reset` draws. -/
def resetGame {G : Type} (g : Game G) (direction : ℚ × ℚ) : Game G :=
  { g with
    playerScore := startingScore
    cpuScore := startingScore
    playerPaddle := g.playerPaddle.setPosition PADDLE_MARGIN
      ((g.windowSize.2 : ℚ) / 2 - PADDLE_HEIGHT / 2)
    cpuPaddle := g.cpuPaddle.setPosition ((g.windowSize.1 : ℚ) - PADDLE_WIDTH - PADDLE_MARGIN)
      ((g.windowSize.2 : ℚ) / 2 - PADDLE_HEIGHT / 2)
    ball := g.ball.reset direction
    aiStateInitialized := false
    currentState := GameState.Playing }

/-- Models `Game::handleMenuInput`: `selectedIndex` is what
`currentMenu->getSelectedItemIndex()` returns, `direction` the direction a reset
of the ball draws. Moving the selection changes only the menu, and closing the
window only the window; neither is part of the modelled game. -/
def handleMenuInput {G : Type} (g : Game G) (key : Key) (selectedIndex : Int)
    (direction : ℚ × ℚ) : Game G :=
  if g.currentState = GameState.Playing then g
  else if key = Key.Up ∨ key = Key.W then g
  else if key = Key.Down ∨ key = Key.S then g
  else if key = Key.Return then
    match g.currentState with
    | GameState.MainMenu =>
      if selectedIndex = 0 then { resetGame g direction with currentState := GameState.Playing }
      else if selectedIndex = 1 then { g with currentState := GameState.OptionsMenu }
      else g
    | GameState.OptionsMenu =>
      if selectedIndex = 0 then
        let d : DifficultyLevel :=
          if g.currentDifficulty = DifficultyLevel.EASY then DifficultyLevel.MEDIUM
          else if g.currentDifficulty = DifficultyLevel.MEDIUM then DifficultyLevel.HARD
          else DifficultyLevel.EASY
        { g with currentDifficulty := d, aiAgent := set_difficulty g.aiAgent d }
      else if selectedIndex = 1 then { g with currentState := GameState.MainMenu }
      else g
    | GameState.Paused =>
      if selectedIndex = 0 then { g with currentState := GameState.Playing }
      else if selectedIndex = 1 then { g with currentState := GameState.MainMenu }
      else g
    | GameState.GameOver =>
      if selectedIndex = 0 then { resetGame g direction with currentState := GameState.Playing }
      else if selectedIndex = 1 then { g with currentState := GameState.MainMenu }
      else g
    | GameState.Playing => g
  else if key = Key.Escape then
    if g.currentState = GameState.OptionsMenu ∨ g.currentState = GameState.Paused ∨
        g.currentState = GameState.GameOver then
      { g with currentState := GameState.MainMenu }
    else g
  else g

/-- Models `Game::updateAI`: the game afterwards and the `update_q_value` calls
made, in order. -/
def updateAI {G : Type} (R : RandomSource G) (g : Game G) (seconds : ℚ) :
    Game G × List Transition :=
  let currentStateAI := getCurrentStateForAI g
  let learned : QLearningAgent G × List Transition :=
    if g.aiStateInitialized then
      let cpuMovedUnnecessarily : Bool :=
        decide (g.lastAiAction ≠ Action.STAY ∧ currentStateAI.ball_vx_category < 0)
      let reward := calculateReward 0 false cpuMovedUnnecessarily
      (update_q_value g.aiAgent g.previousAiState g.lastAiAction reward currentStateAI,
       [(g.previousAiState, g.lastAiAction, reward, currentStateAI)])
    else (g.aiAgent, [])
  let chosen := choose_action R learned.1 currentStateAI
  let chosenAction := chosen.1
  let cpuPaddle :=
    if chosenAction = Action.UP then g.cpuPaddle.moveUp seconds
    else if chosenAction = Action.DOWN then g.cpuPaddle.moveDown seconds
    else g.cpuPaddle
  ({ g with
      aiAgent := chosen.2
      cpuPaddle := cpuPaddle
      previousAiState := currentStateAI
      lastAiAction := chosenAction
      aiStateInitialized := true },
   learned.2)

/-- The player movement at the start of `Game::updatePlaying`. -/
def playerMovement {G : Type} (g : Game G) (inp : FrameInput) : Game G :=
  let g1 : Game G :=
    if inp.keyW then { g with playerPaddle := g.playerPaddle.moveUp inp.seconds } else g
  if inp.keyS then { g1 with playerPaddle := g1.playerPaddle.moveDown inp.seconds } else g1

/-- The scoring block of `Game::updatePlaying` with the `update_q_value` call it
makes: the game afterwards is `scoringBlock`. -/
def scoringStep {G : Type} (g : Game G) (scoreEvent : Int) (direction : ℚ × ℚ) :
    Game G × List Transition :=
  let g1 : Game G :=
    if scoreEvent = 1 then { g with cpuScore := g.cpuScore - 1 }
    else if scoreEvent = -1 then { g with playerScore := g.playerScore - 1 }
    else g
  let scored : Bool := scoreEvent = 1 || scoreEvent = -1
  if scored then
    let g2 : Game G := { g1 with ball := g1.ball.reset direction }
    let g3 : Game G × List Transition :=
      if g2.aiStateInitialized then
        let reward := calculateReward scoreEvent false false
        let nextState := getCurrentStateForAI g2
        ({ g2 with aiAgent := update_q_value g2.aiAgent g2.previousAiState g2.lastAiAction reward
                     nextState },
         [(g2.previousAiState, g2.lastAiAction, reward, nextState)])
      else (g2, [])
    ({ g3.1 with aiStateInitialized := false }, g3.2)
  else (g1, [])

/-- The paddle collisions of `Game::updatePlaying`, given the results of the two
`intersects` tests: the game afterwards and the flag `cpuHitBall`. -/
def paddleCollision {G : Type} (g : Game G) (ballHitsPlayer ballHitsCpu : Bool) :
    Game G × Bool :=
  let ball1 : Ball :=
    if ballHitsPlayer = true ∧ g.ball.velocity.1 < 0 then
      (g.ball.bounceX.increaseSpeed DEFAULT_FACTOR).setPosition
        (g.playerPaddle.position.1 + g.playerPaddle.size.1 + g.ball.radius + 1) g.ball.position.2
    else g.ball
  let cpuHitBall : Bool := decide (ballHitsCpu = true ∧ ball1.velocity.1 > 0)
  let ball2 : Ball :=
    if cpuHitBall then
      (ball1.bounceX.increaseSpeed DEFAULT_FACTOR).setPosition (g.cpuPaddle.position.1 - ball1.radius - 1)
        ball1.position.2
    else ball1
  ({ g with ball := ball2 }, cpuHitBall)

/-- The learning update at the end of `Game::updatePlaying` with the
`update_q_value` call it makes. -/
def learningStep {G : Type} (g : Game G) (scored cpuHitBall : Bool) :
    Game G × List Transition :=
  if scored = false ∧ g.aiStateInitialized = true then
    let currentStateAI := getCurrentStateForAI g
    let cpuMovedUnnecessarily : Bool :=
      decide (g.lastAiAction ≠ Action.STAY ∧ g.ball.velocity.1 < 0)
    let reward := calculateReward 0 cpuHitBall cpuMovedUnnecessarily
    ({ g with aiAgent := update_q_value g.aiAgent g.previousAiState g.lastAiAction reward
                currentStateAI },
     [(g.previousAiState, g.lastAiAction, reward, currentStateAI)])
  else (g, [])

/-- Models `Game::updatePlaying`: the game afterwards and the `update_q_value`
calls made, in order. -/
def updatePlaying {G : Type} (R : RandomSource G) (g : Game G) (inp : FrameInput) :
    Game G × List Transition :=
  let g1 := playerMovement g inp
  let ai := updateAI R g1 inp.seconds
  let moved := ai.1.ball.update inp.seconds inp.updateDirection
  let scoreEvent := moved.1
  let g2 : Game G := { ai.1 with ball := moved.2 }
  let scored : Bool := scoreEvent = 1 || scoreEvent = -1
  let sc := scoringStep g2 scoreEvent inp.resetDirection
  if scored = true ∧ (sc.1.playerScore ≤ scoreToWin ∨ sc.1.cpuScore ≤ scoreToWin) then
    ({ sc.1 with currentState := GameState.GameOver }, ai.2 ++ sc.2)
  else
    let pc := paddleCollision sc.1 inp.ballHitsPlayer inp.ballHitsCpu
    let ln := learningStep pc.1 scored pc.2
    (ln.1, ai.2 ++ sc.2 ++ ln.2)

/-- What the game loop feeds the game: a `KeyPressed` event (with the selected
index of the current menu and the direction a reset would draw), or a call of
`Game::update`. -/
inductive GameInput where
  | keyPressed (key : Key) (selectedIndex : Int) (direction : ℚ × ℚ)
  | frame (inp : FrameInput)

/-- The `KeyPressed` case of `Game::processEvents`. -/
def processKeyPressed {G : Type} (g : Game G) (key : Key) (selectedIndex : Int)
    (direction : ℚ × ℚ) : Game G :=
  if g.currentState = GameState.Playing then
    if key = Key.Escape then { g with currentState := GameState.Paused } else g
  else handleMenuInput g key selectedIndex direction

/-- Models `Game::update`. -/
def update {G : Type} (R : RandomSource G) (g : Game G) (inp : FrameInput) :
    Game G × List Transition :=
  match g.currentState with
  | GameState.Playing => updatePlaying R g inp
  | _ => (g, [])

/-- One input of the game loop. -/
def game_step {G : Type} (R : RandomSource G) (g : Game G) : GameInput → Game G × List Transition
  | GameInput.keyPressed key selectedIndex direction =>
    (processKeyPressed g key selectedIndex direction, [])
  | GameInput.frame inp => update R g inp

/-- The game after a sequence of inputs, with all `update_q_value` calls made. -/
def run_inputs {G : Type} (R : RandomSource G) (g : Game G) :
    List GameInput → Game G × List Transition
  | [] => (g, [])
  | i :: rest =>
    let s := game_step R g i
    let r := run_inputs R s.1 rest
    (r.1, s.2 ++ r.2)

/-- The score event `ball->update(seconds)` returns in a frame (neither the player
movement nor `updateAI` touches the ball). -/
def frameScoreEvent {G : Type} (g : Game G) (inp : FrameInput) : Int :=
  (g.ball.update inp.seconds inp.updateDirection).1

/-- The score invariant of the game: both scores in `[0, 10]`, and at least 1
while the game is being played or is paused. -/
def Game.scores_ok {G : Type} (g : Game G) : Prop :=
  (0 ≤ g.playerScore ∧ g.playerScore ≤ 10) ∧ (0 ≤ g.cpuScore ∧ g.cpuScore ≤ 10) ∧
  ((g.currentState = GameState.Playing ∨ g.currentState = GameState.Paused) →
    1 ≤ g.playerScore ∧ 1 ≤ g.cpuScore)

/-- The game after construction and a sequence of inputs. -/
def played {G : Type} (R : RandomSource G) (seed : G) (direction : ℚ × ℚ)
    (infile : Option (List Char)) (inputs : List GameInput) : Game G :=
  (run_inputs R (Game.new seed direction infile) inputs).1

/-- The game after the paddle collisions of a frame, and the flag `cpuHitBall`,
when the ball has passed no side wall in the frame. -/
def collided {G : Type} (R : RandomSource G) (g : Game G) (inp : FrameInput) : Game G × Bool :=
  paddleCollision
    { (updateAI R (playerMovement g inp) inp.seconds).1 with
      ball := (g.ball.update inp.seconds inp.updateDirection).2 }
    inp.ballHitsPlayer inp.ballHitsCpu

/-- The pair `(previousAiState, lastAiAction)` that `updateAI` records in a frame. -/
def recordedPair {G : Type} (R : RandomSource G) (g : Game G) (inp : FrameInput) :
    State × Action :=
  ((updateAI R (playerMovement g inp) inp.seconds).1.previousAiState,
   (updateAI R (playerMovement g inp) inp.seconds).1.lastAiAction)

/-- The `(state, action)` pairs of a list of learning calls. -/
def call_pairs (calls : List Transition) : List (State × Action) :=
  calls.map (fun c => (c.1, c.2.1))

/-- The sample inputs: Return on "Start Game", then quiet frames. -/
def start_input : GameInput := GameInput.keyPressed Key.Return 0 (7 / 10, 7 / 10)

/-- A frame of 1/60 s without key pressed and without paddle contact. -/
def quiet_frame : FrameInput :=
  { seconds := 1 / 60, keyW := false, keyS := false, updateDirection := (7 / 10, 7 / 10)
    resetDirection := (7 / 10, 7 / 10), ballHitsPlayer := false, ballHitsCpu := false }

/-- A frame of 1/60 s in which the ball touches the CPU paddle. -/
def hit_frame : FrameInput :=
  { seconds := 1 / 60, keyW := false, keyS := false, updateDirection := (7 / 10, 7 / 10)
    resetDirection := (7 / 10, 7 / 10), ballHitsPlayer := false, ballHitsCpu := true }

/-- A random source that always explores: every exploration sample is 0, every
action drawn is UP. -/
def exploring_source : RandomSource Unit :=
  { advance := fun g => g
    exploration_value := fun _ => 0
    action_value := fun _ => 1 }

/-- A random source without state: every exploration sample is `1/2`, every
action drawn is UP. -/
def still_source : RandomSource Unit :=
  { advance := fun g => g
    exploration_value := fun _ => 1 / 2
    action_value := fun _ => 1 }

/-- Escape during play, then "Resume". -/
def pause_resume : List GameInput :=
  [GameInput.keyPressed Key.Escape 0 (7 / 10, 7 / 10),
   GameInput.keyPressed Key.Return 0 (7 / 10, 7 / 10)]

/-- Escape during play, then "Main Menu" in the pause menu, then "Start Game". -/
def leave_restart : List GameInput :=
  [GameInput.keyPressed Key.Escape 0 (7 / 10, 7 / 10),
   GameInput.keyPressed Key.Return 1 (7 / 10, 7 / 10),
   GameInput.keyPressed Key.Return 0 (7 / 10, 7 / 10)]

/-! ## Lemmas on the table -/

theorem QTable.find_assign_self (t : QTable) (s : State) (q : QValues) :
    (t.assign s q).find s = some q := by
  induction t with
  | nil => simp [QTable.assign, QTable.find]
  | cons p rest ih =>
    obtain ⟨k, q0⟩ := p
    by_cases h : k = s
    · simp [QTable.assign, QTable.find, h]
    · simp [QTable.assign, QTable.find, h, ih]

theorem QTable.find_assign_of_ne (t : QTable) (s s' : State) (q : QValues) (h : s ≠ s') :
    (t.assign s q).find s' = t.find s' := by
  induction t with
  | nil => simp [QTable.assign, QTable.find, h]
  | cons p rest ih =>
    obtain ⟨k, q0⟩ := p
    by_cases hk : k = s
    · subst hk
      simp [QTable.assign, QTable.find, h]
    · by_cases hk' : k = s'
      · subst hk'
        simp [QTable.assign, QTable.find, hk]
      · simp [QTable.assign, QTable.find, hk, hk', ih]

theorem QValues.get_set_self (q : QValues) (i : Fin 3) (x : ℚ) : (q.set i x).get i = x := by
  fin_cases i <;> rfl

/-- The element `std::max_element` points at is the maximum of the three values. -/
theorem get_max_element (q : QValues) : q.get (max_element q) = max (max q.v0 q.v1) q.v2 := by
  obtain ⟨a, b, c⟩ := q
  simp only [max_element, QValues.get]
  by_cases h1 : a < b
  · by_cases h2 : b < c
    · simp [h1, h2, QValues.get, max_eq_right h1.le, max_eq_right h2.le]
    · simp [h1, h2, QValues.get, max_eq_right h1.le, max_eq_left (not_lt.mp h2)]
  · by_cases h2 : a < c
    · simp [h1, h2, QValues.get, max_eq_left (not_lt.mp h1), max_eq_right h2.le]
    · simp [h1, h2, QValues.get, max_eq_left (not_lt.mp h1), max_eq_left (not_lt.mp h2)]

/-- The entry of `s` after `update_q_value(s, a, r, s')`: the previous array of
`s` (zeros when unseen) with slot `a` overwritten by the new value. -/
theorem find_old_state_update_q_value {G : Type} (ag : QLearningAgent G) (s : State) (a : Action)
    (r : ℚ) (s' : State) :
    (update_q_value ag s a r s').q_table.find s =
      some ((ag.q_table.subscript s).set a.toIndex
        (get_q_value ag s a.toIndex + ag.alpha *
          (r + ag.gamma * (match ag.q_table.find s' with
                           | some q => q.get (max_element q)
                           | none => 0) - get_q_value ag s a.toIndex))) := by
  simp only [update_q_value]
  split_ifs with h
  · have hne : s' ≠ s := by
      rintro rfl
      simp [QTable.find_assign_self] at h
    rw [QTable.find_assign_of_ne _ _ _ _ hne, QTable.find_assign_self]
  · rw [QTable.find_assign_self]

theorem update_q_value_alpha {G : Type} (ag : QLearningAgent G) (s : State) (a : Action)
    (r : ℚ) (s' : State) : (update_q_value ag s a r s').alpha = ag.alpha := rfl

theorem update_q_value_gamma {G : Type} (ag : QLearningAgent G) (s : State) (a : Action)
    (r : ℚ) (s' : State) : (update_q_value ag s a r s').gamma = ag.gamma := rfl

/-! ## Repeating one update -/

theorem QValues.set_set (q : QValues) (i : Fin 3) (x y : ℚ) :
    (q.set i x).set i y = q.set i y := by
  fin_cases i <;> rfl

theorem QValues.zero_set_max (i : Fin 3) (v : ℚ) :
    (QValues.zero.set i v).get (max_element (QValues.zero.set i v)) = max v 0 := by
  rw [get_max_element]
  fin_cases i
  · simp [QValues.set, QValues.zero]
  · simp [QValues.set, QValues.zero, max_comm]
  · simp [QValues.set, QValues.zero, max_comm]

theorem repeated_update_succ {G : Type} (ag : QLearningAgent G) (s : State) (a : Action) (R : ℚ)
    (n : Nat) :
    repeated_update ag s a R (n + 1) = update_q_value (repeated_update ag s a R n) s a R s := by
  simp only [repeated_update, Function.iterate_succ_apply']

theorem repeated_update_alpha {G : Type} (ag : QLearningAgent G) (s : State) (a : Action) (R : ℚ)
    (n : Nat) : (repeated_update ag s a R n).alpha = ag.alpha := by
  induction n with
  | zero => rfl
  | succ n ih => rw [repeated_update_succ, update_q_value_alpha, ih]

theorem repeated_update_gamma {G : Type} (ag : QLearningAgent G) (s : State) (a : Action) (R : ℚ)
    (n : Nat) : (repeated_update ag s a R n).gamma = ag.gamma := by
  induction n with
  | zero => rfl
  | succ n ih => rw [repeated_update_succ, update_q_value_gamma, ih]

/-- From the first call on, the entry of `s` is the zero array with slot `a`
holding the current value. -/
theorem repeated_update_find {G : Type} (ag : QLearningAgent G) (s : State) (a : Action) (R : ℚ)
    (hs : ag.q_table.find s = none) (n : Nat) :
    (repeated_update ag s a R (n + 1)).q_table.find s =
      some (QValues.zero.set a.toIndex (repeated_value ag s a R (n + 1))) := by
  induction n with
  | zero =>
    have h := find_old_state_update_q_value (repeated_update ag s a R 0) s a R s
    have h0 : (repeated_update ag s a R 0).q_table.find s = none := hs
    rw [← repeated_update_succ] at h
    simp only [repeated_value, get_q_value]
    rw [h]
    simp only [QTable.subscript, h0, QValues.get_set_self]
  | succ n ih =>
    have h := find_old_state_update_q_value (repeated_update ag s a R (n + 1)) s a R s
    rw [← repeated_update_succ] at h
    have hsub : (repeated_update ag s a R (n + 1)).q_table.subscript s =
        QValues.zero.set a.toIndex (repeated_value ag s a R (n + 1)) := by
      rw [QTable.subscript, ih]
    have hval : repeated_value ag s a R (n + 1 + 1) =
        ((repeated_update ag s a R (n + 1 + 1)).q_table.subscript s).get a.toIndex := by
      rw [repeated_value, get_q_value, QTable.subscript, h]
    rw [hval, QTable.subscript, h, hsub, QValues.set_set, QValues.get_set_self]

/-- The recurrence followed by the value of `(s, a)`: the two other slots of `s`
stay 0, so the best future value is `max v 0`. -/
theorem repeated_value_succ {G : Type} (ag : QLearningAgent G) (s : State) (a : Action) (R : ℚ)
    (hs : ag.q_table.find s = none) (n : Nat) :
    repeated_value ag s a R (n + 1) =
      repeated_value ag s a R n +
        ag.alpha * (R + ag.gamma * max (repeated_value ag s a R n) 0 -
          repeated_value ag s a R n) := by
  have h := find_old_state_update_q_value (repeated_update ag s a R n) s a R s
  rw [← repeated_update_succ, repeated_update_alpha, repeated_update_gamma] at h
  have hv : repeated_value ag s a R (n + 1) =
      ((repeated_update ag s a R (n + 1)).q_table.subscript s).get a.toIndex := by
    rw [repeated_value, get_q_value, QTable.subscript, h]
  rw [hv, QTable.subscript, h, QValues.get_set_self]
  cases n with
  | zero =>
    have h0 : (repeated_update ag s a R 0).q_table.find s = none := hs
    simp [repeated_value, get_q_value, h0]
  | succ n =>
    have hf := repeated_update_find ag s a R hs n
    rw [hf]
    simp only []
    rw [QValues.zero_set_max]
    have hg : get_q_value (repeated_update ag s a R (n + 1)) s a.toIndex =
        repeated_value ag s a R (n + 1) := rfl
    rw [hg]

theorem repeated_value_zero {G : Type} (ag : QLearningAgent G) (s : State) (a : Action) (R : ℚ)
    (hs : ag.q_table.find s = none) : repeated_value ag s a R 0 = 0 := by
  have h0 : (repeated_update ag s a R 0).q_table.find s = none := hs
  simp [repeated_value, get_q_value, h0]

/-- Closed form for a non-negative reward. -/
theorem repeated_value_of_nonneg {G : Type} (ag : QLearningAgent G) (s : State) (a : Action)
    (R : ℚ) (hs : ag.q_table.find s = none) (hα0 : 0 ≤ ag.alpha) (hα1 : ag.alpha ≤ 1)
    (hγ0 : 0 ≤ ag.gamma) (hγ1 : ag.gamma < 1) (hR : 0 ≤ R) (n : Nat) :
    repeated_value ag s a R n =
      R / (1 - ag.gamma) * (1 - (1 - ag.alpha * (1 - ag.gamma)) ^ n) := by
  have hg : 0 < 1 - ag.gamma := by linarith
  have hc0 : 0 ≤ 1 - ag.alpha * (1 - ag.gamma) := by nlinarith
  have hc1 : 1 - ag.alpha * (1 - ag.gamma) ≤ 1 := by nlinarith
  induction n with
  | zero => simp [repeated_value_zero ag s a R hs]
  | succ n ih =>
    have hv : 0 ≤ repeated_value ag s a R n := by
      rw [ih]
      exact mul_nonneg (div_nonneg hR hg.le) (sub_nonneg.mpr (pow_le_one₀ hc0 hc1))
    rw [repeated_value_succ ag s a R hs, max_eq_left hv, ih]
    field_simp
    ring

/-- Closed form for a non-positive reward: the best future value stays 0. -/
theorem repeated_value_of_nonpos {G : Type} (ag : QLearningAgent G) (s : State) (a : Action)
    (R : ℚ) (hs : ag.q_table.find s = none) (hα0 : 0 ≤ ag.alpha) (hα1 : ag.alpha ≤ 1)
    (hR : R ≤ 0) (n : Nat) :
    repeated_value ag s a R n = R * (1 - (1 - ag.alpha) ^ n) := by
  have hc0 : 0 ≤ 1 - ag.alpha := by linarith
  have hc1 : 1 - ag.alpha ≤ 1 := by linarith
  induction n with
  | zero => simp [repeated_value_zero ag s a R hs]
  | succ n ih =>
    have hv : repeated_value ag s a R n ≤ 0 := by
      rw [ih]
      exact mul_nonpos_of_nonpos_of_nonneg hR (sub_nonneg.mpr (pow_le_one₀ hc0 hc1))
    rw [repeated_value_succ ag s a R hs, max_eq_right hv, ih]
    ring

/-- A sequence `L * (1 - c ^ n)` with `0 ≤ c < 1` tends to `L`. -/
theorem tendsto_geometric_defect (L c : ℚ) (hc0 : 0 ≤ c) (hc1 : c < 1) :
    Filter.Tendsto (fun n : Nat => ((L * (1 - c ^ n) : ℚ) : ℝ)) Filter.atTop (nhds (L : ℝ)) := by
  have hc0' : (0 : ℝ) ≤ (c : ℝ) := by exact_mod_cast hc0
  have hc1' : (c : ℝ) < 1 := by exact_mod_cast hc1
  have hpow := tendsto_pow_atTop_nhds_zero_of_lt_one hc0' hc1'
  have h := (tendsto_const_nhds (x := (1 : ℝ))).sub hpow
  have h2 := (tendsto_const_nhds (x := (L : ℝ))).mul h
  simp only [sub_zero, mul_one] at h2
  refine h2.congr ?_
  intro n
  push_cast
  ring

theorem repeated_value_tendsto_of_nonpos {G : Type} (ag : QLearningAgent G) (s : State)
    (a : Action) (R : ℚ) (hs : ag.q_table.find s = none) (hα0 : 0 < ag.alpha)
    (hα1 : ag.alpha ≤ 1) (hR : R ≤ 0) :
    Filter.Tendsto (fun n : Nat => ((repeated_value ag s a R n : ℚ) : ℝ)) Filter.atTop
      (nhds (R : ℝ)) := by
  have h := tendsto_geometric_defect R (1 - ag.alpha) (by linarith) (by linarith)
  refine h.congr ?_
  intro n
  rw [repeated_value_of_nonpos ag s a R hs hα0.le hα1 hR n]

/-! ## Loading -/

theorem QTable.keys_assign (t : QTable) (s : State) (q : QValues) :
    (t.assign s q).keys = if s ∈ t.keys then t.keys else t.keys ++ [s] := by
  induction t with
  | nil => simp [QTable.assign, QTable.keys]
  | cons p rest ih =>
    obtain ⟨k, q0⟩ := p
    simp only [QTable.keys] at ih
    by_cases hk : k = s
    · simp [QTable.assign, QTable.keys, hk]
    · have hk' : ¬ s = k := fun h => hk h.symm
      by_cases hm : s ∈ List.map Prod.fst rest
      · simp only [QTable.assign, QTable.keys, hk, if_false, List.map_cons, ih, hm, if_true,
          List.mem_cons, or_true]
      · simp only [QTable.assign, QTable.keys, hk, if_false, List.map_cons, ih, hm,
          List.mem_cons, hk', or_self, List.cons_append]

/-- Adding a key the way `q_table[s] = ...` does. -/
theorem QTable.keys_assign_nodup (t : QTable) (s : State) (q : QValues) (h : t.keys.Nodup) :
    (t.assign s q).keys.Nodup := by
  rw [QTable.keys_assign]
  split_ifs with hm
  · exact h
  · exact List.Nodup.append h (List.nodup_singleton s) (by simpa using hm)

theorem QTable.mem_keys_assign (t : QTable) (s : State) (q : QValues) (k : State) :
    k ∈ (t.assign s q).keys ↔ k ∈ t.keys ∨ k = s := by
  rw [QTable.keys_assign]
  split_ifs with hm
  · constructor
    · exact Or.inl
    · rintro (h | rfl)
      · exact h
      · exact hm
  · simp

theorem max_min_range (v : Int) : 0 ≤ max 0 (min 9 v) ∧ max 0 (min 9 v) ≤ 9 := by
  constructor
  · exact le_max_left _ _
  · exact max_le (by norm_num) (min_le_left _ _)

theorem max_min_eq_clamp (v : Int) : max 0 (min 9 v) = clamp v 0 9 := by
  unfold clamp
  split_ifs with h1 h2
  · rw [min_eq_right (by omega), max_eq_left (by omega)]
  · rw [min_eq_left (by omega), max_eq_right (by omega)]
  · rw [min_eq_right (by omega), max_eq_right (by omega)]

theorem sign_range (v : ℚ) :
    (if v > 0 then (1 : Int) else (if v < 0 then -1 else 0)) ∈ Finset.Icc (-1 : Int) 1 := by
  split_ifs <;> decide

theorem sign_eq_reference (v : ℚ) :
    (if v > 0 then (1 : Int) else (if v < 0 then -1 else 0)) = reference_sign v := by
  unfold reference_sign
  rcases lt_trichotomy v 0 with h | h | h
  · simp [h, h.ne, not_lt.mpr h.le]
  · simp [h]
  · simp [h, h.ne', not_lt.mpr h.le]

/-- The bucket of a coordinate inside the window, before clamping. -/
theorem floor_bucket_inside (x w : ℚ) (hw : 0 < w) (h0 : 0 ≤ x) (h1 : x < 10 * w) :
    0 ≤ Int.floor (x / w) ∧ Int.floor (x / w) ≤ 9 ∧
      w * (Int.floor (x / w) : ℚ) ≤ x ∧ x < w * ((Int.floor (x / w) : ℚ) + 1) := by
  have hq0 : 0 ≤ x / w := div_nonneg h0 hw.le
  have hq1 : x / w < 10 := by rw [div_lt_iff₀ hw]; linarith
  refine ⟨Int.floor_nonneg.mpr hq0, ?_, ?_, ?_⟩
  · have : Int.floor (x / w) < 10 := Int.floor_lt.mpr (by exact_mod_cast hq1)
    omega
  · have := Int.floor_le (x / w)
    rw [le_div_iff₀ hw] at this
    linarith
  · have := Int.lt_floor_add_one (x / w)
    rw [div_lt_iff₀ hw] at this
    linarith

theorem reference_bucket_800 (x : ℚ) :
    reference_bucket x 800 10 = max 0 (min 9 (Int.floor (x / 80))) := by
  have h : (800 : ℚ) / ((10 : Int) : ℚ) = 80 := by norm_num
  rw [max_min_eq_clamp, reference_bucket, h]
  rfl

theorem reference_bucket_600 (y : ℚ) :
    reference_bucket y 600 10 = max 0 (min 9 (Int.floor (y / 60))) := by
  have h : (600 : ℚ) / ((10 : Int) : ℚ) = 60 := by norm_num
  rw [max_min_eq_clamp, reference_bucket, h]
  rfl

/-! ## Rounding to `float` -/

theorem bit_length_aux_zero (fuel : Nat) : bit_length_aux fuel 0 = 0 := by
  cases fuel <;> simp [bit_length_aux]

theorem bit_length_aux_spec (fuel n : Nat) (hn : 0 < n) (hf : n ≤ fuel) :
    0 < bit_length_aux fuel n ∧ 2 ^ (bit_length_aux fuel n - 1) ≤ n ∧
      n < 2 ^ bit_length_aux fuel n := by
  induction fuel generalizing n with
  | zero => omega
  | succ fuel ih =>
    have hn0 : n ≠ 0 := by omega
    simp only [bit_length_aux, hn0, if_false]
    by_cases h1 : n / 2 = 0
    · have hn1 : n = 1 := by omega
      subst hn1
      simp [bit_length_aux_zero]
    · obtain ⟨b0, b1, b2⟩ := ih (n / 2) (by omega) (by omega)
      refine ⟨by omega, ?_, ?_⟩
      · have e : bit_length_aux fuel (n / 2) + 1 - 1 = (bit_length_aux fuel (n / 2) - 1) + 1 := by
          omega
        rw [e, pow_succ]
        omega
      · rw [pow_succ]
        omega

theorem bit_length_spec (n : Nat) (hn : 0 < n) :
    0 < bit_length n ∧ 2 ^ (bit_length n - 1) ≤ n ∧ n < 2 ^ bit_length n :=
  bit_length_aux_spec n n hn le_rfl

theorem abs_eq_natAbs_div_den (x : ℚ) : |x| = (x.num.natAbs : ℚ) / (x.den : ℚ) := by
  conv_lhs => rw [← Rat.num_div_den x]
  rw [abs_div, Nat.abs_cast, Nat.cast_natAbs, Int.cast_abs]

theorem two_zpow_sub_nat (a b : Nat) : (2 : ℚ) ^ ((a : Int) - (b : Int)) = (2 : ℚ) ^ a / (2 : ℚ) ^ b := by
  rw [zpow_sub₀ (by norm_num : (2 : ℚ) ≠ 0), zpow_natCast, zpow_natCast]

/-- The binary exponent brackets the magnitude. -/
theorem binary_exponent_spec (x : ℚ) (hx : x ≠ 0) :
    (2 : ℚ) ^ binary_exponent x ≤ |x| ∧ |x| < (2 : ℚ) ^ (binary_exponent x + 1) := by
  have hp : 0 < x.num.natAbs := Int.natAbs_pos.mpr (Rat.num_ne_zero.mpr hx)
  have hq : 0 < x.den := x.den_pos
  obtain ⟨p0, p1, p2⟩ := bit_length_spec _ hp
  obtain ⟨q0, q1, q2⟩ := bit_length_spec _ hq
  have hA : 2 ^ bit_length x.num.natAbs ≤ 2 * x.num.natAbs := by
    have e : bit_length x.num.natAbs = (bit_length x.num.natAbs - 1) + 1 := by omega
    rw [e, pow_succ]
    omega
  have hB : 2 ^ bit_length x.den ≤ 2 * x.den := by
    have e : bit_length x.den = (bit_length x.den - 1) + 1 := by omega
    rw [e, pow_succ]
    omega
  have hAq : ((2 : ℚ) ^ bit_length x.num.natAbs) ≤ 2 * (x.num.natAbs : ℚ) := by exact_mod_cast hA
  have hBq : ((2 : ℚ) ^ bit_length x.den) ≤ 2 * (x.den : ℚ) := by exact_mod_cast hB
  have hpA : (x.num.natAbs : ℚ) < (2 : ℚ) ^ bit_length x.num.natAbs := by exact_mod_cast p2
  have hqB : (x.den : ℚ) < (2 : ℚ) ^ bit_length x.den := by exact_mod_cast q2
  have hpq : (0 : ℚ) < (x.num.natAbs : ℚ) := by exact_mod_cast hp
  have hqq : (0 : ℚ) < (x.den : ℚ) := by exact_mod_cast hq
  have hBpos : (0 : ℚ) < (2 : ℚ) ^ bit_length x.den := by positivity
  have hApos : (0 : ℚ) < (2 : ℚ) ^ bit_length x.num.natAbs := by positivity
  have habs := abs_eq_natAbs_div_den x
  have hup : |x| < 2 * ((2 : ℚ) ^ bit_length x.num.natAbs / (2 : ℚ) ^ bit_length x.den) := by
    rw [habs, div_lt_iff₀ hqq]
    have e : 2 * ((2 : ℚ) ^ bit_length x.num.natAbs / (2 : ℚ) ^ bit_length x.den) * (x.den : ℚ) =
        (2 * (2 : ℚ) ^ bit_length x.num.natAbs * (x.den : ℚ)) / (2 : ℚ) ^ bit_length x.den := by
      ring
    rw [e, lt_div_iff₀ hBpos]
    nlinarith
  have hlo : ((2 : ℚ) ^ bit_length x.num.natAbs / (2 : ℚ) ^ bit_length x.den) / 2 < |x| := by
    rw [habs, div_div, div_lt_div_iff₀ (by positivity) hqq]
    nlinarith
  unfold binary_exponent
  simp only []
  rw [two_zpow_sub_nat]
  by_cases h : (2 : ℚ) ^ bit_length x.num.natAbs / (2 : ℚ) ^ bit_length x.den ≤ |x|
  · rw [if_pos h]
    refine ⟨by rw [two_zpow_sub_nat]; exact h, ?_⟩
    rw [zpow_add_one₀ (by norm_num : (2 : ℚ) ≠ 0), two_zpow_sub_nat]
    linarith
  · rw [if_neg h]
    have e1 : (2 : ℚ) ^ ((bit_length x.num.natAbs : Int) - (bit_length x.den : Int) - 1) =
        (2 : ℚ) ^ bit_length x.num.natAbs / (2 : ℚ) ^ bit_length x.den / 2 := by
      rw [zpow_sub_one₀ (by norm_num : (2 : ℚ) ≠ 0), two_zpow_sub_nat]
      ring
    refine ⟨by rw [e1]; exact hlo.le, ?_⟩
    rw [sub_add_cancel, two_zpow_sub_nat]
    exact not_le.mp h

/-- The binary exponent is determined by the bracket. -/
theorem binary_exponent_eq (x : ℚ) (e : Int) (h1 : (2 : ℚ) ^ e ≤ |x|) (h2 : |x| < (2 : ℚ) ^ (e + 1)) :
    binary_exponent x = e := by
  have hx : x ≠ 0 := by
    rintro rfl
    have : (0 : ℚ) < (2 : ℚ) ^ e := by positivity
    simp at h1
    linarith
  obtain ⟨s1, s2⟩ := binary_exponent_spec x hx
  have a : (2 : ℚ) ^ e < (2 : ℚ) ^ (binary_exponent x + 1) := lt_of_le_of_lt h1 s2
  have b : (2 : ℚ) ^ binary_exponent x < (2 : ℚ) ^ (e + 1) := lt_of_le_of_lt s1 h2
  have a' := (zpow_lt_zpow_iff_right₀ (by norm_num : (1 : ℚ) < 2)).mp a
  have b' := (zpow_lt_zpow_iff_right₀ (by norm_num : (1 : ℚ) < 2)).mp b
  omega

theorem round_nearest_even_intCast (n : Int) : round_nearest_even (n : ℚ) = n := by
  simp [round_nearest_even]

theorem round_nearest_even_bounds (x : ℚ) :
    Int.floor x ≤ round_nearest_even x ∧ round_nearest_even x ≤ Int.floor x + 1 := by
  unfold round_nearest_even
  simp only []
  split_ifs <;> omega

theorem round_nearest_even_mono (a b : ℚ) (h : a ≤ b) :
    round_nearest_even a ≤ round_nearest_even b := by
  have hf : Int.floor a ≤ Int.floor b := Int.floor_mono h
  rcases lt_or_eq_of_le hf with hlt | heq
  · have h1 := (round_nearest_even_bounds a).2
    have h2 := (round_nearest_even_bounds b).1
    omega
  · unfold round_nearest_even
    simp only []
    rw [← heq]
    have hr : a - (Int.floor a : ℚ) ≤ b - (Int.floor a : ℚ) := by linarith
    split_ifs <;> first | omega | (exfalso; linarith)

theorem round_nearest_even_neg (x : ℚ) : round_nearest_even (-x) = -round_nearest_even x := by
  by_cases hi : (Int.floor x : ℚ) = x
  · rw [← hi, ← Int.cast_neg, round_nearest_even_intCast, round_nearest_even_intCast]
  · have hlt : (Int.floor x : ℚ) < x := lt_of_le_of_ne (Int.floor_le x) hi
    have hfl : Int.floor (-x) = -Int.floor x - 1 := by
      rw [Int.floor_eq_iff]
      have := Int.lt_floor_add_one x
      push_cast
      constructor <;> linarith
    unfold round_nearest_even
    simp only []
    rw [hfl]
    push_cast
    have hlt2 := Int.lt_floor_add_one x
    split_ifs <;> first | omega | (exfalso; linarith)

/-- The rounding at sample values: ties go to the even neighbour, and the
quotients `1e12f / 80` and `-5 / 60` round to the nearest `float`. -/
theorem round_float_samples :
    round_nearest_even (7 / 2) = 4 ∧ round_nearest_even (5 / 2) = 2 ∧
    round_float 80 = 80 ∧
    round_float (999999995904 / 80) = 12499999744 ∧
    round_float (-5 / 60) = -(11184811 / 134217728) := by
  decide!

theorem binary_exponent_neg (x : ℚ) : binary_exponent (-x) = binary_exponent x := by
  simp [binary_exponent]

theorem float_exponent_neg (x : ℚ) : float_exponent (-x) = float_exponent x := by
  simp [float_exponent, binary_exponent_neg]

theorem round_float_neg (x : ℚ) : round_float (-x) = -round_float x := by
  unfold round_float
  by_cases hx : x = 0
  · simp [hx]
  · rw [if_neg hx, if_neg (neg_ne_zero.mpr hx), float_exponent_neg, neg_div,
      round_nearest_even_neg]
    push_cast
    ring

theorem float_exponent_ge (x : ℚ) : -126 ≤ float_exponent x := le_max_right _ _

theorem two_zpow_pos (e : Int) : (0 : ℚ) < (2 : ℚ) ^ e := by positivity

theorem two_zpow_mono {a b : Int} (h : a ≤ b) : (2 : ℚ) ^ a ≤ (2 : ℚ) ^ b :=
  zpow_le_zpow_right₀ (by norm_num) h

theorem two_zpow_split (e : Int) (k : Nat) :
    (2 : ℚ) ^ (e + k) = ((2 ^ k : Int) : ℚ) * (2 : ℚ) ^ e := by
  rw [zpow_add₀ (by norm_num : (2 : ℚ) ≠ 0), zpow_natCast]
  push_cast
  ring

/-- A positive value lies below the top of its binade. -/
theorem lt_top_of_binade (x : ℚ) (hx : 0 < x) : x < (2 : ℚ) ^ (float_exponent x + 1) := by
  have h := (binary_exponent_spec x hx.ne').2
  rw [abs_of_pos hx] at h
  exact lt_of_lt_of_le h (two_zpow_mono (by unfold float_exponent; omega))

/-- A positive value outside the subnormal range lies above the bottom of its
binade. -/
theorem bottom_le_of_binade (x : ℚ) (hx : 0 < x) (hn : -126 ≤ binary_exponent x) :
    (2 : ℚ) ^ float_exponent x ≤ x := by
  have h := (binary_exponent_spec x hx.ne').1
  rw [abs_of_pos hx] at h
  have e : float_exponent x = binary_exponent x := max_eq_left hn
  rw [e]
  exact h

theorem float_exponent_mono (x y : ℚ) (hx : 0 < x) (h : x ≤ y) :
    float_exponent x ≤ float_exponent y := by
  have hy : 0 < y := lt_of_lt_of_le hx h
  have h1 := (binary_exponent_spec x hx.ne').1
  have h2 := (binary_exponent_spec y hy.ne').2
  rw [abs_of_pos hx] at h1
  rw [abs_of_pos hy] at h2
  have h3 : (2 : ℚ) ^ binary_exponent x < (2 : ℚ) ^ (binary_exponent y + 1) := by linarith
  have h4 := (zpow_lt_zpow_iff_right₀ (by norm_num : (1 : ℚ) < 2)).mp h3
  unfold float_exponent
  omega

/-- The significand of a rounded positive value: at most `2 ^ 24`, and at least
`2 ^ 23` outside the subnormal range. -/
theorem significand_bounds (x : ℚ) (hx : 0 < x) :
    0 ≤ round_nearest_even (x / (2 : ℚ) ^ (float_exponent x - 23)) ∧
    round_nearest_even (x / (2 : ℚ) ^ (float_exponent x - 23)) ≤ 2 ^ 24 ∧
    (-126 ≤ binary_exponent x →
      2 ^ 23 ≤ round_nearest_even (x / (2 : ℚ) ^ (float_exponent x - 23))) := by
  have hu := two_zpow_pos (float_exponent x - 23)
  refine ⟨?_, ?_, ?_⟩
  · have h0 : ((0 : Int) : ℚ) ≤ x / (2 : ℚ) ^ (float_exponent x - 23) := by
      push_cast
      positivity
    have := round_nearest_even_mono _ _ h0
    rwa [round_nearest_even_intCast] at this
  · have h1 : x / (2 : ℚ) ^ (float_exponent x - 23) ≤ ((2 ^ 24 : Int) : ℚ) := by
      rw [div_le_iff₀ hu]
      have e := two_zpow_split (float_exponent x - 23) 24
      have e2 : float_exponent x - 23 + ((24 : Nat) : Int) = float_exponent x + 1 := by
        push_cast
        ring
      rw [e2] at e
      rw [← e]
      exact (lt_top_of_binade x hx).le
    have := round_nearest_even_mono _ _ h1
    rwa [round_nearest_even_intCast] at this
  · intro hn
    have h1 : ((2 ^ 23 : Int) : ℚ) ≤ x / (2 : ℚ) ^ (float_exponent x - 23) := by
      rw [le_div_iff₀ hu]
      have e := two_zpow_split (float_exponent x - 23) 23
      have e2 : float_exponent x - 23 + ((23 : Nat) : Int) = float_exponent x := by
        push_cast
        ring
      rw [e2] at e
      rw [← e]
      exact bottom_le_of_binade x hx hn
    have := round_nearest_even_mono _ _ h1
    rwa [round_nearest_even_intCast] at this

theorem round_float_nonneg (x : ℚ) (hx : 0 ≤ x) : 0 ≤ round_float x := by
  rcases eq_or_lt_of_le hx with h0 | hpos
  · rw [← h0]
    simp [round_float]
  · unfold round_float
    rw [if_neg hpos.ne']
    have h := (significand_bounds x hpos).1
    have hu := two_zpow_pos (float_exponent x - 23)
    have : (0 : ℚ) ≤ (round_nearest_even (x / (2 : ℚ) ^ (float_exponent x - 23)) : ℚ) := by
      exact_mod_cast h
    positivity

theorem round_float_nonpos (x : ℚ) (hx : x ≤ 0) : round_float x ≤ 0 := by
  have h := round_float_nonneg (-x) (by linarith)
  rw [round_float_neg] at h
  linarith

/-- A rounded positive value stays within its binade. -/
theorem round_float_le_top (x : ℚ) (hx : 0 < x) :
    round_float x ≤ (2 : ℚ) ^ (float_exponent x + 1) := by
  unfold round_float
  rw [if_neg hx.ne']
  have h := (significand_bounds x hx).2.1
  have hq : (round_nearest_even (x / (2 : ℚ) ^ (float_exponent x - 23)) : ℚ) ≤
      ((2 ^ 24 : Int) : ℚ) := by exact_mod_cast h
  have e := two_zpow_split (float_exponent x - 23) 24
  have e2 : float_exponent x - 23 + ((24 : Nat) : Int) = float_exponent x + 1 := by
    push_cast
    ring
  rw [e2] at e
  rw [e]
  exact mul_le_mul_of_nonneg_right hq (two_zpow_pos _).le

theorem bottom_le_round_float (x : ℚ) (hx : 0 < x) (hn : -126 ≤ binary_exponent x) :
    (2 : ℚ) ^ float_exponent x ≤ round_float x := by
  unfold round_float
  rw [if_neg hx.ne']
  have h := (significand_bounds x hx).2.2 hn
  have hq : ((2 ^ 23 : Int) : ℚ) ≤
      (round_nearest_even (x / (2 : ℚ) ^ (float_exponent x - 23)) : ℚ) := by exact_mod_cast h
  have e := two_zpow_split (float_exponent x - 23) 23
  have e2 : float_exponent x - 23 + ((23 : Nat) : Int) = float_exponent x := by
    push_cast
    ring
  rw [e2] at e
  rw [e]
  exact mul_le_mul_of_nonneg_right hq (two_zpow_pos _).le

theorem round_float_mono_pos (x y : ℚ) (hx : 0 < x) (h : x ≤ y) :
    round_float x ≤ round_float y := by
  have hy : 0 < y := lt_of_lt_of_le hx h
  rcases lt_or_eq_of_le (float_exponent_mono x y hx h) with hlt | heq
  · have h1 := round_float_le_top x hx
    have hn : -126 ≤ binary_exponent y := by
      have := float_exponent_ge x
      unfold float_exponent at hlt this
      omega
    have h2 := bottom_le_round_float y hy hn
    have h3 : (2 : ℚ) ^ (float_exponent x + 1) ≤ (2 : ℚ) ^ float_exponent y :=
      two_zpow_mono (by omega)
    linarith
  · unfold round_float
    rw [if_neg hx.ne', if_neg hy.ne', heq]
    have hu := two_zpow_pos (float_exponent y - 23)
    have hd : x / (2 : ℚ) ^ (float_exponent y - 23) ≤ y / (2 : ℚ) ^ (float_exponent y - 23) :=
      div_le_div_of_nonneg_right h hu.le
    have hm := round_nearest_even_mono _ _ hd
    have hq : (round_nearest_even (x / (2 : ℚ) ^ (float_exponent y - 23)) : ℚ) ≤
        (round_nearest_even (y / (2 : ℚ) ^ (float_exponent y - 23)) : ℚ) := by exact_mod_cast hm
    exact mul_le_mul_of_nonneg_right hq hu.le

/-- Rounding to `float` is monotone. -/
theorem round_float_mono (x y : ℚ) (h : x ≤ y) : round_float x ≤ round_float y := by
  rcases lt_trichotomy 0 x with hx | hx | hx
  · exact round_float_mono_pos x y hx h
  · rw [← hx]
    have : round_float 0 = 0 := by simp [round_float]
    rw [this]
    exact round_float_nonneg y (by linarith)
  · rcases le_or_lt 0 y with hy | hy
    · exact le_trans (round_float_nonpos x hx.le) (round_float_nonneg y hy)
    · have := round_float_mono_pos (-y) (-x) (by linarith) (by linarith)
      rw [round_float_neg, round_float_neg] at this
      linarith

/-- Between two neighbouring points of the `float` grid of a binade there is no
rounded value: a rounded value below `n * 2 ^ (e - 23)` is at most
`(n - 1) * 2 ^ (e - 23)`. -/
theorem round_float_le_pred (w : ℚ) (e n : Int) (hn1 : 2 ^ 23 < n)
    (h : round_float w < (n : ℚ) * (2 : ℚ) ^ (e - 23)) :
    round_float w ≤ ((n : ℚ) - 1) * (2 : ℚ) ^ (e - 23) := by
  by_contra hc
  push_neg at hc
  have hu := two_zpow_pos (e - 23)
  have hbot : (2 : ℚ) ^ e ≤ ((n : ℚ) - 1) * (2 : ℚ) ^ (e - 23) := by
    have e1 := two_zpow_split (e - 23) 23
    have e2 : e - 23 + ((23 : Nat) : Int) = e := by
      push_cast
      ring
    rw [e2] at e1
    rw [e1]
    have : ((2 ^ 23 : Int) : ℚ) ≤ (n : ℚ) - 1 := by
      have : (2 ^ 23 : Int) ≤ n - 1 := by omega
      exact_mod_cast this
    exact mul_le_mul_of_nonneg_right this hu.le
  have hzpos : 0 < round_float w := lt_of_lt_of_le (two_zpow_pos e) (le_trans hbot hc.le)
  have hw : 0 < w := by
    by_contra hw
    have := round_float_nonpos w (not_lt.mp hw)
    linarith
  rcases lt_or_le (float_exponent w) e with hlt | hle
  · have h1 := round_float_le_top w hw
    have h2 : (2 : ℚ) ^ (float_exponent w + 1) ≤ (2 : ℚ) ^ e := two_zpow_mono (by omega)
    linarith
  · obtain ⟨d, hd⟩ := Int.eq_ofNat_of_zero_le (sub_nonneg.mpr hle)
    have e1 := two_zpow_split (e - 23) d
    have e2 : e - 23 + (d : Int) = float_exponent w - 23 := by
      rw [← hd]
      ring
    rw [e2] at e1
    unfold round_float at h hc
    rw [if_neg hw.ne', e1, ← mul_assoc] at h hc
    have h3 := lt_of_mul_lt_mul_right h hu.le
    have h4 := lt_of_mul_lt_mul_right hc hu.le
    have h5 : round_nearest_even (w / (((2 ^ d : Int) : ℚ) * (2 : ℚ) ^ (e - 23))) * 2 ^ d < n := by
      exact_mod_cast h3
    have h6 : n - 1 < round_nearest_even (w / (((2 ^ d : Int) : ℚ) * (2 : ℚ) ^ (e - 23))) * 2 ^ d := by
      exact_mod_cast h4
    omega

/-- The quotient of a rounded value below the `float` `c = n * 2 ^ (e - 23)` by
`d`, when the quotient of the `float` just below `c` rounds below `k`. -/
theorem quotient_lt_of_lt (w d : ℚ) (k e n : Int) (hd : 0 < d) (hn1 : 2 ^ 23 < n)
    (hfl : round_float (((n : ℚ) - 1) * (2 : ℚ) ^ (e - 23) / d) < k)
    (h : round_float w < (n : ℚ) * (2 : ℚ) ^ (e - 23)) :
    round_float (round_float w / d) < k := by
  have h1 := round_float_le_pred w e n hn1 h
  have h2 : round_float w / d ≤ ((n : ℚ) - 1) * (2 : ℚ) ^ (e - 23) / d :=
    div_le_div_of_nonneg_right h1 hd.le
  exact lt_of_le_of_lt (round_float_mono _ _ h2) hfl

/-- Dividing a `float` below `80 * k` by `80` gives a `float` below `k`, for the
bucket bounds `k = 1, ..., 9`. -/
theorem quotient_80_lt (w : ℚ) (k : Int) (hk1 : 1 ≤ k) (hk9 : k ≤ 9)
    (h : round_float w < (k : ℚ) * 80) : round_float (round_float w / 80) < (k : ℚ) := by
  interval_cases k
  · exact quotient_lt_of_lt w 80 1 6 10485760 (by norm_num) (by norm_num) (by decide!)
      (lt_of_lt_of_eq h (by decide!))
  · exact quotient_lt_of_lt w 80 2 7 10485760 (by norm_num) (by norm_num) (by decide!)
      (lt_of_lt_of_eq h (by decide!))
  · exact quotient_lt_of_lt w 80 3 7 15728640 (by norm_num) (by norm_num) (by decide!)
      (lt_of_lt_of_eq h (by decide!))
  · exact quotient_lt_of_lt w 80 4 8 10485760 (by norm_num) (by norm_num) (by decide!)
      (lt_of_lt_of_eq h (by decide!))
  · exact quotient_lt_of_lt w 80 5 8 13107200 (by norm_num) (by norm_num) (by decide!)
      (lt_of_lt_of_eq h (by decide!))
  · exact quotient_lt_of_lt w 80 6 8 15728640 (by norm_num) (by norm_num) (by decide!)
      (lt_of_lt_of_eq h (by decide!))
  · exact quotient_lt_of_lt w 80 7 9 9175040 (by norm_num) (by norm_num) (by decide!)
      (lt_of_lt_of_eq h (by decide!))
  · exact quotient_lt_of_lt w 80 8 9 10485760 (by norm_num) (by norm_num) (by decide!)
      (lt_of_lt_of_eq h (by decide!))
  · exact quotient_lt_of_lt w 80 9 9 11796480 (by norm_num) (by norm_num) (by decide!)
      (lt_of_lt_of_eq h (by decide!))

/-- Dividing a `float` below `60 * k` by `60` gives a `float` below `k`, for the
bucket bounds `k = 1, ..., 9`. -/
theorem quotient_60_lt (w : ℚ) (k : Int) (hk1 : 1 ≤ k) (hk9 : k ≤ 9)
    (h : round_float w < (k : ℚ) * 60) : round_float (round_float w / 60) < (k : ℚ) := by
  interval_cases k
  · exact quotient_lt_of_lt w 60 1 5 15728640 (by norm_num) (by norm_num) (by decide!)
      (lt_of_lt_of_eq h (by decide!))
  · exact quotient_lt_of_lt w 60 2 6 15728640 (by norm_num) (by norm_num) (by decide!)
      (lt_of_lt_of_eq h (by decide!))
  · exact quotient_lt_of_lt w 60 3 7 11796480 (by norm_num) (by norm_num) (by decide!)
      (lt_of_lt_of_eq h (by decide!))
  · exact quotient_lt_of_lt w 60 4 7 15728640 (by norm_num) (by norm_num) (by decide!)
      (lt_of_lt_of_eq h (by decide!))
  · exact quotient_lt_of_lt w 60 5 8 9830400 (by norm_num) (by norm_num) (by decide!)
      (lt_of_lt_of_eq h (by decide!))
  · exact quotient_lt_of_lt w 60 6 8 11796480 (by norm_num) (by norm_num) (by decide!)
      (lt_of_lt_of_eq h (by decide!))
  · exact quotient_lt_of_lt w 60 7 8 13762560 (by norm_num) (by norm_num) (by decide!)
      (lt_of_lt_of_eq h (by decide!))
  · exact quotient_lt_of_lt w 60 8 8 15728640 (by norm_num) (by norm_num) (by decide!)
      (lt_of_lt_of_eq h (by decide!))
  · exact quotient_lt_of_lt w 60 9 9 8847360 (by norm_num) (by norm_num) (by decide!)
      (lt_of_lt_of_eq h (by decide!))

/-- A small integer is a `float`. -/
theorem round_float_small_int (k : Int) (hk0 : 0 ≤ k) (hk : k ≤ 10) :
    round_float (k : ℚ) = (k : ℚ) := by
  interval_cases k <;> decide!

theorem le_quotient_of_le (w d : ℚ) (k : Int) (hd : 0 < d) (hk0 : 0 ≤ k) (hk : k ≤ 10)
    (h : (k : ℚ) * d ≤ w) : (k : ℚ) ≤ round_float (w / d) := by
  have h1 : (k : ℚ) ≤ w / d := by rwa [le_div_iff₀ hd]
  have h2 := round_float_mono _ _ h1
  rwa [round_float_small_int k hk0 hk] at h2

theorem static_cast_int_nonpos (v : Int) (h : v ≤ 0) : static_cast_int v ≤ 0 := by
  unfold static_cast_int INT_MIN INT_MAX
  split_ifs <;> omega

theorem static_cast_int_of_range (v : Int) (h0 : 0 ≤ v) (h1 : v ≤ 2147483520) :
    static_cast_int v = v := by
  unfold static_cast_int INT_MIN INT_MAX
  rw [if_pos ⟨by omega, by omega⟩]

theorem static_cast_int_overflow (v : Int) (h : 2147483648 ≤ v) :
    static_cast_int v = INT_MIN := by
  unfold static_cast_int INT_MIN INT_MAX
  rw [if_neg (by omega)]

/-- Below the `int` range limit the conversion keeps every comparison with a
positive bound. -/
theorem le_static_cast_int_iff (v k : Int) (hk : 1 ≤ k) (h1 : v ≤ 2147483520) :
    k ≤ static_cast_int v ↔ k ≤ v := by
  unfold static_cast_int INT_MIN INT_MAX
  split_ifs <;> omega

theorem clamp_eq_of_thresholds (a b : Int)
    (h : ∀ k : Int, 1 ≤ k → k ≤ 9 → (k ≤ a ↔ k ≤ b)) : max 0 (min 9 a) = max 0 (min 9 b) := by
  have h1 := h 1 (by norm_num) (by norm_num)
  have h2 := h 2 (by norm_num) (by norm_num)
  have h3 := h 3 (by norm_num) (by norm_num)
  have h4 := h 4 (by norm_num) (by norm_num)
  have h5 := h 5 (by norm_num) (by norm_num)
  have h6 := h 6 (by norm_num) (by norm_num)
  have h7 := h 7 (by norm_num) (by norm_num)
  have h8 := h 8 (by norm_num) (by norm_num)
  have h9 := h 9 (by norm_num) (by norm_num)
  simp only [max_def, min_def]
  split_ifs <;> omega

theorem round_float_int_float_max : round_float INT_FLOAT_MAX = INT_FLOAT_MAX := by decide!

/-- The floor of a quotient computed in `float` stays within the `int` range when
the exact quotient is at most the largest `float` below `2 ^ 31`. -/
theorem floor_quotient_le (z d : ℚ) (hd : 0 < d) (h : z ≤ d * INT_FLOAT_MAX) :
    Int.floor (round_float (z / d)) ≤ 2147483520 := by
  have h1 : z / d ≤ INT_FLOAT_MAX := by
    rw [div_le_iff₀ hd]
    linarith
  have h2 := round_float_mono _ _ h1
  rw [round_float_int_float_max] at h2
  have h3 : Int.floor (round_float (z / d)) ≤ Int.floor INT_FLOAT_MAX := Int.floor_mono h2
  have h4 : Int.floor INT_FLOAT_MAX = 2147483520 := by
    unfold INT_FLOAT_MAX
    exact Int.floor_intCast 2147483520
  omega

/-- The bucket the code computes from a `float` coordinate `fl w` with the cell
size `d` (80 or 60) is the clamped floor of the exact quotient. -/
theorem float_bucket (w d : ℚ) (hd : d = 80 ∨ d = 60) (h : round_float w ≤ d * INT_FLOAT_MAX) :
    max 0 (min 9 (static_cast_int (Int.floor (round_float (round_float w / d))))) =
      max 0 (min 9 (Int.floor (round_float w / d))) := by
  have hdpos : 0 < d := by rcases hd with rfl | rfl <;> norm_num
  have hup := floor_quotient_le (round_float w) d hdpos h
  apply clamp_eq_of_thresholds
  intro k hk1 hk9
  rw [le_static_cast_int_iff _ k hk1 hup, Int.le_floor, Int.le_floor, le_div_iff₀ hdpos]
  constructor
  · intro h1
    by_contra h2
    push_neg at h2
    have h3 : round_float (round_float w / d) < (k : ℚ) := by
      rcases hd with rfl | rfl
      · exact quotient_80_lt w k hk1 hk9 h2
      · exact quotient_60_lt w k hk1 hk9 h2
    linarith
  · intro h1
    exact le_quotient_of_le _ d k hdpos (by omega) (by omega) h1

theorem cell_width_800 :
    round_float (round_float ((WINDOW_WIDTH : Nat) : ℚ) / (GRID_X_DIVISIONS : ℚ)) = 80 := by
  decide!

theorem cell_height_600 :
    round_float (round_float ((WINDOW_HEIGHT : Nat) : ℚ) / (GRID_Y_DIVISIONS : ℚ)) = 60 := by
  decide!

theorem half_paddle_height : round_float (PADDLE_HEIGHT / 2) = 40 := by decide!

theorem getCurrentStateForAI_ball_x {G : Type} (g : Game G)
    (hw : g.windowSize = (WINDOW_WIDTH, WINDOW_HEIGHT)) :
    (getCurrentStateForAI g).ball_x_grid =
      max 0 (min 9 (static_cast_int (Int.floor (round_float (g.ball.position.1 / 80))))) := by
  show max 0 (min (GRID_X_DIVISIONS - 1) (static_cast_int (Int.floor (round_float
    (g.ball.position.1 /
      round_float (round_float (g.windowSize.1 : ℚ) / (GRID_X_DIVISIONS : ℚ))))))) = _
  rw [hw, cell_width_800]
  rfl

theorem getCurrentStateForAI_ball_y {G : Type} (g : Game G)
    (hw : g.windowSize = (WINDOW_WIDTH, WINDOW_HEIGHT)) :
    (getCurrentStateForAI g).ball_y_grid =
      max 0 (min 9 (static_cast_int (Int.floor (round_float (g.ball.position.2 / 60))))) := by
  show max 0 (min (GRID_Y_DIVISIONS - 1) (static_cast_int (Int.floor (round_float
    (g.ball.position.2 /
      round_float (round_float (g.windowSize.2 : ℚ) / (GRID_Y_DIVISIONS : ℚ))))))) = _
  rw [hw, cell_height_600]
  rfl

theorem getCurrentStateForAI_cpu {G : Type} (g : Game G)
    (hw : g.windowSize = (WINDOW_WIDTH, WINDOW_HEIGHT)) :
    (getCurrentStateForAI g).cpu_paddle_y_grid =
      max 0 (min 9 (static_cast_int (Int.floor (round_float
        (round_float (g.cpuPaddle.position.2 + 40) / 60))))) := by
  show max 0 (min (PADDLE_Y_DIVISIONS - 1) (static_cast_int (Int.floor (round_float
    (round_float (g.cpuPaddle.position.2 + round_float (PADDLE_HEIGHT / 2)) /
      round_float (round_float (g.windowSize.2 : ℚ) / (PADDLE_Y_DIVISIONS : ℚ))))))) = _
  rw [hw, half_paddle_height]
  show max 0 (min (PADDLE_Y_DIVISIONS - 1) (static_cast_int (Int.floor (round_float
    (round_float (g.cpuPaddle.position.2 + 40) /
      round_float (round_float ((WINDOW_HEIGHT : Nat) : ℚ) / (GRID_Y_DIVISIONS : ℚ))))))) = _
  rw [cell_height_600]
  rfl

theorem getCurrentStateForAI_player {G : Type} (g : Game G)
    (hw : g.windowSize = (WINDOW_WIDTH, WINDOW_HEIGHT)) :
    (getCurrentStateForAI g).player_paddle_y_grid =
      max 0 (min 9 (static_cast_int (Int.floor (round_float
        (round_float (g.playerPaddle.position.2 + 40) / 60))))) := by
  show max 0 (min (PADDLE_Y_DIVISIONS - 1) (static_cast_int (Int.floor (round_float
    (round_float (g.playerPaddle.position.2 + round_float (PADDLE_HEIGHT / 2)) /
      round_float (round_float (g.windowSize.2 : ℚ) / (PADDLE_Y_DIVISIONS : ℚ))))))) = _
  rw [hw, half_paddle_height]
  show max 0 (min (PADDLE_Y_DIVISIONS - 1) (static_cast_int (Int.floor (round_float
    (round_float (g.playerPaddle.position.2 + 40) /
      round_float (round_float ((WINDOW_HEIGHT : Nat) : ℚ) / (GRID_Y_DIVISIONS : ℚ))))))) = _
  rw [cell_height_600]
  rfl

/-- A coordinate at or below 0 falls in bucket 0, whatever its magnitude. -/
theorem bucket_of_nonpos (x d : ℚ) (hd : 0 < d) (h : x ≤ 0) :
    max 0 (min 9 (static_cast_int (Int.floor (round_float (x / d))))) = 0 := by
  have h1 : round_float (x / d) ≤ 0 :=
    round_float_nonpos _ (div_nonpos_of_nonpos_of_nonneg h hd.le)
  have h2 : Int.floor (round_float (x / d)) ≤ 0 := by
    refine Int.floor_le_iff.mpr ?_
    push_cast
    linarith
  have h3 := static_cast_int_nonpos _ h2
  rw [min_eq_right (by omega), max_eq_left h3]

/-- A coordinate at or beyond ten cells falls in bucket 9 as long as the
quotient fits an `int`. -/
theorem bucket_of_beyond (x d : ℚ) (hd : 0 < d) (h : 10 * d ≤ x) (hb : x ≤ d * INT_FLOAT_MAX) :
    max 0 (min 9 (static_cast_int (Int.floor (round_float (x / d))))) = 9 := by
  have h1 : ((10 : Int) : ℚ) ≤ round_float (x / d) :=
    le_quotient_of_le x d 10 hd (by norm_num) (by norm_num) (by push_cast; linarith)
  have h2 : 10 ≤ Int.floor (round_float (x / d)) := Int.le_floor.mpr h1
  have h3 := floor_quotient_le x d hd hb
  rw [static_cast_int_of_range _ (by omega) h3, min_eq_left (by omega)]
  norm_num

theorem round_float_two_pow_31 : round_float 2147483648 = 2147483648 := by decide!

/-- A coordinate whose quotient reaches `2 ^ 31` falls in bucket 0: the
conversion to `int` is out of range. -/
theorem bucket_of_overflow (x d : ℚ) (hd : 0 < d) (h : d * 2147483648 ≤ x) :
    max 0 (min 9 (static_cast_int (Int.floor (round_float (x / d))))) = 0 := by
  have h0 : (2147483648 : ℚ) ≤ x / d := by
    rw [le_div_iff₀ hd]
    linarith
  have h1 := round_float_mono _ _ h0
  rw [round_float_two_pow_31] at h1
  have h2 : 2147483648 ≤ Int.floor (round_float (x / d)) := Int.le_floor.mpr (by exact_mod_cast h1)
  rw [static_cast_int_overflow _ h2]
  decide

/-- For a `float` coordinate the bucket of the code is the reference bucket. -/
theorem bucket_eq_reference_80 (w : ℚ) (h : round_float w ≤ COORDINATE_MAX) :
    max 0 (min 9 (static_cast_int (Int.floor (round_float (round_float w / 80))))) =
      reference_bucket (round_float w) 800 10 := by
  rw [reference_bucket_800]
  exact float_bucket w 80 (Or.inl rfl) (le_trans h (by norm_num [COORDINATE_MAX, INT_FLOAT_MAX]))

theorem bucket_eq_reference_60 (w : ℚ) (h : round_float w ≤ COORDINATE_MAX) :
    max 0 (min 9 (static_cast_int (Int.floor (round_float (round_float w / 60))))) =
      reference_bucket (round_float w) 600 10 := by
  rw [reference_bucket_600]
  exact float_bucket w 60 (Or.inr rfl) (le_trans h (by norm_num [COORDINATE_MAX, INT_FLOAT_MAX]))

theorem round_float_coordinate_max : round_float COORDINATE_MAX = COORDINATE_MAX := by decide!

theorem round_float_le_coordinate_max (z : ℚ) (h : z ≤ COORDINATE_MAX) :
    round_float z ≤ COORDINATE_MAX := by
  have := round_float_mono _ _ h
  rwa [round_float_coordinate_max] at this

/-! ## Digits written and read back -/

theorem digit_char_spec (d : Nat) (h : d < 10) :
    isdigit (digit_char d) = true ∧ digit_value (digit_char d) = d := by
  interval_cases d <;> exact ⟨rfl, rfl⟩

theorem read_digits_append (ds rest : List Char) (acc k : Nat)
    (hds : ∀ c ∈ ds, isdigit c = true) (hrest : ∀ c ∈ rest.head?, isdigit c = false) :
    read_digits (ds ++ rest) acc k = (digits_value ds acc, k + ds.length, rest) := by
  induction ds generalizing acc k with
  | nil =>
    cases rest with
    | nil => simp [read_digits, digits_value]
    | cons c cs =>
      have hc : isdigit c = false := hrest c (by simp)
      simp [read_digits, digits_value, hc]
  | cons d ds ih =>
    have hd : isdigit d = true := hds d (by simp)
    have hds' : ∀ c ∈ ds, isdigit c = true := fun c hc => hds c (by simp [hc])
    have h := ih (10 * acc + digit_value d) (k + 1) hds'
    simp only [List.cons_append, read_digits, hd, if_true, digits_value, List.length_cons]
    refine h.trans ?_
    congr 2
    omega

theorem digits_value_append (a b : List Char) (acc : Nat) :
    digits_value (a ++ b) acc = digits_value b (digits_value a acc) := by
  induction a generalizing acc with
  | nil => rfl
  | cons c cs ih =>
    have h := ih (10 * acc + digit_value c)
    simp only [List.cons_append, digits_value]
    exact h

theorem digits_value_acc (ds : List Char) (acc : Nat) :
    digits_value ds acc = acc * 10 ^ ds.length + digits_value ds 0 := by
  induction ds generalizing acc with
  | nil => simp [digits_value]
  | cons c cs ih =>
    simp only [digits_value, List.length_cons]
    rw [ih (10 * acc + digit_value c), ih (10 * 0 + digit_value c)]
    ring

theorem nat_digits_isdigit (fuel n : Nat) : ∀ c ∈ nat_digits fuel n, isdigit c = true := by
  induction fuel generalizing n with
  | zero =>
    intro c hc
    simp only [nat_digits, List.mem_singleton] at hc
    rw [hc]
    exact (digit_char_spec _ (Nat.mod_lt _ (by norm_num))).1
  | succ fuel ih =>
    intro c hc
    simp only [nat_digits] at hc
    split_ifs at hc with h
    · simp only [List.mem_singleton] at hc
      rw [hc]
      exact (digit_char_spec _ h).1
    · rw [List.mem_append] at hc
      rcases hc with hc | hc
      · exact ih _ c hc
      · simp only [List.mem_singleton] at hc
        rw [hc]
        exact (digit_char_spec _ (Nat.mod_lt _ (by norm_num))).1

theorem nat_digits_ne_nil (fuel n : Nat) : nat_digits fuel n ≠ [] := by
  cases fuel with
  | zero => simp [nat_digits]
  | succ fuel =>
    simp only [nat_digits]
    split_ifs <;> simp

theorem digits_value_nat_digits (fuel n : Nat) (h : n < 10 ^ (fuel + 1)) :
    digits_value (nat_digits fuel n) 0 = n := by
  induction fuel generalizing n with
  | zero =>
    have hn : n < 10 := by simpa using h
    simp [nat_digits, digits_value, Nat.mod_eq_of_lt hn, (digit_char_spec n hn).2]
  | succ fuel ih =>
    simp only [nat_digits]
    split_ifs with h10
    · simp [digits_value, (digit_char_spec _ h10).2]
    · have hdiv : n / 10 < 10 ^ (fuel + 1) := by
        rw [Nat.div_lt_iff_lt_mul (by norm_num)]
        calc n < 10 ^ (fuel + 1 + 1) := h
          _ = 10 ^ (fuel + 1) * 10 := by ring
      rw [digits_value_append, ih _ hdiv]
      simp only [digits_value, (digit_char_spec _ (Nat.mod_lt n (by norm_num))).2]
      omega

theorem format_nat_isdigit (n : Nat) : ∀ c ∈ format_nat n, isdigit c = true :=
  nat_digits_isdigit n n

theorem format_nat_ne_nil (n : Nat) : format_nat n ≠ [] := nat_digits_ne_nil n n

theorem digits_value_format_nat (n : Nat) : digits_value (format_nat n) 0 = n :=
  digits_value_nat_digits n n (Nat.lt_pow_self (by norm_num) _ |>.trans_le
    (Nat.pow_le_pow_right (by norm_num) (Nat.le_succ n)))

theorem isdigit_not_special (c : Char) (h : isdigit c = true) :
    isspace c = false ∧ c ≠ '-' ∧ c ≠ '+' ∧ c ≠ '.' ∧ c ≠ 'e' ∧ c ≠ 'E' ∧ c ≠ newline := by
  refine ⟨?_, ?_, ?_, ?_, ?_, ?_, ?_⟩
  · simp only [isspace, Bool.or_eq_false_iff, decide_eq_false_iff_not]
    refine ⟨⟨⟨⟨⟨?_, ?_⟩, ?_⟩, ?_⟩, ?_⟩, ?_⟩ <;> (rintro rfl; revert h; decide)
  all_goals (rintro rfl; revert h; decide)

theorem skip_ws_of_head (l : List Char) (h : ∀ c ∈ l.head?, isspace c = false) :
    skip_ws l = l := by
  cases l with
  | nil => rfl
  | cons c cs => simp [skip_ws, h c (by simp)]

theorem read_sign_of_head (l : List Char) (h : ∀ c ∈ l.head?, c ≠ '-' ∧ c ≠ '+') :
    read_sign l = (false, l) := by
  cases l with
  | nil => rfl
  | cons c cs =>
    obtain ⟨h1, h2⟩ := h c (by simp)
    simp [read_sign, h1, h2]

theorem head_format_nat (n : Nat) (rest : List Char) :
    ∀ c ∈ (format_nat n ++ rest).head?, isdigit c = true := by
  obtain ⟨c, cs, hcs⟩ := List.exists_cons_of_ne_nil (format_nat_ne_nil n)
  intro d hd
  have hc : isdigit c = true := format_nat_isdigit n c (by simp [hcs])
  simp only [hcs, List.cons_append, List.head?_cons, Option.mem_def, Option.some.injEq] at hd
  rw [← hd]
  exact hc

theorem read_digits_format_nat (n : Nat) (rest : List Char)
    (hrest : ∀ c ∈ rest.head?, isdigit c = false) :
    read_digits (format_nat n ++ rest) 0 0 = (n, (format_nat n).length, rest) := by
  rw [read_digits_append _ _ _ _ (format_nat_isdigit n) hrest, digits_value_format_nat]
  simp

theorem format_nat_length_pos (n : Nat) : 0 < (format_nat n).length :=
  List.length_pos.mpr (format_nat_ne_nil n)

/-- Reading the natural number `operator<<` wrote: no sign is found, and the
digits give the number back. -/
theorem read_unsigned_format_nat (n : Nat) (rest : List Char) :
    skip_ws (format_nat n ++ rest) = format_nat n ++ rest ∧
    read_sign (format_nat n ++ rest) = (false, format_nat n ++ rest) := by
  constructor
  · exact skip_ws_of_head _ (fun c hc => (isdigit_not_special c (head_format_nat n rest c hc)).1)
  · exact read_sign_of_head _ (fun c hc =>
      ⟨(isdigit_not_special c (head_format_nat n rest c hc)).2.1,
       (isdigit_not_special c (head_format_nat n rest c hc)).2.2.1⟩)

/-- Extraction `stream >> int` reads back what `stream << int` wrote, for a value that fits
an `int` and is followed by the end of the line or a non-digit. -/
theorem extract_int_format_int (x : Int) (rest : List Char)
    (hx : INT_MIN ≤ x ∧ x ≤ INT_MAX) (hrest : ∀ c ∈ rest.head?, isdigit c = false) :
    extract_int (format_int x ++ rest) = some (x, rest) := by
  have hlen := format_nat_length_pos x.natAbs
  by_cases hneg : x < 0
  · have hsk : skip_ws (format_int x ++ rest) = '-' :: (format_nat x.natAbs ++ rest) := by
      simp only [format_int, hneg, if_true, List.cons_append]
      exact skip_ws_of_head _ (by simp; decide)
    have habs : -(x.natAbs : Int) = x := by omega
    simp only [extract_int, hsk, read_sign, if_true, read_digits_format_nat _ _ hrest]
    rw [if_neg (by omega), habs, if_pos hx]
  · have hfmt : format_int x ++ rest = format_nat x.natAbs ++ rest := by
      simp only [format_int, hneg, if_false]
    obtain ⟨h1, h2⟩ := read_unsigned_format_nat x.natAbs rest
    have habs : (x.natAbs : Int) = x := by omega
    simp only [extract_int, hfmt, h1, h2, read_digits_format_nat _ _ hrest]
    rw [if_neg (by omega)]
    simp only [Bool.false_eq_true, if_false, habs]
    rw [if_pos hx]

theorem extract_int_space (l : List Char) : extract_int (' ' :: l) = extract_int l := by
  have h : skip_ws (' ' :: l) = skip_ws l := by
    simp [skip_ws, isspace]
  simp only [extract_int, h]

/-! ## Decimal fractions written and read back -/

theorem pad_digits_isdigit (w n : Nat) : ∀ c ∈ pad_digits w n, isdigit c = true := by
  induction w generalizing n with
  | zero => simp [pad_digits]
  | succ w ih =>
    intro c hc
    simp only [pad_digits, List.mem_append, List.mem_singleton] at hc
    rcases hc with hc | hc
    · exact ih _ c hc
    · rw [hc]
      exact (digit_char_spec _ (Nat.mod_lt _ (by norm_num))).1

theorem pad_digits_length (w n : Nat) : (pad_digits w n).length = w := by
  induction w generalizing n with
  | zero => rfl
  | succ w ih => simp [pad_digits, ih]

theorem digits_value_pad_digits (w n acc : Nat) :
    digits_value (pad_digits w n) acc = acc * 10 ^ w + n % 10 ^ w := by
  induction w generalizing n with
  | zero => simp [pad_digits, digits_value, Nat.mod_one]
  | succ w ih =>
    simp only [pad_digits, digits_value_append, digits_value, ih,
      (digit_char_spec _ (Nat.mod_lt n (by norm_num))).2]
    have h1 : n % 10 ^ (w + 1) = 10 * (n / 10 % 10 ^ w) + n % 10 := by
      rw [pow_succ, Nat.mul_comm (10 ^ w) 10, Nat.mod_mul]
      omega
    rw [h1]
    ring

theorem fraction_digits_isdigit (w f : Nat) : ∀ c ∈ fraction_digits w f, isdigit c = true := by
  induction w generalizing f with
  | zero => simp [fraction_digits]
  | succ w ih =>
    intro c hc
    simp only [fraction_digits] at hc
    split_ifs at hc
    · exact ih _ c hc
    · exact pad_digits_isdigit _ _ c hc

/-- The fraction digits, read after the digits `acc`, denote `acc * 10 ^ w + f`
once the removed trailing zeros are put back. -/
theorem digits_value_fraction_digits (w f acc : Nat) (hf : f < 10 ^ w) :
    (fraction_digits w f).length ≤ w ∧
    digits_value (fraction_digits w f) acc * 10 ^ (w - (fraction_digits w f).length) =
      acc * 10 ^ w + f := by
  induction w generalizing f with
  | zero =>
    have : f = 0 := by simpa using hf
    simp [fraction_digits, digits_value, this]
  | succ w ih =>
    simp only [fraction_digits]
    split_ifs with h0
    · have hdiv : f / 10 < 10 ^ w := by
        rw [Nat.div_lt_iff_lt_mul (by norm_num)]
        calc f < 10 ^ (w + 1) := hf
          _ = 10 ^ w * 10 := by ring
      obtain ⟨hl, hv⟩ := ih (f / 10) hdiv
      refine ⟨by omega, ?_⟩
      have hsub : w + 1 - (fraction_digits w (f / 10)).length =
          (w - (fraction_digits w (f / 10)).length) + 1 := by omega
      rw [hsub, pow_succ, ← mul_assoc, hv]
      have hf10 : f = 10 * (f / 10) := by omega
      conv_rhs => rw [hf10]
      ring
    · refine ⟨by rw [pad_digits_length], ?_⟩
      rw [pad_digits_length, digits_value_pad_digits, Nat.mod_eq_of_lt hf]
      simp

theorem format_fixed_append (m w : Nat) (tail : List Char) :
    format_fixed m w ++ tail =
      format_nat (m / 10 ^ w) ++
        ((if fraction_digits w (m % 10 ^ w) = [] then []
          else '.' :: fraction_digits w (m % 10 ^ w)) ++ tail) := by
  simp only [format_fixed, List.append_assoc]

/-- Reading the mantissa `format_fixed` wrote: the digits before the point, then
the fraction digits continue the number. -/
theorem read_mantissa_format_fixed (m w : Nat) (tail : List Char)
    (htail : ∀ c ∈ tail.head?, isdigit c = false ∧ c ≠ '.') :
    read_mantissa (format_fixed m w ++ tail) =
      (digits_value (fraction_digits w (m % 10 ^ w)) (m / 10 ^ w),
       (format_nat (m / 10 ^ w)).length, (fraction_digits w (m % 10 ^ w)).length, tail) := by
  have htd : ∀ c ∈ tail.head?, isdigit c = false := fun c hc => (htail c hc).1
  rw [format_fixed_append]
  by_cases hfr : fraction_digits w (m % 10 ^ w) = []
  · simp only [hfr, if_true, List.nil_append, read_mantissa,
      read_digits_format_nat _ _ htd, digits_value, List.length_nil]
    cases tail with
    | nil => rfl
    | cons c cs =>
      have hc : c ≠ '.' := (htail c (by simp)).2
      simp [hc]
  · have hdot : ∀ c ∈ (('.' :: fraction_digits w (m % 10 ^ w)) ++ tail).head?,
        isdigit c = false := by
      intro c hc
      simp only [List.cons_append, List.head?_cons, Option.mem_def, Option.some.injEq] at hc
      rw [← hc]
      decide
    simp only [hfr, if_false, read_mantissa, read_digits_format_nat _ _ hdot]
    simp only [List.cons_append, if_true,
      read_digits_append _ _ _ _ (fraction_digits_isdigit _ _) htd, zero_add]

theorem read_exponent_none (rest : List Char) (hrest : rest = [] ∨ ∃ r, rest = ' ' :: r) :
    read_exponent rest = some (0, rest) := by
  rcases hrest with rfl | ⟨r, rfl⟩
  · rfl
  · simp [read_exponent]

theorem read_exponent_format_exponent (X : Int) (rest : List Char)
    (hrest : ∀ c ∈ rest.head?, isdigit c = false) :
    read_exponent ('e' :: (format_exponent X ++ rest)) = some (X, rest) := by
  have hlen := format_nat_length_pos X.natAbs
  have hsign : read_sign (format_exponent X ++ rest) =
      (decide (X < 0),
       (if X.natAbs < 10 then '0' :: format_nat X.natAbs else format_nat X.natAbs) ++ rest) := by
    simp only [format_exponent, List.cons_append, read_sign]
    by_cases hX : X < 0
    · simp [hX]
    · simp [hX]
  have hdig : read_digits
      ((if X.natAbs < 10 then '0' :: format_nat X.natAbs else format_nat X.natAbs) ++ rest) 0 0 =
      (X.natAbs, (if X.natAbs < 10 then (format_nat X.natAbs).length + 1
                  else (format_nat X.natAbs).length), rest) := by
    split_ifs with h10
    · have hall : ∀ c ∈ '0' :: format_nat X.natAbs, isdigit c = true := by
        intro c hc
        rcases List.mem_cons.mp hc with rfl | hc
        · decide
        · exact format_nat_isdigit _ c hc
      rw [read_digits_append _ _ _ _ hall hrest]
      have hv : digits_value ('0' :: format_nat X.natAbs) 0 = X.natAbs := by
        have h0 : digit_value '0' = 0 := by decide
        simp only [digits_value, h0, mul_zero, add_zero, digits_value_format_nat]
      rw [hv]
      simp
    · exact read_digits_format_nat _ _ hrest
  simp only [read_exponent, true_or, if_true, hsign, hdig]
  have hne : ¬ (if X.natAbs < 10 then (format_nat X.natAbs).length + 1
      else (format_nat X.natAbs).length) = 0 := by
    by_cases h10 : X.natAbs < 10
    · rw [if_pos h10]
      exact Nat.succ_ne_zero _
    · rw [if_neg h10]
      exact Nat.pos_iff_ne_zero.mp hlen
  rw [if_neg hne]
  by_cases hX : X < 0
  · have : -(X.natAbs : Int) = X := by omega
    simp only [hX, decide_True, if_true, this]
  · have : (X.natAbs : Int) = X := by omega
    simp only [hX, decide_False, Bool.false_eq_true, if_false, this]

theorem head_format_fixed (m w : Nat) (tail : List Char) :
    ∀ c ∈ (format_fixed m w ++ tail).head?, isdigit c = true := by
  rw [format_fixed_append]
  exact head_format_nat _ _

/-- Extraction `stream >> double` on a signed numeral written with `format_fixed`, followed
by `tail`: the mantissa is read back and the exponent is read from `tail`. -/
theorem extract_decimal_format_fixed (neg : Bool) (m w : Nat) (tail : List Char)
    (htail : ∀ c ∈ tail.head?, isdigit c = false ∧ c ≠ '.') :
    extract_decimal ((if neg then '-' :: format_fixed m w else format_fixed m w) ++ tail) =
      (read_exponent tail).map (fun er =>
        ((⟨if neg then -(digits_value (fraction_digits w (m % 10 ^ w)) (m / 10 ^ w) : Int)
            else (digits_value (fraction_digits w (m % 10 ^ w)) (m / 10 ^ w) : Int),
           er.1 - ((fraction_digits w (m % 10 ^ w)).length : Int)⟩ : Decimal), er.2)) := by
  have hlen := format_nat_length_pos (m / 10 ^ w)
  have hmt := read_mantissa_format_fixed m w tail htail
  have hsg : read_sign (skip_ws ((if neg then '-' :: format_fixed m w else format_fixed m w) ++ tail))
      = (neg, format_fixed m w ++ tail) := by
    cases neg with
    | true =>
      simp only [if_true, List.cons_append]
      rw [skip_ws_of_head _ (by simp; decide)]
      simp [read_sign]
    | false =>
      simp only [Bool.false_eq_true, if_false]
      rw [skip_ws_of_head _ (fun c hc => (isdigit_not_special c (head_format_fixed m w tail c hc)).1)]
      exact read_sign_of_head _ (fun c hc =>
        ⟨(isdigit_not_special c (head_format_fixed m w tail c hc)).2.1,
         (isdigit_not_special c (head_format_fixed m w tail c hc)).2.2.1⟩)
  simp only [extract_decimal, hsg, hmt]
  rw [if_neg (by omega)]
  cases read_exponent tail with
  | none => rfl
  | some er => rfl

/-- The value of the numeral read back, in terms of the number written. -/
theorem decimal_value_fixed (neg : Bool) (m w : Nat) (e : Int) :
    Decimal.toRat ⟨if neg then -(digits_value (fraction_digits w (m % 10 ^ w)) (m / 10 ^ w) : Int)
        else (digits_value (fraction_digits w (m % 10 ^ w)) (m / 10 ^ w) : Int),
      e - ((fraction_digits w (m % 10 ^ w)).length : Int)⟩ =
      (if neg then -1 else 1) * ((m : ℚ) * (10 : ℚ) ^ (e - (w : Int))) := by
  obtain ⟨hl, hv⟩ := digits_value_fraction_digits w (m % 10 ^ w) (m / 10 ^ w)
    (Nat.mod_lt _ (by positivity))
  have hm : (m / 10 ^ w) * 10 ^ w + m % 10 ^ w = m := by
    rw [Nat.mul_comm]
    exact Nat.div_add_mod m (10 ^ w)
  rw [hm] at hv
  have hvq : ((digits_value (fraction_digits w (m % 10 ^ w)) (m / 10 ^ w) : ℕ) : ℚ) *
      (10 : ℚ) ^ ((w : Int) - ((fraction_digits w (m % 10 ^ w)).length : Int)) = (m : ℚ) := by
    have h10 : ((10 : ℚ) ^ (w - (fraction_digits w (m % 10 ^ w)).length) : ℚ) =
        (10 : ℚ) ^ ((w : Int) - ((fraction_digits w (m % 10 ^ w)).length : Int)) := by
      rw [← Nat.cast_sub hl, zpow_natCast]
    rw [← h10]
    exact_mod_cast hv
  have hsplit : (10 : ℚ) ^ (e - ((fraction_digits w (m % 10 ^ w)).length : Int)) =
      (10 : ℚ) ^ ((w : Int) - ((fraction_digits w (m % 10 ^ w)).length : Int)) *
        (10 : ℚ) ^ (e - (w : Int)) := by
    rw [← zpow_add₀ (by norm_num : (10 : ℚ) ≠ 0)]
    congr 1
    ring
  simp only [Decimal.toRat]
  rw [hsplit, ← hvq]
  cases neg with
  | true =>
    simp only [if_true]
    push_cast
    ring
  | false =>
    simp only [Bool.false_eq_true, if_false]
    push_cast
    ring

theorem head_of_line_rest (rest : List Char) (hrest : rest = [] ∨ ∃ r, rest = ' ' :: r) :
    ∀ c ∈ rest.head?, isdigit c = false ∧ c ≠ '.' := by
  rcases hrest with rfl | ⟨r, rfl⟩
  · simp
  · intro c hc
    simp only [List.head?_cons, Option.mem_def, Option.some.injEq] at hc
    rw [← hc]
    decide

/-- The text of a signed numeral: the Boolean form of the sign test. -/
theorem signed_body (x : ℚ) (body : List Char) :
    (if x < 0 then '-' :: body else body) = (if decide (x < 0) then '-' :: body else body) := by
  by_cases h : x < 0 <;> simp [h]

theorem signed_unit (x : ℚ) :
    (if x < 0 then (-1 : ℚ) else 1) = (if decide (x < 0) then (-1 : ℚ) else 1) := by
  by_cases h : x < 0 <;> simp [h]

/-- Extraction `stream >> double` reads back the six-digit numeral `stream << double` wrote:
the value is `round6 x`, and the input after the numeral is left. -/
theorem extract_value_format_double (x : ℚ) (rest : List Char)
    (hrest : rest = [] ∨ ∃ r, rest = ' ' :: r) :
    extract_value (format_double x ++ rest) = some (round6 x, rest) := by
  have hhead := head_of_line_rest rest hrest
  by_cases hx : x = 0
  · have h0 : format_double x = (if false then '-' :: format_fixed 0 0 else format_fixed 0 0) := by
      simp only [format_double, hx, if_true]
      decide
    rw [extract_value, h0, extract_decimal_format_fixed false 0 0 rest hhead,
      read_exponent_none rest hrest]
    simp only [Option.map_some']
    rw [decimal_value_fixed false 0 0 0]
    simp [round6, hx]
  · by_cases hfix : -4 ≤ (six_digits x.num.natAbs x.den).2 ∧
        (six_digits x.num.natAbs x.den).2 < (PRECISION : Int)
    · have hfmt : format_double x =
          (if decide (x < 0) then
            '-' :: format_fixed (six_digits x.num.natAbs x.den).1
              ((PRECISION : Int) - 1 - (six_digits x.num.natAbs x.den).2).toNat
           else format_fixed (six_digits x.num.natAbs x.den).1
              ((PRECISION : Int) - 1 - (six_digits x.num.natAbs x.den).2).toNat) := by
        simp only [format_double, hx, if_false, hfix, and_self, if_true]
        exact signed_body x _
      rw [extract_value, hfmt, extract_decimal_format_fixed _ _ _ rest hhead,
        read_exponent_none rest hrest]
      simp only [Option.map_some']
      rw [decimal_value_fixed]
      have hw : (0 : Int) - ((((PRECISION : Int) - 1 -
          (six_digits x.num.natAbs x.den).2).toNat : Nat) : Int) =
          (six_digits x.num.natAbs x.den).2 - ((PRECISION : Int) - 1) := by
        have := hfix.2
        rw [Int.toNat_of_nonneg (by omega)]
        ring
      rw [hw]
      simp only [round6, hx, if_false, signed_unit]
    · have hfmt : format_double x ++ rest =
          (if decide (x < 0) then
            '-' :: format_fixed (six_digits x.num.natAbs x.den).1 (PRECISION - 1)
           else format_fixed (six_digits x.num.natAbs x.den).1 (PRECISION - 1)) ++
          ('e' :: (format_exponent (six_digits x.num.natAbs x.den).2 ++ rest)) := by
        simp only [format_double, hx, if_false, hfix]
        rw [signed_body]
        by_cases hneg : x < 0 <;> simp [hneg]
      have htail : ∀ c ∈ ('e' :: (format_exponent (six_digits x.num.natAbs x.den).2 ++
          rest)).head?, isdigit c = false ∧ c ≠ '.' := by
        intro c hc
        simp only [List.head?_cons, Option.mem_def, Option.some.injEq] at hc
        rw [← hc]
        decide
      rw [extract_value, hfmt, extract_decimal_format_fixed _ _ _ _ htail,
        read_exponent_format_exponent _ rest (fun c hc => (hhead c hc).1)]
      simp only [Option.map_some']
      rw [decimal_value_fixed]
      have hw : (((PRECISION - 1 : Nat)) : Int) = (PRECISION : Int) - 1 := by
        simp [PRECISION]
      rw [hw]
      simp only [round6, hx, if_false, signed_unit]

theorem extract_double_of_value (l : List Char) (v : ℚ) (r : List Char)
    (h : extract_value l = some (v, r)) (hfit : |v| < DBL_OVERFLOW) :
    extract_double l = some (v, r) := by
  simp only [extract_double, h]
  rw [if_neg (not_le.mpr hfit)]

/-- An extracted value fits a `double`. -/
theorem extract_double_fits (l : List Char) (v : ℚ) (r : List Char)
    (h : extract_double l = some (v, r)) : extract_value l = some (v, r) ∧ |v| < DBL_OVERFLOW := by
  unfold extract_double at h
  cases hv : extract_value l with
  | none =>
    rw [hv] at h
    exact Option.noConfusion h
  | some p =>
    rw [hv] at h
    simp only [] at h
    by_cases hb : DBL_OVERFLOW ≤ |p.1|
    · rw [if_pos hb] at h
      exact Option.noConfusion h
    · rw [if_neg hb] at h
      have e : p = (v, r) := Option.some.inj h
      rw [e] at hb
      exact ⟨by rw [e], not_le.mp hb⟩

/-- A numeral that does not fit a `double` is not extracted. -/
theorem extract_double_overflow (l : List Char) (v : ℚ) (r : List Char)
    (h : extract_value l = some (v, r)) (hbig : DBL_OVERFLOW ≤ |v|) : extract_double l = none := by
  simp only [extract_double, h]
  rw [if_pos hbig]

/-- Extraction `stream >> double` reads back the six-digit numeral that insertion
wrote, when it fits a `double`. -/
theorem extract_double_format_double (x : ℚ) (rest : List Char)
    (hrest : rest = [] ∨ ∃ r, rest = ' ' :: r) (hfit : |round6 x| < DBL_OVERFLOW) :
    extract_double (format_double x ++ rest) = some (round6 x, rest) :=
  extract_double_of_value _ _ _ (extract_value_format_double x rest hrest) hfit

/-! ## Lines written and read back -/

theorem extract_value_space (l : List Char) : extract_value (' ' :: l) = extract_value l := by
  have h : skip_ws (' ' :: l) = skip_ws l := by
    simp [skip_ws, isspace]
  simp only [extract_value, extract_decimal, h]

theorem extract_double_space (l : List Char) : extract_double (' ' :: l) = extract_double l := by
  simp only [extract_double, extract_value_space]

theorem space_not_digit (l : List Char) : ∀ c ∈ (' ' :: l).head?, isdigit c = false := by
  intro c hc
  simp only [List.head?_cons, Option.mem_def, Option.some.injEq] at hc
  rw [← hc]
  decide

theorem format_line_nested (s : State) (q : QValues) :
    format_line s q =
      format_int s.ball_x_grid ++ (' ' :: (format_int s.ball_y_grid ++ (' ' ::
      (format_int s.ball_vx_category ++ (' ' :: (format_int s.ball_vy_category ++ (' ' ::
      (format_int s.cpu_paddle_y_grid ++ (' ' :: (format_int s.player_paddle_y_grid ++ (' ' ::
      (format_double q.v0 ++ (' ' :: (format_double q.v1 ++ (' ' ::
      (format_double q.v2 ++ [])))))))))))))))) := by
  simp only [format_line, List.append_assoc, List.cons_append, List.append_nil]

/-- The extraction chain of `load_q_table` on a line `save_q_table` wrote: the
state comes back, the values come back rounded to six significant digits. -/
theorem parse_line_format_line (s : State) (q : QValues) (hs : s.in_int_range)
    (hq : q.fits_double) :
    parse_line (format_line s q) = some (s, q.as_saved) := by
  obtain ⟨h1, h2, h3, h4, h5, h6⟩ := hs
  obtain ⟨f0, f1, f2⟩ := hq
  rw [format_line_nested]
  simp only [parse_line, Option.bind_eq_bind,
    extract_int_format_int _ _ h1 (space_not_digit _), Option.some_bind, extract_int_space,
    extract_int_format_int _ _ h2 (space_not_digit _),
    extract_int_format_int _ _ h3 (space_not_digit _),
    extract_int_format_int _ _ h4 (space_not_digit _),
    extract_int_format_int _ _ h5 (space_not_digit _),
    extract_int_format_int _ _ h6 (space_not_digit _),
    extract_double_space,
    extract_double_format_double _ _ (Or.inr ⟨_, rfl⟩) f0,
      extract_double_format_double _ _ (Or.inr ⟨_, rfl⟩) f1,
    extract_double_format_double _ _ (Or.inl rfl) f2]
  rfl

/-- A saved line whose first value does not fit a `double` is rejected. -/
theorem parse_line_overflow (s : State) (q : QValues) (hs : s.in_int_range)
    (hbig : DBL_OVERFLOW ≤ |round6 q.v0|) : parse_line (format_line s q) = none := by
  obtain ⟨h1, h2, h3, h4, h5, h6⟩ := hs
  rw [format_line_nested]
  simp only [parse_line, Option.bind_eq_bind,
    extract_int_format_int _ _ h1 (space_not_digit _), Option.some_bind, extract_int_space,
    extract_int_format_int _ _ h2 (space_not_digit _),
    extract_int_format_int _ _ h3 (space_not_digit _),
    extract_int_format_int _ _ h4 (space_not_digit _),
    extract_int_format_int _ _ h5 (space_not_digit _),
    extract_int_format_int _ _ h6 (space_not_digit _),
    extract_double_space,
    extract_double_overflow _ _ _ (extract_value_format_double q.v0 _ (Or.inr ⟨_, rfl⟩)) hbig,
    Option.none_bind]

theorem line_char_of_isdigit (c : Char) (h : isdigit c = true) : line_char c = true := by
  simp [line_char, h]

theorem line_char_ne_newline (c : Char) (h : line_char c = true) : c ≠ newline := by
  rintro rfl
  revert h
  decide

theorem format_int_line_char (x : Int) : ∀ c ∈ format_int x, line_char c = true := by
  intro c hc
  simp only [format_int] at hc
  split_ifs at hc
  · rcases List.mem_cons.mp hc with rfl | hc
    · decide
    · exact line_char_of_isdigit c (format_nat_isdigit _ c hc)
  · exact line_char_of_isdigit c (format_nat_isdigit _ c hc)

theorem format_fixed_line_char (m w : Nat) : ∀ c ∈ format_fixed m w, line_char c = true := by
  intro c hc
  simp only [format_fixed, List.mem_append] at hc
  rcases hc with hc | hc
  · exact line_char_of_isdigit c (format_nat_isdigit _ c hc)
  · split_ifs at hc
    · simp at hc
    · rcases List.mem_cons.mp hc with rfl | hc
      · decide
      · exact line_char_of_isdigit c (fraction_digits_isdigit _ _ c hc)

theorem format_exponent_line_char (X : Int) : ∀ c ∈ format_exponent X, line_char c = true := by
  intro c hc
  simp only [format_exponent] at hc
  rcases List.mem_cons.mp hc with rfl | hc
  · split_ifs <;> decide
  · split_ifs at hc
    · rcases List.mem_cons.mp hc with rfl | hc
      · decide
      · exact line_char_of_isdigit c (format_nat_isdigit _ c hc)
    · exact line_char_of_isdigit c (format_nat_isdigit _ c hc)

theorem format_double_line_char (x : ℚ) : ∀ c ∈ format_double x, line_char c = true := by
  have hbody : ∀ c ∈ (if -4 ≤ (six_digits x.num.natAbs x.den).2 ∧
        (six_digits x.num.natAbs x.den).2 < (PRECISION : Int) then
          format_fixed (six_digits x.num.natAbs x.den).1
            ((PRECISION : Int) - 1 - (six_digits x.num.natAbs x.den).2).toNat
        else format_fixed (six_digits x.num.natAbs x.den).1 (PRECISION - 1) ++
          'e' :: format_exponent (six_digits x.num.natAbs x.den).2), line_char c = true := by
    intro c hc
    split_ifs at hc
    · exact format_fixed_line_char _ _ c hc
    · rcases List.mem_append.mp hc with hc | hc
      · exact format_fixed_line_char _ _ c hc
      · rcases List.mem_cons.mp hc with rfl | hc
        · decide
        · exact format_exponent_line_char _ c hc
  intro c hc
  by_cases h0 : x = 0
  · simp only [format_double, h0, if_true, List.mem_singleton] at hc
    rw [hc]
    decide
  · simp only [format_double, h0, if_false] at hc
    by_cases hneg : x < 0
    · rw [if_pos hneg] at hc
      rcases List.mem_cons.mp hc with rfl | hc
      · decide
      · exact hbody c hc
    · rw [if_neg hneg] at hc
      exact hbody c hc

theorem format_line_line_char (s : State) (q : QValues) :
    ∀ c ∈ format_line s q, line_char c = true := by
  intro c hc
  have hsp : line_char ' ' = true := by decide
  simp only [format_line, List.mem_append, List.mem_cons] at hc
  rcases hc with ((((((((hc | rfl | hc) | rfl | hc) | rfl | hc) | rfl | hc) | rfl | hc) |
    rfl | hc) | rfl | hc) | rfl | hc)
  all_goals first
    | exact hsp
    | exact format_int_line_char _ c hc
    | exact format_double_line_char _ c hc

theorem getlines_from_line (line rest cur : List Char) (h : ∀ c ∈ line, c ≠ newline) :
    getlines_from (line ++ newline :: rest) cur =
      (cur.reverse ++ line) :: getlines_from rest [] := by
  induction line generalizing cur with
  | nil => simp [getlines_from]
  | cons c cs ih =>
    have hc : c ≠ newline := h c (by simp)
    have hcs : ∀ d ∈ cs, d ≠ newline := fun d hd => h d (by simp [hd])
    simp only [List.cons_append, getlines_from, hc, if_false]
    refine (ih (c :: cur) hcs).trans ?_
    simp

/-- Function `std::getline` returns the lines of the saved text one entry after the other. -/
theorem getlines_save_text (t : QTable) :
    getlines (save_text t) = t.map (fun p => format_line p.1 p.2) := by
  induction t with
  | nil => rfl
  | cons p rest ih =>
    obtain ⟨s, q⟩ := p
    simp only [save_text, getlines, List.map_cons]
    rw [getlines_from_line _ _ _
      (fun c hc => line_char_ne_newline c (format_line_line_char s q c hc))]
    simp only [List.reverse_nil, List.nil_append, List.cons.injEq, true_and]
    exact ih

theorem QTable.assign_of_not_mem (t : QTable) (s : State) (q : QValues) (h : s ∉ t.keys) :
    t.assign s q = t ++ [(s, q)] := by
  induction t with
  | nil => rfl
  | cons p rest ih =>
    obtain ⟨k, q0⟩ := p
    simp only [QTable.keys, List.map_cons, List.mem_cons, not_or] at h
    have hk : ¬ k = s := fun e => h.1 e.symm
    simp only [QTable.assign, hk, if_false, List.cons_append, List.cons.injEq, true_and]
    exact ih h.2

/-- Loading the lines of a well-formed table, after a table that shares no key
with it: every line is accepted and appended, when
the values written fit a `double`. -/
theorem load_loop_saved (t t0 : QTable) (lr er : Nat) (hwf : t.well_formed)
    (hv : t.values_fit_double) (hdisj : ∀ s ∈ t.keys, s ∉ t0.keys) :
    load_loop (t.map (fun p => format_line p.1 p.2)) t0 lr er =
      (t0 ++ t.map (fun p => (p.1, p.2.as_saved)), lr + t.length, er) := by
  induction t generalizing t0 lr with
  | nil => simp [load_loop]
  | cons p rest ih =>
    obtain ⟨s, q⟩ := p
    obtain ⟨hnd, hrange⟩ := hwf
    simp only [QTable.keys, List.map_cons, List.nodup_cons, List.mem_cons, forall_eq_or_imp]
      at hnd hrange hdisj
    have hrest : QTable.well_formed rest := ⟨hnd.2, hrange.2⟩
    have hvq : q.fits_double := hv (s, q) (List.mem_cons_self _ _)
    have hvrest : QTable.values_fit_double rest := fun e he => hv e (List.mem_cons_of_mem _ he)
    have hdisj' : ∀ k ∈ QTable.keys rest, k ∉ QTable.keys (t0 ++ [(s, q.as_saved)]) := by
      intro k hk
      simp only [QTable.keys, List.map_append, List.map_cons, List.map_nil, List.mem_append,
        List.mem_singleton, not_or]
      refine ⟨hdisj.2 k hk, ?_⟩
      rintro rfl
      exact hnd.1 hk
    simp only [List.map_cons, load_loop, parse_line_format_line s q hrange.1 hvq]
    rw [QTable.assign_of_not_mem _ _ _ hdisj.1, ih _ _ hrest hvrest hdisj']
    simp only [List.append_assoc, List.singleton_append, List.length_cons, Prod.mk.injEq,
      true_and]
    exact ⟨by omega, trivial⟩

theorem QTable.find_map_values (t : QTable) (f : QValues → QValues) (s : State) :
    QTable.find (t.map (fun p => (p.1, f p.2))) s = (t.find s).map f := by
  induction t with
  | nil => rfl
  | cons p rest ih =>
    obtain ⟨k, q⟩ := p
    by_cases hk : k = s
    · simp [QTable.find, hk]
    · simp only [List.map_cons, QTable.find, hk, if_false]
      exact ih

/-- Saving a well-formed table whose values fit a `double` and loading the text: no parse error, one line
read per entry, and the same entries with the values as saved. -/
theorem load_saved_table {G : Type} (ag prior : QLearningAgent G) (hwf : ag.q_table.well_formed)
    (hv : ag.q_table.values_fit_double) :
    load_q_table prior (save_q_table ag true).2 =
      ⟨true, { prior with q_table := ag.q_table.map (fun p => (p.1, p.2.as_saved)) },
        ag.q_table.length, 0⟩ := by
  simp only [save_q_table, if_true, load_q_table, getlines_save_text]
  rw [load_loop_saved _ [] 0 0 hwf hv (by simp [QTable.keys])]
  simp

theorem update_q_value_well_formed {G : Type} (ag : QLearningAgent G) (s : State) (a : Action)
    (r : ℚ) (s' : State) (hwf : ag.q_table.well_formed) (hs : s.in_int_range)
    (hs' : s'.in_int_range) : (update_q_value ag s a r s').q_table.well_formed := by
  obtain ⟨hnd, hrange⟩ := hwf
  have h1 : QTable.well_formed (ag.q_table.assign s
      ((ag.q_table.subscript s).set a.toIndex
        (get_q_value ag s a.toIndex + ag.alpha *
          (r + ag.gamma * (match ag.q_table.find s' with
                           | some q => q.get (max_element q)
                           | none => 0) - get_q_value ag s a.toIndex)))) := by
    refine ⟨QTable.keys_assign_nodup _ _ _ hnd, ?_⟩
    intro k hk
    rcases (QTable.mem_keys_assign _ _ _ _).mp hk with hk | rfl
    · exact hrange k hk
    · exact hs
  simp only [update_q_value]
  split_ifs
  · refine ⟨QTable.keys_assign_nodup _ _ _ h1.1, ?_⟩
    intro k hk
    rcases (QTable.mem_keys_assign _ _ _ _).mp hk with hk | rfl
    · exact h1.2 k hk
    · exact hs'
  · exact h1

theorem apply_updates_well_formed {G : Type} (ag : QLearningAgent G) (updates : List Transition)
    (hwf : ag.q_table.well_formed)
    (hr : ∀ u ∈ updates, u.1.in_int_range ∧ u.2.2.2.in_int_range) :
    (apply_updates ag updates).q_table.well_formed := by
  induction updates generalizing ag with
  | nil => exact hwf
  | cons u rest ih =>
    simp only [apply_updates]
    refine ih _ ?_ (fun v hv => hr v (by simp [hv]))
    exact update_q_value_well_formed ag _ _ _ _ hwf (hr u (by simp)).1 (hr u (by simp)).2

/-! ## Accuracy of the six-digit rounding -/

theorem nat_digits_length_bounds (fuel n : Nat) (h : n < 10 ^ (fuel + 1)) :
    n < 10 ^ (nat_digits fuel n).length ∧
    (0 < n → 10 ^ ((nat_digits fuel n).length - 1) ≤ n) := by
  induction fuel generalizing n with
  | zero =>
    have hn : n < 10 := by simpa using h
    simp only [nat_digits, List.length_singleton, pow_one, Nat.sub_self, pow_zero]
    exact ⟨hn, fun h0 => h0⟩
  | succ fuel ih =>
    simp only [nat_digits]
    split_ifs with h10
    · simp only [List.length_singleton, pow_one, Nat.sub_self, pow_zero]
      exact ⟨h10, fun h0 => h0⟩
    · have hdiv : n / 10 < 10 ^ (fuel + 1) := by
        rw [Nat.div_lt_iff_lt_mul (by norm_num)]
        calc n < 10 ^ (fuel + 1 + 1) := h
          _ = 10 ^ (fuel + 1) * 10 := by ring
      obtain ⟨hlt, hge⟩ := ih (n / 10) hdiv
      have hpos : 0 < n / 10 := Nat.div_pos (by omega) (by norm_num)
      have hge' := hge hpos
      have hlen : 0 < (nat_digits fuel (n / 10)).length :=
        List.length_pos.mpr (nat_digits_ne_nil _ _)
      simp only [List.length_append, List.length_singleton, Nat.add_sub_cancel]
      constructor
      · rw [pow_succ]
        omega
      · intro _
        have hs : (nat_digits fuel (n / 10)).length =
            ((nat_digits fuel (n / 10)).length - 1) + 1 := by omega
        rw [hs, pow_succ]
        omega

theorem format_nat_length_bounds (n : Nat) (hn : 0 < n) :
    n < 10 ^ (format_nat n).length ∧ 10 ^ ((format_nat n).length - 1) ≤ n := by
  have h := nat_digits_length_bounds n n (Nat.lt_pow_self (by norm_num) _ |>.trans_le
    (Nat.pow_le_pow_right (by norm_num) (Nat.le_succ n)))
  exact ⟨h.1, h.2 hn⟩

/-- The decimal exponent is a lower estimate: `10 ^ X <= p / q`. -/
theorem decimal_exponent_le (p q : Nat) (hp : 0 < p) (hq : 0 < q) :
    (10 : ℚ) ^ (decimal_exponent p q) ≤ (p : ℚ) / (q : ℚ) := by
  obtain ⟨_, hpl⟩ := format_nat_length_bounds p hp
  obtain ⟨hqu, _⟩ := format_nat_length_bounds q hq
  have hlp := format_nat_length_pos p
  have hq' : (0 : ℚ) < (q : ℚ) := by exact_mod_cast hq
  have hpl' : (10 : ℚ) ^ (((format_nat p).length : Int) - 1) ≤ (p : ℚ) := by
    have h1 : (((format_nat p).length : Int) - 1) = (((format_nat p).length - 1 : Nat) : Int) := by
      omega
    rw [h1, zpow_natCast]
    exact_mod_cast hpl
  have hqu' : (q : ℚ) ≤ (10 : ℚ) ^ ((format_nat q).length : Int) := by
    rw [zpow_natCast]
    exact_mod_cast hqu.le
  -- the estimate one below the difference of the digit counts always holds
  have hlow : (10 : ℚ) ^ (((format_nat p).length : Int) - ((format_nat q).length : Int) - 1) ≤
      (p : ℚ) / (q : ℚ) := by
    rw [le_div_iff₀ hq']
    have hsplit : (10 : ℚ) ^ (((format_nat p).length : Int) - 1) =
        (10 : ℚ) ^ (((format_nat p).length : Int) - ((format_nat q).length : Int) - 1) *
          (10 : ℚ) ^ ((format_nat q).length : Int) := by
      rw [← zpow_add₀ (by norm_num : (10 : ℚ) ≠ 0)]
      congr 1
      ring
    calc (10 : ℚ) ^ (((format_nat p).length : Int) - ((format_nat q).length : Int) - 1) * (q : ℚ)
        ≤ (10 : ℚ) ^ (((format_nat p).length : Int) - ((format_nat q).length : Int) - 1) *
            (10 : ℚ) ^ ((format_nat q).length : Int) :=
          mul_le_mul_of_nonneg_left hqu' (by positivity)
      _ = (10 : ℚ) ^ (((format_nat p).length : Int) - 1) := hsplit.symm
      _ ≤ (p : ℚ) := hpl'
  simp only [decimal_exponent]
  split_ifs with h0 h1 h2
  · rw [le_div_iff₀ hq']
    have ht : (10 : ℚ) ^ (((format_nat p).length : Int) - ((format_nat q).length : Int)) =
        ((10 ^ (((format_nat p).length : Int) - ((format_nat q).length : Int)).toNat : Nat) : ℚ) := by
      push_cast
      rw [← zpow_natCast, Int.toNat_of_nonneg h0]
    rw [ht, mul_comm]
    exact_mod_cast h1
  · exact hlow
  · rw [le_div_iff₀ hq']
    have hneg : (0 : Int) ≤ -(((format_nat p).length : Int) - ((format_nat q).length : Int)) := by
      omega
    have ht : (10 : ℚ) ^ (((format_nat p).length : Int) - ((format_nat q).length : Int)) *
        ((10 ^ (-(((format_nat p).length : Int) - ((format_nat q).length : Int))).toNat : Nat) : ℚ)
        = 1 := by
      push_cast
      rw [← zpow_natCast, Int.toNat_of_nonneg hneg, ← zpow_add₀ (by norm_num : (10 : ℚ) ≠ 0)]
      simp
    have h2' : (q : ℚ) ≤ (p : ℚ) *
        ((10 ^ (-(((format_nat p).length : Int) - ((format_nat q).length : Int))).toNat : Nat) : ℚ) := by
      exact_mod_cast h2
    have hpos : (0 : ℚ) <
        (10 : ℚ) ^ (((format_nat p).length : Int) - ((format_nat q).length : Int)) := by
      positivity
    calc (10 : ℚ) ^ (((format_nat p).length : Int) - ((format_nat q).length : Int)) * (q : ℚ)
        ≤ (10 : ℚ) ^ (((format_nat p).length : Int) - ((format_nat q).length : Int)) *
            ((p : ℚ) * ((10 ^ (-(((format_nat p).length : Int) -
              ((format_nat q).length : Int))).toNat : Nat) : ℚ)) :=
          mul_le_mul_of_nonneg_left h2' hpos.le
      _ = (p : ℚ) * ((10 : ℚ) ^ (((format_nat p).length : Int) - ((format_nat q).length : Int)) *
            ((10 ^ (-(((format_nat p).length : Int) -
              ((format_nat q).length : Int))).toNat : Nat) : ℚ)) := by ring
      _ = (p : ℚ) := by rw [ht, mul_one]
  · exact hlow

/-- The decimal exponent is an upper estimate too: `p / q < 10 ^ (X + 1)`. -/
theorem lt_decimal_exponent_succ (p q : Nat) (hp : 0 < p) (hq : 0 < q) :
    (p : ℚ) / (q : ℚ) < (10 : ℚ) ^ (decimal_exponent p q + 1) := by
  obtain ⟨hpu, _⟩ := format_nat_length_bounds p hp
  obtain ⟨_, hql⟩ := format_nat_length_bounds q hq
  have hlq := format_nat_length_pos q
  have hq' : (0 : ℚ) < (q : ℚ) := by exact_mod_cast hq
  have hpu' : (p : ℚ) < (10 : ℚ) ^ ((format_nat p).length : Int) := by
    rw [zpow_natCast]
    exact_mod_cast hpu
  have hql' : (10 : ℚ) ^ (((format_nat q).length : Int) - 1) ≤ (q : ℚ) := by
    have h1 : (((format_nat q).length : Int) - 1) = (((format_nat q).length - 1 : Nat) : Int) := by
      omega
    rw [h1, zpow_natCast]
    exact_mod_cast hql
  have hup : (p : ℚ) / (q : ℚ) <
      (10 : ℚ) ^ (((format_nat p).length : Int) - ((format_nat q).length : Int) + 1) := by
    rw [div_lt_iff₀ hq']
    have hsplit : (10 : ℚ) ^ ((format_nat p).length : Int) =
        (10 : ℚ) ^ (((format_nat p).length : Int) - ((format_nat q).length : Int) + 1) *
          (10 : ℚ) ^ (((format_nat q).length : Int) - 1) := by
      rw [← zpow_add₀ (by norm_num : (10 : ℚ) ≠ 0)]
      congr 1
      ring
    calc (p : ℚ) < (10 : ℚ) ^ ((format_nat p).length : Int) := hpu'
      _ = _ := hsplit
      _ ≤ (10 : ℚ) ^ (((format_nat p).length : Int) - ((format_nat q).length : Int) + 1) *
            (q : ℚ) := mul_le_mul_of_nonneg_left hql' (by positivity)
  simp only [decimal_exponent]
  split_ifs with h0 h1 h2
  · exact hup
  · rw [sub_add_cancel, div_lt_iff₀ hq']
    have ht : (10 : ℚ) ^ (((format_nat p).length : Int) - ((format_nat q).length : Int)) =
        ((10 ^ (((format_nat p).length : Int) - ((format_nat q).length : Int)).toNat : Nat) : ℚ) := by
      push_cast
      rw [← zpow_natCast, Int.toNat_of_nonneg h0]
    rw [ht, mul_comm]
    exact_mod_cast not_le.mp h1
  · exact hup
  · rw [sub_add_cancel, div_lt_iff₀ hq']
    have hneg : (0 : Int) ≤ -(((format_nat p).length : Int) - ((format_nat q).length : Int)) := by
      omega
    have ht : (10 : ℚ) ^ (((format_nat p).length : Int) - ((format_nat q).length : Int)) *
        ((10 ^ (-(((format_nat p).length : Int) - ((format_nat q).length : Int))).toNat : Nat) : ℚ)
        = 1 := by
      push_cast
      rw [← zpow_natCast, Int.toNat_of_nonneg hneg, ← zpow_add₀ (by norm_num : (10 : ℚ) ≠ 0)]
      simp
    have h2' : (p : ℚ) *
        ((10 ^ (-(((format_nat p).length : Int) - ((format_nat q).length : Int))).toNat : Nat) : ℚ)
        < (q : ℚ) := by
      exact_mod_cast not_le.mp h2
    have hpos : (0 : ℚ) <
        (10 : ℚ) ^ (((format_nat p).length : Int) - ((format_nat q).length : Int)) := by
      positivity
    calc (p : ℚ) = (p : ℚ) * ((10 : ℚ) ^ (((format_nat p).length : Int) - ((format_nat q).length : Int)) *
            ((10 ^ (-(((format_nat p).length : Int) -
              ((format_nat q).length : Int))).toNat : Nat) : ℚ)) := by rw [ht, mul_one]
      _ = (10 : ℚ) ^ (((format_nat p).length : Int) - ((format_nat q).length : Int)) *
            ((p : ℚ) * ((10 ^ (-(((format_nat p).length : Int) -
              ((format_nat q).length : Int))).toNat : Nat) : ℚ)) := by ring
      _ < (10 : ℚ) ^ (((format_nat p).length : Int) - ((format_nat q).length : Int)) * (q : ℚ) :=
          mul_lt_mul_of_pos_left h2' hpos

theorem round_half_even_close (N D : Nat) (hD : 0 < D) :
    |(round_half_even N D : ℚ) - (N : ℚ) / (D : ℚ)| ≤ 1 / 2 := by
  have hD' : (0 : ℚ) < (D : ℚ) := by exact_mod_cast hD
  have hN : (N : ℚ) / (D : ℚ) = ((N / D : Nat) : ℚ) + ((N % D : Nat) : ℚ) / (D : ℚ) := by
    have h := Nat.div_add_mod N D
    have h' : (N : ℚ) = (D : ℚ) * ((N / D : Nat) : ℚ) + ((N % D : Nat) : ℚ) := by
      exact_mod_cast h.symm
    field_simp
    linarith
  have hr : ((N % D : Nat) : ℚ) / (D : ℚ) < 1 := by
    rw [div_lt_one hD']
    exact_mod_cast Nat.mod_lt N hD
  have hr0 : (0 : ℚ) ≤ ((N % D : Nat) : ℚ) / (D : ℚ) := by positivity
  rw [hN, abs_le]
  simp only [round_half_even]
  split_ifs with h
  · have hge : (D : ℚ) ≤ 2 * ((N % D : Nat) : ℚ) := by
      rcases h with h | h
      · exact_mod_cast h.le
      · exact_mod_cast h.1.symm.le
    have hhalf : (1 : ℚ) / 2 ≤ ((N % D : Nat) : ℚ) / (D : ℚ) := by
      rw [le_div_iff₀ hD']
      linarith
    push_cast
    constructor <;> linarith
  · have hle : 2 * ((N % D : Nat) : ℚ) ≤ (D : ℚ) := by
      have : 2 * (N % D) ≤ D := by
        by_contra hc
        exact h (Or.inl (by omega))
      exact_mod_cast this
    have hhalf : ((N % D : Nat) : ℚ) / (D : ℚ) ≤ 1 / 2 := by
      rw [div_le_iff₀ hD']
      linarith
    constructor <;> linarith

theorem scaled_round_close (p q : Nat) (j : Int) (hq : 0 < q) :
    |(scaled_round p q j : ℚ) - (p : ℚ) / (q : ℚ) * (10 : ℚ) ^ j| ≤ 1 / 2 := by
  have hq' : (q : ℚ) ≠ 0 := by exact_mod_cast hq.ne'
  simp only [scaled_round]
  split_ifs with hj
  · have h := round_half_even_close (p * 10 ^ j.toNat) q hq
    have he : ((p * 10 ^ j.toNat : Nat) : ℚ) / (q : ℚ) = (p : ℚ) / (q : ℚ) * (10 : ℚ) ^ j := by
      push_cast
      rw [← zpow_natCast, Int.toNat_of_nonneg hj]
      ring
    rw [he] at h
    exact h
  · have h := round_half_even_close p (q * 10 ^ (-j).toNat) (by positivity)
    have he : (p : ℚ) / ((q * 10 ^ (-j).toNat : Nat) : ℚ) = (p : ℚ) / (q : ℚ) * (10 : ℚ) ^ j := by
      push_cast
      rw [← zpow_natCast, Int.toNat_of_nonneg (by omega), zpow_neg]
      field_simp
    rw [he] at h
    exact h

/-- The number `six_digits` stands for is the rounded scaled fraction. -/
theorem six_digits_value (p q : Nat) :
    ((six_digits p q).1 : ℚ) * (10 : ℚ) ^ ((six_digits p q).2 - ((PRECISION : Int) - 1)) =
      (scaled_round p q ((PRECISION : Int) - 1 - decimal_exponent p q) : ℚ) *
        (10 : ℚ) ^ (decimal_exponent p q - ((PRECISION : Int) - 1)) := by
  simp only [six_digits]
  split_ifs with h
  · rw [h]
    have he : decimal_exponent p q + 1 - ((PRECISION : Int) - 1) =
        (decimal_exponent p q - ((PRECISION : Int) - 1)) + 1 := by ring
    simp only [he]
    rw [zpow_add₀ (by norm_num : (10 : ℚ) ≠ 0)]
    norm_num [PRECISION]
    ring
  · rfl

/-- The value read back differs from the value saved by at most five parts in a
million of its magnitude: six significant digits. -/
theorem round6_close (x : ℚ) : |round6 x - x| ≤ |x| / 200000 := by
  by_cases hx : x = 0
  · simp [round6, hx]
  have hq : 0 < x.den := x.den_pos
  have hp : 0 < x.num.natAbs := Int.natAbs_pos.mpr (Rat.num_ne_zero.mpr hx)
  have habs : |x| = (x.num.natAbs : ℚ) / (x.den : ℚ) := by
    conv_lhs => rw [← Rat.num_div_den x]
    rw [abs_div, Nat.cast_natAbs, Int.cast_abs]
    congr 1
    exact abs_of_pos (by exact_mod_cast hq)
  have hlow := decimal_exponent_le _ _ hp hq
  have hcl := scaled_round_close x.num.natAbs x.den
    ((PRECISION : Int) - 1 - decimal_exponent x.num.natAbs x.den) hq
  rw [← habs] at hlow hcl
  have hval := six_digits_value x.num.natAbs x.den
  have hsign : x = (if x < 0 then -1 else 1) * |x| := by
    split_ifs with h
    · rw [abs_of_neg h]; ring
    · rw [abs_of_nonneg (not_lt.mp h)]; ring
  have hpow : (0 : ℚ) < (10 : ℚ) ^ (decimal_exponent x.num.natAbs x.den - ((PRECISION : Int) - 1)) := by
    positivity
  have hscale : |x| = |x| * (10 : ℚ) ^ ((PRECISION : Int) - 1 - decimal_exponent x.num.natAbs x.den) *
      (10 : ℚ) ^ (decimal_exponent x.num.natAbs x.den - ((PRECISION : Int) - 1)) := by
    rw [mul_assoc, ← zpow_add₀ (by norm_num : (10 : ℚ) ≠ 0)]
    simp
  have hten : (10 : ℚ) ^ (decimal_exponent x.num.natAbs x.den - ((PRECISION : Int) - 1)) =
      (10 : ℚ) ^ (decimal_exponent x.num.natAbs x.den) / 100000 := by
    rw [zpow_sub₀ (by norm_num : (10 : ℚ) ≠ 0)]
    norm_num [PRECISION]
  have hround : round6 x = (if x < 0 then -1 else 1) *
      ((scaled_round x.num.natAbs x.den
          ((PRECISION : Int) - 1 - decimal_exponent x.num.natAbs x.den) : ℚ) *
        (10 : ℚ) ^ (decimal_exponent x.num.natAbs x.den - ((PRECISION : Int) - 1))) := by
    simp only [round6, hx, if_false]
    rw [hval]
  have hunit : |(if x < 0 then (-1 : ℚ) else 1)| = 1 := by
    split_ifs <;> simp
  have hdiff : round6 x - x = (if x < 0 then -1 else 1) *
      (((scaled_round x.num.natAbs x.den
          ((PRECISION : Int) - 1 - decimal_exponent x.num.natAbs x.den) : ℚ) -
        |x| * (10 : ℚ) ^ ((PRECISION : Int) - 1 - decimal_exponent x.num.natAbs x.den)) *
        (10 : ℚ) ^ (decimal_exponent x.num.natAbs x.den - ((PRECISION : Int) - 1))) := by
    rw [sub_mul, ← hscale, mul_sub, ← hsign, hround]
  rw [hdiff, abs_mul, hunit, one_mul, abs_mul, abs_of_pos hpow, hten]
  have h1 : |(scaled_round x.num.natAbs x.den
      ((PRECISION : Int) - 1 - decimal_exponent x.num.natAbs x.den) : ℚ) -
      |x| * (10 : ℚ) ^ ((PRECISION : Int) - 1 - decimal_exponent x.num.natAbs x.den)| *
      ((10 : ℚ) ^ (decimal_exponent x.num.natAbs x.den) / 100000) ≤
      1 / 2 * ((10 : ℚ) ^ (decimal_exponent x.num.natAbs x.den) / 100000) :=
    mul_le_mul_of_nonneg_right hcl (by positivity)
  linarith

/-- A value of magnitude at most `1e308` is written as a numeral that fits a
`double`. -/
theorem fits_double_of_le (x : ℚ) (h : |x| ≤ 10 ^ 308) : |round6 x| < DBL_OVERFLOW := by
  have hc := round6_close x
  have h1 : |round6 x| ≤ |round6 x - x| + |x| := by
    have := abs_add (round6 x - x) x
    rwa [sub_add_cancel] at this
  have h2 : (10 : ℚ) ^ 308 + 10 ^ 308 / 200000 < DBL_OVERFLOW := by
    unfold DBL_OVERFLOW
    norm_num
  have h3 : |x| / 200000 ≤ 10 ^ 308 / 200000 := by linarith
  linarith

/-- The magnitude of the numeral written for `x ≠ 0`. -/
theorem abs_round6 (x : ℚ) (hx : x ≠ 0) :
    |round6 x| = (scaled_round x.num.natAbs x.den
        ((PRECISION : Int) - 1 - decimal_exponent x.num.natAbs x.den) : ℚ) *
      (10 : ℚ) ^ (decimal_exponent x.num.natAbs x.den - ((PRECISION : Int) - 1)) := by
  have hval := six_digits_value x.num.natAbs x.den
  have hunit : |(if x < 0 then (-1 : ℚ) else 1)| = 1 := by
    split_ifs <;> simp
  simp only [round6, hx, if_false]
  rw [hval, abs_mul, hunit, one_mul]
  exact abs_of_nonneg (by positivity)

/-- Every finite `double` is written as a numeral that fits a `double`. -/
theorem fits_double_of_finite (x : ℚ) (h : |x| ≤ DBL_MAX) : |round6 x| < DBL_OVERFLOW := by
  by_cases hsmall : |x| ≤ 10 ^ 308
  · exact fits_double_of_le x hsmall
  have hbig : (10 : ℚ) ^ (308 : Int) < |x| := by
    have := not_le.mp hsmall
    rw [zpow_ofNat]
    exact this
  have hx : x ≠ 0 := by
    intro h0
    rw [h0, abs_zero] at hbig
    exact absurd hbig (not_lt.mpr (by positivity))
  have hq : 0 < x.den := x.den_pos
  have hp : 0 < x.num.natAbs := Int.natAbs_pos.mpr (Rat.num_ne_zero.mpr hx)
  have habs : |x| = (x.num.natAbs : ℚ) / (x.den : ℚ) := by
    conv_lhs => rw [← Rat.num_div_den x]
    rw [abs_div, Nat.cast_natAbs, Int.cast_abs]
    congr 1
    exact abs_of_pos (by exact_mod_cast hq)
  have hlow := decimal_exponent_le _ _ hp hq
  have hup := lt_decimal_exponent_succ _ _ hp hq
  rw [← habs] at hlow hup
  have htop : |x| < (10 : ℚ) ^ (309 : Int) := by
    refine lt_of_le_of_lt h ?_
    unfold DBL_MAX
    norm_num
  have hX : decimal_exponent x.num.natAbs x.den = 308 := by
    have h1 : decimal_exponent x.num.natAbs x.den < 309 :=
      (zpow_lt_zpow_iff_right₀ (by norm_num : (1 : ℚ) < 10)).mp (lt_of_le_of_lt hlow htop)
    have h2 : (308 : Int) < decimal_exponent x.num.natAbs x.den + 1 :=
      (zpow_lt_zpow_iff_right₀ (by norm_num : (1 : ℚ) < 10)).mp (lt_trans hbig hup)
    omega
  have hcl := scaled_round_close x.num.natAbs x.den
    ((PRECISION : Int) - 1 - decimal_exponent x.num.natAbs x.den) hq
  rw [← habs, hX] at hcl
  rw [abs_round6 x hx, hX]
  have hj : ((PRECISION : Int) - 1 - 308) = -303 := by norm_num [PRECISION]
  have hk : ((308 : Int) - ((PRECISION : Int) - 1)) = 303 := by norm_num [PRECISION]
  rw [hj] at hcl ⊢
  rw [hk]
  generalize scaled_round x.num.natAbs x.den (-303) = m at hcl ⊢
  have hy : |x| * (10 : ℚ) ^ (-303 : Int) < 179769 + 1 / 2 := by
    have : |x| * (10 : ℚ) ^ (-303 : Int) ≤ DBL_MAX * (10 : ℚ) ^ (-303 : Int) :=
      mul_le_mul_of_nonneg_right h (by positivity)
    refine lt_of_le_of_lt this ?_
    unfold DBL_MAX
    norm_num
  have hm : (m : ℚ) < 179770 := by
    have := (abs_le.mp hcl).2
    linarith
  have hm' : m ≤ 179769 := by
    have : m < 179770 := by exact_mod_cast hm
    omega
  have hm'' : (m : ℚ) ≤ 179769 := by exact_mod_cast hm'
  calc (m : ℚ) * (10 : ℚ) ^ (303 : Int) ≤ 179769 * (10 : ℚ) ^ (303 : Int) :=
        mul_le_mul_of_nonneg_right hm'' (by positivity)
    _ < DBL_OVERFLOW := by
        unfold DBL_OVERFLOW
        norm_num

theorem QTable.values_fit_double_of_range (t : QTable) (h : t.values_in_double_range) :
    t.values_fit_double := fun e he =>
  ⟨fits_double_of_finite _ (h e he).1, fits_double_of_finite _ (h e he).2.1,
    fits_double_of_finite _ (h e he).2.2⟩

/-! ## Frame of one update -/

theorem QValues.get_set_of_ne (q : QValues) (i j : Fin 3) (x : ℚ) (h : i ≠ j) :
    (q.set j x).get i = q.get i := by
  fin_cases i <;> fin_cases j <;> first | rfl | exact absurd rfl h

/-- The entry of a state other than `s` after `update_q_value(s, a, r, s')`: the
zero array when it is `s'` and was absent, its previous lookup otherwise. -/
theorem find_other_state_update_q_value {G : Type} (ag : QLearningAgent G) (s : State)
    (a : Action) (r : ℚ) (s' k : State) (hk : k ≠ s) :
    (update_q_value ag s a r s').q_table.find k =
      if k = s' ∧ ag.q_table.find k = none then some QValues.zero else ag.q_table.find k := by
  have hsk : s ≠ k := fun e => hk e.symm
  simp only [update_q_value]
  by_cases hs' : k = s'
  · subst hs'
    rw [QTable.find_assign_of_ne _ _ _ _ hsk]
    by_cases hf : ag.q_table.find k = none
    · rw [if_pos hf, QTable.find_assign_self, if_pos ⟨rfl, hf⟩]
    · rw [if_neg hf, QTable.find_assign_of_ne _ _ _ _ hsk, if_neg (fun h => hf h.2)]
  · have hne : ¬ (k = s' ∧ ag.q_table.find k = none) := fun h => hs' h.1
    rw [if_neg hne]
    split_ifs
    · rw [QTable.find_assign_of_ne _ _ _ _ (fun e => hs' e.symm),
        QTable.find_assign_of_ne _ _ _ _ hsk]
    · rw [QTable.find_assign_of_ne _ _ _ _ hsk]

/-! ## Load replaces -/

theorem read_digits_append_space (l e : List Char) (acc n : Nat) :
    read_digits (l ++ ' ' :: e) acc n =
      ((read_digits l acc n).1, (read_digits l acc n).2.1,
        (read_digits l acc n).2.2 ++ ' ' :: e) := by
  induction l generalizing acc n with
  | nil =>
    have h : isdigit ' ' = false := by decide
    simp [read_digits, h]
  | cons c cs ih =>
    by_cases hc : isdigit c = true
    · simp only [List.cons_append, read_digits, hc, if_true]
      exact ih _ _
    · simp [read_digits, hc]

theorem skip_ws_append (l x : List Char) (h : skip_ws l ≠ []) :
    skip_ws (l ++ x) = skip_ws l ++ x := by
  induction l with
  | nil => exact absurd rfl h
  | cons c cs ih =>
    by_cases hc : isspace c = true
    · simp only [List.cons_append, skip_ws, hc, if_true] at h ⊢
      exact ih h
    · simp [skip_ws, hc]

theorem read_sign_append (l x : List Char) (h : l ≠ []) :
    read_sign (l ++ x) = ((read_sign l).1, (read_sign l).2 ++ x) := by
  cases l with
  | nil => exact absurd rfl h
  | cons c cs =>
    simp only [List.cons_append, read_sign]
    split_ifs <;> rfl

theorem extract_int_nil_of_skip (l : List Char) (h : skip_ws l = []) : extract_int l = none := by
  simp [extract_int, h, read_sign, read_digits]

/-- An accepted `int` field stays accepted, with the same value, when a space and
more text follow the input. -/
theorem extract_int_append_space (l e : List Char) (v : Int) (r : List Char)
    (h : extract_int l = some (v, r)) :
    extract_int (l ++ ' ' :: e) = some (v, r ++ ' ' :: e) := by
  have hsk : skip_ws l ≠ [] := by
    intro hnil
    rw [extract_int_nil_of_skip l hnil] at h
    exact Option.noConfusion h
  simp only [extract_int] at h ⊢
  rw [skip_ws_append _ _ hsk, read_sign_append _ _ hsk, read_digits_append_space]
  simp only []
  split_ifs at h ⊢ with h1 h2
  all_goals
    simp only [Option.some.injEq, Prod.mk.injEq] at h ⊢
    exact ⟨h.1, by rw [h.2]⟩

theorem read_mantissa_append_space (l e : List Char) :
    read_mantissa (l ++ ' ' :: e) =
      ((read_mantissa l).1, (read_mantissa l).2.1, (read_mantissa l).2.2.1,
        (read_mantissa l).2.2.2 ++ ' ' :: e) := by
  have hsp : ¬ (' ' : Char) = '.' := by decide
  simp only [read_mantissa, read_digits_append_space]
  cases hrest : (read_digits l 0 0).2.2 with
  | nil => simp [hsp]
  | cons c cs =>
    by_cases hc : c = '.'
    · simp [hc, read_digits_append_space]
    · simp [hc]

theorem read_exponent_append_space (l e : List Char) :
    read_exponent (l ++ ' ' :: e) =
      (read_exponent l).map (fun p => (p.1, p.2 ++ ' ' :: e)) := by
  cases l with
  | nil =>
    have h1 : ¬ ((' ' : Char) = 'e' ∨ (' ' : Char) = 'E') := by decide
    simp [read_exponent, h1]
  | cons c cs =>
    by_cases hc : c = 'e' ∨ c = 'E'
    · simp only [List.cons_append, read_exponent, hc, if_true]
      cases cs with
      | nil =>
        have hd : isdigit ' ' = false := by decide
        have hs1 : ¬ (' ' : Char) = '-' := by decide
        have hs2 : ¬ (' ' : Char) = '+' := by decide
        simp [read_sign, read_digits, hd, hs1, hs2]
      | cons d ds =>
        rw [read_sign_append (d :: ds) _ (by simp), read_digits_append_space]
        simp only []
        split_ifs <;> rfl
    · simp [read_exponent, hc]

theorem extract_decimal_nil_of_skip (l : List Char) (h : skip_ws l = []) :
    extract_decimal l = none := by
  simp [extract_decimal, h, read_sign, read_mantissa, read_digits]

/-- An accepted `double` field stays accepted, with the same value, when a space
and more text follow the input. -/
theorem extract_value_append_space (l e : List Char) (v : ℚ) (r : List Char)
    (h : extract_value l = some (v, r)) :
    extract_value (l ++ ' ' :: e) = some (v, r ++ ' ' :: e) := by
  have hsk : skip_ws l ≠ [] := by
    intro hnil
    rw [extract_value, extract_decimal_nil_of_skip l hnil] at h
    exact Option.noConfusion h
  simp only [extract_value, extract_decimal] at h ⊢
  rw [skip_ws_append _ _ hsk, read_sign_append _ _ hsk, read_mantissa_append_space,
    read_exponent_append_space]
  simp only []
  by_cases h1 : (read_mantissa (read_sign (skip_ws l)).2).2.1 +
      (read_mantissa (read_sign (skip_ws l)).2).2.2.1 = 0
  · rw [if_pos h1] at h
    exact Option.noConfusion h
  · rw [if_neg h1] at h ⊢
    cases hexp : read_exponent (read_mantissa (read_sign (skip_ws l)).2).2.2.2 with
    | none =>
      rw [hexp] at h
      exact Option.noConfusion h
    | some p =>
      rw [hexp] at h
      simp only [Option.map_some', Option.some.injEq, Prod.mk.injEq] at h ⊢
      exact ⟨h.1, by rw [h.2]⟩

theorem extract_double_append_space (l e : List Char) (v : ℚ) (r : List Char)
    (h : extract_double l = some (v, r)) :
    extract_double (l ++ ' ' :: e) = some (v, r ++ ' ' :: e) := by
  obtain ⟨hv, hfit⟩ := extract_double_fits l v r h
  exact extract_double_of_value _ _ _ (extract_value_append_space l e v r hv) hfit

/-- An accepted line stays accepted, with the same entry, when a space and more
text are appended: nothing is read after the ninth number. -/
theorem parse_line_append_space (l e : List Char) (v : State × QValues)
    (h : parse_line l = some v) : parse_line (l ++ ' ' :: e) = some v := by
  simp only [parse_line, Option.bind_eq_bind, Option.bind_eq_some, Option.pure_def,
    Option.some.injEq] at h
  obtain ⟨⟨x1, r1⟩, h1, ⟨x2, r2⟩, h2, ⟨x3, r3⟩, h3, ⟨x4, r4⟩, h4, ⟨x5, r5⟩, h5, ⟨x6, r6⟩, h6,
    ⟨q0, r7⟩, h7, ⟨q1, r8⟩, h8, ⟨q2, r9⟩, h9, hv⟩ := h
  simp only [parse_line, Option.bind_eq_bind, Option.pure_def,
    extract_int_append_space _ e _ _ h1, extract_int_append_space _ e _ _ h2,
    extract_int_append_space _ e _ _ h3, extract_int_append_space _ e _ _ h4,
    extract_int_append_space _ e _ _ h5, extract_int_append_space _ e _ _ h6,
    extract_double_append_space _ e _ _ h7, extract_double_append_space _ e _ _ h8,
    extract_double_append_space _ e _ _ h9, Option.some_bind]
  exact congrArg some hv

theorem extract_int_range (l : List Char) (v : Int) (r : List Char)
    (h : extract_int l = some (v, r)) : INT_MIN ≤ v ∧ v ≤ INT_MAX := by
  unfold extract_int at h
  simp only [] at h
  by_cases h1 : (read_digits (read_sign (skip_ws l)).2 0 0).2.1 = 0
  · rw [if_pos h1] at h
    exact absurd h (by simp)
  · rw [if_neg h1] at h
    generalize (if (read_sign (skip_ws l)).1 = true
      then -((read_digits (read_sign (skip_ws l)).2 0 0).1 : Int)
      else ((read_digits (read_sign (skip_ws l)).2 0 0).1 : Int)) = x at h
    by_cases h2 : INT_MIN ≤ x ∧ x ≤ INT_MAX
    · rw [if_pos h2] at h
      simp only [Option.some.injEq, Prod.mk.injEq] at h
      rw [← h.1]
      exact h2
    · rw [if_neg h2] at h
      exact absurd h (by simp)

/-- An accepted line carries six values that fit an `int` and three values that
fit a `double`. -/
theorem parse_line_fits (l : List Char) (s : State) (q : QValues)
    (h : parse_line l = some (s, q)) :
    s.in_int_range ∧ |q.v0| < DBL_OVERFLOW ∧ |q.v1| < DBL_OVERFLOW ∧ |q.v2| < DBL_OVERFLOW := by
  simp only [parse_line, Option.bind_eq_bind, Option.bind_eq_some, Option.pure_def,
    Option.some.injEq] at h
  obtain ⟨⟨x1, r1⟩, h1, ⟨x2, r2⟩, h2, ⟨x3, r3⟩, h3, ⟨x4, r4⟩, h4, ⟨x5, r5⟩, h5, ⟨x6, r6⟩, h6,
    ⟨q0, r7⟩, h7, ⟨q1, r8⟩, h8, ⟨q2, r9⟩, h9, hv⟩ := h
  simp only [Prod.mk.injEq] at hv
  obtain ⟨hs, hq⟩ := hv
  subst hs
  subst hq
  exact ⟨⟨extract_int_range _ _ _ h1, extract_int_range _ _ _ h2, extract_int_range _ _ _ h3,
    extract_int_range _ _ _ h4, extract_int_range _ _ _ h5, extract_int_range _ _ _ h6⟩,
    (extract_double_fits _ _ _ h7).2, (extract_double_fits _ _ _ h8).2,
    (extract_double_fits _ _ _ h9).2⟩

/-! ## Lines that are rejected -/

theorem extract_int_nil : extract_int [] = none := by
  simp [extract_int, skip_ws, read_sign, read_digits]

theorem extract_value_nil : extract_value [] = none := by
  simp [extract_value, extract_decimal, skip_ws, read_sign, read_mantissa, read_digits]

theorem extract_double_nil : extract_double [] = none := by
  simp only [extract_double, extract_value_nil]

theorem extract_int_format_int_end (x : Int) (hx : INT_MIN ≤ x ∧ x ≤ INT_MAX) :
    extract_int (format_int x) = some (x, []) := by
  have h := extract_int_format_int x [] hx (by simp)
  rwa [List.append_nil] at h

theorem extract_double_format_double_end (x : ℚ) (hfit : |round6 x| < DBL_OVERFLOW) :
    extract_double (format_double x) = some (round6 x, []) := by
  have h := extract_double_format_double x [] (Or.inl rfl) hfit
  rwa [List.append_nil] at h

theorem number_start_false (c : Char) (hc : number_start c = false) :
    isdigit c = false ∧ c ≠ '-' ∧ c ≠ '+' ∧ c ≠ '.' := by
  simp only [number_start, Bool.or_eq_false_iff, decide_eq_false_iff_not] at hc
  exact ⟨hc.1.1.1, hc.1.1.2, hc.1.2, hc.2⟩

theorem extract_int_bad_start (c : Char) (junk : List Char) (hc : number_start c = false)
    (hs : isspace c = false) : extract_int (c :: junk) = none := by
  obtain ⟨hd, h1, h2, _⟩ := number_start_false c hc
  simp [extract_int, skip_ws, hs, read_sign, h1, h2, read_digits, hd]

theorem extract_value_bad_start (c : Char) (junk : List Char) (hc : number_start c = false)
    (hs : isspace c = false) : extract_value (c :: junk) = none := by
  obtain ⟨hd, h1, h2, h3⟩ := number_start_false c hc
  simp [extract_value, extract_decimal, skip_ws, hs, read_sign, h1, h2, read_mantissa,
    read_digits, hd, h3]

theorem extract_double_bad_start (c : Char) (junk : List Char) (hc : number_start c = false)
    (hs : isspace c = false) : extract_double (c :: junk) = none := by
  simp only [extract_double, extract_value_bad_start c junk hc hs]

theorem format_line_eq_join (s : State) (q : QValues) :
    format_line s q = join_fields (fields_of s q) := by
  simp only [format_line, fields_of, join_fields, List.append_assoc, List.cons_append]

theorem nil_head_not_digit : ∀ c ∈ ([] : List Char).head?, isdigit c = false := by
  simp

set_option maxHeartbeats 4000000 in
/-- A line cut after fewer than nine fields of a saved line is rejected. -/
theorem parse_line_truncated (s : State) (q : QValues) (hs : s.in_int_range)
    (hq : q.fits_double) (k : Nat)
    (hk : k < 9) : parse_line (join_fields ((fields_of s q).take k)) = none := by
  obtain ⟨h1, h2, h3, h4, h5, h6⟩ := hs
  obtain ⟨f0, f1, f2⟩ := hq
  rw [← List.append_nil (join_fields _)]
  interval_cases k
  · simp only [fields_of, List.take, join_fields, List.append_assoc, List.cons_append,
      List.nil_append, parse_line, Option.bind_eq_bind]
    simp only [extract_int_nil, Option.none_bind]
  · simp only [fields_of, List.take, join_fields, List.append_assoc, List.cons_append,
      List.nil_append, parse_line, Option.bind_eq_bind]
    simp only [extract_int_format_int _ _ h1 nil_head_not_digit,
      Option.some_bind, extract_int_space, extract_double_space]
    simp only [extract_int_nil, Option.none_bind]
  · simp only [fields_of, List.take, join_fields, List.append_assoc, List.cons_append,
      List.nil_append, parse_line, Option.bind_eq_bind]
    simp only [extract_int_format_int _ _ h1 (space_not_digit _),
      Option.some_bind, extract_int_space, extract_double_space]
    simp only [extract_int_format_int _ _ h2 nil_head_not_digit,
      Option.some_bind, extract_int_space, extract_double_space]
    simp only [extract_int_nil, Option.none_bind]
  · simp only [fields_of, List.take, join_fields, List.append_assoc, List.cons_append,
      List.nil_append, parse_line, Option.bind_eq_bind]
    simp only [extract_int_format_int _ _ h1 (space_not_digit _),
      Option.some_bind, extract_int_space, extract_double_space]
    simp only [extract_int_format_int _ _ h2 (space_not_digit _),
      Option.some_bind, extract_int_space, extract_double_space]
    simp only [extract_int_format_int _ _ h3 nil_head_not_digit,
      Option.some_bind, extract_int_space, extract_double_space]
    simp only [extract_int_nil, Option.none_bind]
  · simp only [fields_of, List.take, join_fields, List.append_assoc, List.cons_append,
      List.nil_append, parse_line, Option.bind_eq_bind]
    simp only [extract_int_format_int _ _ h1 (space_not_digit _),
      Option.some_bind, extract_int_space, extract_double_space]
    simp only [extract_int_format_int _ _ h2 (space_not_digit _),
      Option.some_bind, extract_int_space, extract_double_space]
    simp only [extract_int_format_int _ _ h3 (space_not_digit _),
      Option.some_bind, extract_int_space, extract_double_space]
    simp only [extract_int_format_int _ _ h4 nil_head_not_digit,
      Option.some_bind, extract_int_space, extract_double_space]
    simp only [extract_int_nil, Option.none_bind]
  · simp only [fields_of, List.take, join_fields, List.append_assoc, List.cons_append,
      List.nil_append, parse_line, Option.bind_eq_bind]
    simp only [extract_int_format_int _ _ h1 (space_not_digit _),
      Option.some_bind, extract_int_space, extract_double_space]
    simp only [extract_int_format_int _ _ h2 (space_not_digit _),
      Option.some_bind, extract_int_space, extract_double_space]
    simp only [extract_int_format_int _ _ h3 (space_not_digit _),
      Option.some_bind, extract_int_space, extract_double_space]
    simp only [extract_int_format_int _ _ h4 (space_not_digit _),
      Option.some_bind, extract_int_space, extract_double_space]
    simp only [extract_int_format_int _ _ h5 nil_head_not_digit,
      Option.some_bind, extract_int_space, extract_double_space]
    simp only [extract_int_nil, Option.none_bind]
  · simp only [fields_of, List.take, join_fields, List.append_assoc, List.cons_append,
      List.nil_append, parse_line, Option.bind_eq_bind]
    simp only [extract_int_format_int _ _ h1 (space_not_digit _),
      Option.some_bind, extract_int_space, extract_double_space]
    simp only [extract_int_format_int _ _ h2 (space_not_digit _),
      Option.some_bind, extract_int_space, extract_double_space]
    simp only [extract_int_format_int _ _ h3 (space_not_digit _),
      Option.some_bind, extract_int_space, extract_double_space]
    simp only [extract_int_format_int _ _ h4 (space_not_digit _),
      Option.some_bind, extract_int_space, extract_double_space]
    simp only [extract_int_format_int _ _ h5 (space_not_digit _),
      Option.some_bind, extract_int_space, extract_double_space]
    simp only [extract_int_format_int _ _ h6 nil_head_not_digit,
      Option.some_bind, extract_int_space, extract_double_space]
    simp only [extract_double_nil, Option.none_bind]
  · simp only [fields_of, List.take, join_fields, List.append_assoc, List.cons_append,
      List.nil_append, parse_line, Option.bind_eq_bind]
    simp only [extract_int_format_int _ _ h1 (space_not_digit _),
      Option.some_bind, extract_int_space, extract_double_space]
    simp only [extract_int_format_int _ _ h2 (space_not_digit _),
      Option.some_bind, extract_int_space, extract_double_space]
    simp only [extract_int_format_int _ _ h3 (space_not_digit _),
      Option.some_bind, extract_int_space, extract_double_space]
    simp only [extract_int_format_int _ _ h4 (space_not_digit _),
      Option.some_bind, extract_int_space, extract_double_space]
    simp only [extract_int_format_int _ _ h5 (space_not_digit _),
      Option.some_bind, extract_int_space, extract_double_space]
    simp only [extract_int_format_int _ _ h6 (space_not_digit _),
      Option.some_bind, extract_int_space, extract_double_space]
    simp only [extract_double_format_double _ _ (Or.inl rfl) f0,
      extract_double_format_double _ _ (Or.inl rfl) f1,
      extract_double_format_double _ _ (Or.inl rfl) f2,
      Option.some_bind, extract_int_space, extract_double_space]
    simp only [extract_double_nil, Option.none_bind]
  · simp only [fields_of, List.take, join_fields, List.append_assoc, List.cons_append,
      List.nil_append, parse_line, Option.bind_eq_bind]
    simp only [extract_int_format_int _ _ h1 (space_not_digit _),
      Option.some_bind, extract_int_space, extract_double_space]
    simp only [extract_int_format_int _ _ h2 (space_not_digit _),
      Option.some_bind, extract_int_space, extract_double_space]
    simp only [extract_int_format_int _ _ h3 (space_not_digit _),
      Option.some_bind, extract_int_space, extract_double_space]
    simp only [extract_int_format_int _ _ h4 (space_not_digit _),
      Option.some_bind, extract_int_space, extract_double_space]
    simp only [extract_int_format_int _ _ h5 (space_not_digit _),
      Option.some_bind, extract_int_space, extract_double_space]
    simp only [extract_int_format_int _ _ h6 (space_not_digit _),
      Option.some_bind, extract_int_space, extract_double_space]
    simp only [extract_double_format_double _ _ (Or.inr ⟨_, rfl⟩) f0,
      extract_double_format_double _ _ (Or.inr ⟨_, rfl⟩) f1,
      Option.some_bind, extract_int_space, extract_double_space]
    simp only [extract_double_format_double _ _ (Or.inl rfl) f0,
      extract_double_format_double _ _ (Or.inl rfl) f1,
      extract_double_format_double _ _ (Or.inl rfl) f2,
      Option.some_bind, extract_int_space, extract_double_space]
    simp only [extract_double_nil, Option.none_bind]

set_option maxHeartbeats 4000000 in
/-- A line in which, after fewer than nine fields of a saved line, the next field
begins with a character that cannot begin a number is rejected. -/
theorem parse_line_bad_field (s : State) (q : QValues) (hs : s.in_int_range)
    (hq : q.fits_double) (k : Nat)
    (hk : k < 9) (c : Char) (junk : List Char) (hc : number_start c = false)
    (hsp : isspace c = false) :
    parse_line (join_fields ((fields_of s q).take k ++ [c :: junk])) = none := by
  obtain ⟨h1, h2, h3, h4, h5, h6⟩ := hs
  obtain ⟨f0, f1, f2⟩ := hq
  interval_cases k
  · simp only [fields_of, List.take, join_fields, List.append_assoc, List.cons_append,
      List.nil_append, parse_line, Option.bind_eq_bind]
    simp only [extract_int_bad_start c junk hc hsp, Option.none_bind]
  · simp only [fields_of, List.take, join_fields, List.append_assoc, List.cons_append,
      List.nil_append, parse_line, Option.bind_eq_bind]
    simp only [extract_int_format_int _ _ h1 (space_not_digit _),
      Option.some_bind, extract_int_space, extract_double_space]
    simp only [extract_int_bad_start c junk hc hsp, Option.none_bind]
  · simp only [fields_of, List.take, join_fields, List.append_assoc, List.cons_append,
      List.nil_append, parse_line, Option.bind_eq_bind]
    simp only [extract_int_format_int _ _ h1 (space_not_digit _),
      Option.some_bind, extract_int_space, extract_double_space]
    simp only [extract_int_format_int _ _ h2 (space_not_digit _),
      Option.some_bind, extract_int_space, extract_double_space]
    simp only [extract_int_bad_start c junk hc hsp, Option.none_bind]
  · simp only [fields_of, List.take, join_fields, List.append_assoc, List.cons_append,
      List.nil_append, parse_line, Option.bind_eq_bind]
    simp only [extract_int_format_int _ _ h1 (space_not_digit _),
      Option.some_bind, extract_int_space, extract_double_space]
    simp only [extract_int_format_int _ _ h2 (space_not_digit _),
      Option.some_bind, extract_int_space, extract_double_space]
    simp only [extract_int_format_int _ _ h3 (space_not_digit _),
      Option.some_bind, extract_int_space, extract_double_space]
    simp only [extract_int_bad_start c junk hc hsp, Option.none_bind]
  · simp only [fields_of, List.take, join_fields, List.append_assoc, List.cons_append,
      List.nil_append, parse_line, Option.bind_eq_bind]
    simp only [extract_int_format_int _ _ h1 (space_not_digit _),
      Option.some_bind, extract_int_space, extract_double_space]
    simp only [extract_int_format_int _ _ h2 (space_not_digit _),
      Option.some_bind, extract_int_space, extract_double_space]
    simp only [extract_int_format_int _ _ h3 (space_not_digit _),
      Option.some_bind, extract_int_space, extract_double_space]
    simp only [extract_int_format_int _ _ h4 (space_not_digit _),
      Option.some_bind, extract_int_space, extract_double_space]
    simp only [extract_int_bad_start c junk hc hsp, Option.none_bind]
  · simp only [fields_of, List.take, join_fields, List.append_assoc, List.cons_append,
      List.nil_append, parse_line, Option.bind_eq_bind]
    simp only [extract_int_format_int _ _ h1 (space_not_digit _),
      Option.some_bind, extract_int_space, extract_double_space]
    simp only [extract_int_format_int _ _ h2 (space_not_digit _),
      Option.some_bind, extract_int_space, extract_double_space]
    simp only [extract_int_format_int _ _ h3 (space_not_digit _),
      Option.some_bind, extract_int_space, extract_double_space]
    simp only [extract_int_format_int _ _ h4 (space_not_digit _),
      Option.some_bind, extract_int_space, extract_double_space]
    simp only [extract_int_format_int _ _ h5 (space_not_digit _),
      Option.some_bind, extract_int_space, extract_double_space]
    simp only [extract_int_bad_start c junk hc hsp, Option.none_bind]
  · simp only [fields_of, List.take, join_fields, List.append_assoc, List.cons_append,
      List.nil_append, parse_line, Option.bind_eq_bind]
    simp only [extract_int_format_int _ _ h1 (space_not_digit _),
      Option.some_bind, extract_int_space, extract_double_space]
    simp only [extract_int_format_int _ _ h2 (space_not_digit _),
      Option.some_bind, extract_int_space, extract_double_space]
    simp only [extract_int_format_int _ _ h3 (space_not_digit _),
      Option.some_bind, extract_int_space, extract_double_space]
    simp only [extract_int_format_int _ _ h4 (space_not_digit _),
      Option.some_bind, extract_int_space, extract_double_space]
    simp only [extract_int_format_int _ _ h5 (space_not_digit _),
      Option.some_bind, extract_int_space, extract_double_space]
    simp only [extract_int_format_int _ _ h6 (space_not_digit _),
      Option.some_bind, extract_int_space, extract_double_space]
    simp only [extract_double_bad_start c junk hc hsp, Option.none_bind]
  · simp only [fields_of, List.take, join_fields, List.append_assoc, List.cons_append,
      List.nil_append, parse_line, Option.bind_eq_bind]
    simp only [extract_int_format_int _ _ h1 (space_not_digit _),
      Option.some_bind, extract_int_space, extract_double_space]
    simp only [extract_int_format_int _ _ h2 (space_not_digit _),
      Option.some_bind, extract_int_space, extract_double_space]
    simp only [extract_int_format_int _ _ h3 (space_not_digit _),
      Option.some_bind, extract_int_space, extract_double_space]
    simp only [extract_int_format_int _ _ h4 (space_not_digit _),
      Option.some_bind, extract_int_space, extract_double_space]
    simp only [extract_int_format_int _ _ h5 (space_not_digit _),
      Option.some_bind, extract_int_space, extract_double_space]
    simp only [extract_int_format_int _ _ h6 (space_not_digit _),
      Option.some_bind, extract_int_space, extract_double_space]
    simp only [extract_double_format_double _ _ (Or.inr ⟨_, rfl⟩) f0,
      extract_double_format_double _ _ (Or.inr ⟨_, rfl⟩) f1,
      Option.some_bind, extract_int_space, extract_double_space]
    simp only [extract_double_bad_start c junk hc hsp, Option.none_bind]
  · simp only [fields_of, List.take, join_fields, List.append_assoc, List.cons_append,
      List.nil_append, parse_line, Option.bind_eq_bind]
    simp only [extract_int_format_int _ _ h1 (space_not_digit _),
      Option.some_bind, extract_int_space, extract_double_space]
    simp only [extract_int_format_int _ _ h2 (space_not_digit _),
      Option.some_bind, extract_int_space, extract_double_space]
    simp only [extract_int_format_int _ _ h3 (space_not_digit _),
      Option.some_bind, extract_int_space, extract_double_space]
    simp only [extract_int_format_int _ _ h4 (space_not_digit _),
      Option.some_bind, extract_int_space, extract_double_space]
    simp only [extract_int_format_int _ _ h5 (space_not_digit _),
      Option.some_bind, extract_int_space, extract_double_space]
    simp only [extract_int_format_int _ _ h6 (space_not_digit _),
      Option.some_bind, extract_int_space, extract_double_space]
    simp only [extract_double_format_double _ _ (Or.inr ⟨_, rfl⟩) f0,
      extract_double_format_double _ _ (Or.inr ⟨_, rfl⟩) f1,
      Option.some_bind, extract_int_space, extract_double_space]
    simp only [extract_double_bad_start c junk hc hsp, Option.none_bind]

/-! ## Action selection -/

theorem Action.ofIndex_toIndex (a : Action) : Action.ofIndex a.toIndex = a := by
  cases a <;> rfl

theorem max_element_ge (q : QValues) (j : Fin 3) : q.get j ≤ q.get (max_element q) := by
  obtain ⟨a, b, c⟩ := q
  simp only [max_element, QValues.get]
  by_cases h1 : a < b
  · by_cases h2 : b < c
    · fin_cases j <;> simp [h1, h2, QValues.get] <;> linarith
    · fin_cases j <;> simp [h1, h2, QValues.get] <;> linarith
  · by_cases h2 : a < c
    · fin_cases j <;> simp [h1, h2, QValues.get] <;> linarith
    · fin_cases j <;> simp [h1, h2, QValues.get] <;> linarith

theorem max_element_first (q : QValues) (j : Fin 3) (h : q.get j = q.get (max_element q)) :
    max_element q ≤ j := by
  obtain ⟨a, b, c⟩ := q
  simp only [max_element, QValues.get] at h ⊢
  by_cases h1 : a < b
  · by_cases h2 : b < c
    · fin_cases j <;> simp [h1, h2, QValues.get] at h ⊢ <;> linarith
    · fin_cases j <;> simp [h1, h2, QValues.get] at h ⊢
      linarith
  · by_cases h2 : a < c
    · fin_cases j <;> simp [h1, h2, QValues.get] at h ⊢ <;> linarith
    · fin_cases j <;> simp [h1, h2, QValues.get] at h ⊢

/-- A strict single maximum is the element `std::max_element` finds. -/
theorem max_element_unique (q : QValues) (i : Fin 3) (h : ∀ j, j ≠ i → q.get j < q.get i) :
    max_element q = i := by
  have hge := max_element_ge q i
  by_contra hne
  have := h (max_element q) hne
  linarith

theorem choose_action_exploit {G : Type} (R : RandomSource G) (ag : QLearningAgent G) (s : State)
    (h : ¬ R.exploration_value ag.rng < ag.epsilon) :
    choose_action R ag s =
      (Action.ofIndex (get_best_action_index R { ag with rng := R.advance ag.rng } s).1,
       (get_best_action_index R { ag with rng := R.advance ag.rng } s).2) := by
  simp only [choose_action, RandomSource.exploration_distribution, h, if_false]

theorem choose_action_explore {G : Type} (R : RandomSource G) (ag : QLearningAgent G) (s : State)
    (h : R.exploration_value ag.rng < ag.epsilon) :
    choose_action R ag s =
      (Action.ofIndex (R.action_value (R.advance ag.rng)),
       { ag with rng := R.advance (R.advance ag.rng) }) := by
  simp only [choose_action, RandomSource.exploration_distribution,
    RandomSource.action_distribution, h, if_true]

theorem set_difficulty_parameters {G : Type} (ag ag' : QLearningAgent G)
    (level : DifficultyLevel) :
    (set_difficulty ag level).parameters = (set_difficulty ag' level).parameters := by
  cases level <;> rfl

theorem set_difficulty_q_table {G : Type} (ag : QLearningAgent G) (level : DifficultyLevel) :
    (set_difficulty ag level).q_table = ag.q_table := by
  cases level <;> rfl

theorem apply_difficulties_q_table {G : Type} (ag : QLearningAgent G)
    (levels : List DifficultyLevel) : (apply_difficulties ag levels).q_table = ag.q_table := by
  induction levels generalizing ag with
  | nil => rfl
  | cons l rest ih =>
    simp only [apply_difficulties, List.foldl_cons] at ih ⊢
    rw [ih, set_difficulty_q_table]

/-! ## Growth of the table -/

theorem QTable.find_eq_none_iff (t : QTable) (s : State) : t.find s = none ↔ s ∉ t.keys := by
  induction t with
  | nil => simp [QTable.find, QTable.keys]
  | cons p rest ih =>
    obtain ⟨k, q⟩ := p
    simp only [QTable.keys] at ih
    by_cases hk : k = s
    · simp [QTable.find, QTable.keys, hk]
    · have hk' : ¬ s = k := fun e => hk e.symm
      simp [QTable.find, QTable.keys, hk, hk', ih]

theorem QTable.length_assign (t : QTable) (s : State) (q : QValues) :
    (t.assign s q).length = t.length + if s ∈ t.keys then 0 else 1 := by
  have h := congrArg List.length (QTable.keys_assign t s q)
  rw [QTable.keys, List.length_map] at h
  rw [h]
  by_cases hm : s ∈ t.keys
  · rw [if_pos hm, if_pos hm, QTable.keys, List.length_map, add_zero]
  · rw [if_neg hm, if_neg hm, List.length_append, QTable.keys, List.length_map,
      List.length_singleton]

/-- The size after the two writes of `update_q_value`: the entry of `s`, then the
zero entry of `s'` when it is still missing. -/
theorem QTable.length_assign_pair (t : QTable) (s s' : State) (q : QValues) :
    (if (t.assign s q).find s' = none then (t.assign s q).assign s' QValues.zero
      else t.assign s q).length =
      t.length + (if s ∈ t.keys then 0 else 1) + (if s' ∈ t.keys ∨ s' = s then 0 else 1) := by
  by_cases hn : (t.assign s q).find s' = none
  · rw [if_pos hn, QTable.length_assign, QTable.length_assign]
    have hn' := (QTable.find_eq_none_iff _ _).mp hn
    rw [if_neg hn']
    rw [QTable.mem_keys_assign] at hn'
    rw [if_neg hn']
  · rw [if_neg hn, QTable.length_assign]
    have hn' : s' ∈ QTable.keys (t.assign s q) :=
      not_not.mp (fun h => hn ((QTable.find_eq_none_iff _ _).mpr h))
    rw [QTable.mem_keys_assign] at hn'
    rw [if_pos hn', add_zero]

/-- The table after `update_q_value` on an empty table. -/
theorem update_q_value_empty {G : Type} (ag : QLearningAgent G) (s : State) (a : Action)
    (r : ℚ) (s' : State) (h : ag.q_table = []) :
    (update_q_value ag s a r s').q_table =
      if s' = s then [(s, QValues.zero.set a.toIndex (ag.alpha * r))]
      else [(s, QValues.zero.set a.toIndex (ag.alpha * r)), (s', QValues.zero)] := by
  simp only [update_q_value, get_q_value, h, QTable.find, QTable.subscript, QTable.assign,
    mul_zero, add_zero, sub_zero, zero_add]
  by_cases e : s' = s
  · have e' : s = s' := e.symm
    simp [e']
  · have e' : ¬ s = s' := fun x => e x.symm
    simp [e, e', QTable.assign]

/-! ## Bounded values -/

theorem QTable.mem_of_find (t : QTable) (s : State) (q : QValues) (h : t.find s = some q) :
    (s, q) ∈ t := by
  induction t with
  | nil => simp [QTable.find] at h
  | cons p rest ih =>
    obtain ⟨k, q0⟩ := p
    by_cases hk : k = s
    · simp only [QTable.find, hk, if_true, Option.some.injEq] at h
      simp [hk, h]
    · simp only [QTable.find, hk, if_false] at h
      exact List.mem_cons_of_mem _ (ih h)

theorem QTable.mem_assign (t : QTable) (s : State) (q : QValues) (e : State × QValues)
    (h : e ∈ t.assign s q) : e ∈ t ∨ e = (s, q) := by
  induction t with
  | nil =>
    simp only [QTable.assign, List.mem_singleton] at h
    exact Or.inr h
  | cons p rest ih =>
    obtain ⟨k, q0⟩ := p
    by_cases hk : k = s
    · simp only [QTable.assign, hk, if_true, List.mem_cons] at h
      rcases h with h | h
      · exact Or.inr h
      · exact Or.inl (List.mem_cons_of_mem _ h)
    · simp only [QTable.assign, hk, if_false, List.mem_cons] at h
      rcases h with h | h
      · exact Or.inl (by rw [h]; exact List.mem_cons_self _ _)
      · rcases ih h with h' | h'
        · exact Or.inl (List.mem_cons_of_mem _ h')
        · exact Or.inr h'

theorem QTable.bounded_assign (t : QTable) (s : State) (q : QValues) (L U : ℚ)
    (ht : t.bounded L U) (hq : ∀ i : Fin 3, L ≤ q.get i ∧ q.get i ≤ U) :
    QTable.bounded (t.assign s q) L U := by
  intro e he i
  rcases QTable.mem_assign t s q e he with h | h
  · exact ht e h i
  · rw [h]
    exact hq i

theorem QTable.bounded_subscript (t : QTable) (s : State) (L U : ℚ) (ht : t.bounded L U)
    (hL : L ≤ 0) (hU : 0 ≤ U) (i : Fin 3) :
    L ≤ (t.subscript s).get i ∧ (t.subscript s).get i ≤ U := by
  unfold QTable.subscript
  cases hf : t.find s with
  | none =>
    have : QValues.zero.get i = 0 := by fin_cases i <;> rfl
    simp only [this]
    exact ⟨hL, hU⟩
  | some q => exact ht _ (QTable.mem_of_find t s q hf) i

/-- One learning call keeps every stored value in `[L, U]` when the interval
contains 0 and is closed under `v ↦ r + gamma * v`. -/
theorem update_q_value_interval {G : Type} (ag : QLearningAgent G) (s : State) (a : Action)
    (r : ℚ) (s' : State) (L U : ℚ) (hL : L ≤ 0) (hU : 0 ≤ U)
    (hα0 : 0 ≤ ag.alpha) (hα1 : ag.alpha ≤ 1) (hγ : 0 ≤ ag.gamma)
    (hlo : L ≤ r + ag.gamma * L) (hhi : r + ag.gamma * U ≤ U)
    (ht : ag.q_table.bounded L U) : (update_q_value ag s a r s').q_table.bounded L U := by
  have hzero : ∀ i : Fin 3, L ≤ QValues.zero.get i ∧ QValues.zero.get i ≤ U := by
    intro i
    have : QValues.zero.get i = 0 := by fin_cases i <;> rfl
    rw [this]
    exact ⟨hL, hU⟩
  have hold : L ≤ get_q_value ag s a.toIndex ∧ get_q_value ag s a.toIndex ≤ U := by
    unfold get_q_value
    cases hf : ag.q_table.find s with
    | none => exact ⟨hL, hU⟩
    | some q => exact ht _ (QTable.mem_of_find _ s q hf) _
  have hmax : L ≤ (match ag.q_table.find s' with
                   | some q => q.get (max_element q)
                   | none => 0) ∧
      (match ag.q_table.find s' with
       | some q => q.get (max_element q)
       | none => 0) ≤ U := by
    cases hf : ag.q_table.find s' with
    | none => exact ⟨hL, hU⟩
    | some q => exact ht _ (QTable.mem_of_find _ s' q hf) _
  have hnew : ∀ old m : ℚ, L ≤ old → old ≤ U → L ≤ m → m ≤ U →
      L ≤ old + ag.alpha * (r + ag.gamma * m - old) ∧
      old + ag.alpha * (r + ag.gamma * m - old) ≤ U := by
    intro old m ho1 ho2 hm1 hm2
    have h1 : ag.gamma * L ≤ ag.gamma * m := mul_le_mul_of_nonneg_left hm1 hγ
    have h2 : ag.gamma * m ≤ ag.gamma * U := mul_le_mul_of_nonneg_left hm2 hγ
    have h3 : 0 ≤ 1 - ag.alpha := by linarith
    have e : old + ag.alpha * (r + ag.gamma * m - old) =
        (1 - ag.alpha) * old + ag.alpha * (r + ag.gamma * m) := by ring
    rw [e]
    constructor
    · have a1 : (1 - ag.alpha) * L ≤ (1 - ag.alpha) * old := mul_le_mul_of_nonneg_left ho1 h3
      have a2 : ag.alpha * L ≤ ag.alpha * (r + ag.gamma * m) :=
        mul_le_mul_of_nonneg_left (by linarith) hα0
      linarith
    · have a1 : (1 - ag.alpha) * old ≤ (1 - ag.alpha) * U := mul_le_mul_of_nonneg_left ho2 h3
      have a2 : ag.alpha * (r + ag.gamma * m) ≤ ag.alpha * U :=
        mul_le_mul_of_nonneg_left (by linarith) hα0
      linarith
  have h1 : QTable.bounded (ag.q_table.assign s ((ag.q_table.subscript s).set a.toIndex
      (get_q_value ag s a.toIndex + ag.alpha * (r + ag.gamma *
        (match ag.q_table.find s' with
         | some q => q.get (max_element q)
         | none => 0) - get_q_value ag s a.toIndex)))) L U := by
    apply QTable.bounded_assign _ _ _ _ _ ht
    intro i
    by_cases hi : i = a.toIndex
    · rw [hi, QValues.get_set_self]
      exact hnew _ _ hold.1 hold.2 hmax.1 hmax.2
    · rw [QValues.get_set_of_ne _ _ _ _ hi]
      exact QTable.bounded_subscript _ _ _ _ ht hL hU i
  show QTable.bounded (update_q_value ag s a r s').q_table L U
  unfold update_q_value
  simp only []
  split_ifs
  · exact QTable.bounded_assign _ _ _ _ _ h1 hzero
  · exact h1

/-- The score event of `Ball::update` from the horizontal position after the
move: -1 beyond the left wall, else 1 beyond the right wall, else 0. -/
theorem Ball.update_event (b : Ball) (dt : ℚ) (direction : ℚ × ℚ) :
    (Ball.update b dt direction).1 =
      if b.position.1 + b.velocity.1 * dt - b.radius < 0 then -1
      else if b.position.1 + b.velocity.1 * dt + b.radius > (b.windowBounds.1 : ℚ) then 1
      else 0 := by
  unfold Ball.update
  simp only [Ball.bounceY]
  by_cases h1 : b.position.2 + b.velocity.2 * dt - b.radius < 0
  · simp only [h1, if_true]
    split_ifs <;> rfl
  · simp only [h1, if_false]
    by_cases h2 : b.position.2 + b.velocity.2 * dt + b.radius > (b.windowBounds.2 : ℚ)
    · simp only [h2, if_true]
      split_ifs <;> rfl
    · simp only [h2, if_false]
      split_ifs <;> rfl

theorem calculateReward_sum (e : Int) (hit moved : Bool) :
    calculateReward e hit moved =
      (if hit then 10 else 0) + (if e = -1 then -20 else 0) + (if moved then -5 else 0) := by
  unfold calculateReward
  cases hit <;> cases moved <;> by_cases he : e = -1 <;> simp [he] <;> norm_num

theorem calculateReward_range (e : Int) (h m : Bool) :
    -25 ≤ calculateReward e h m ∧ calculateReward e h m ≤ 10 := by
  unfold calculateReward
  by_cases he : e = -1 <;> cases h <;> cases m <;> simp [he] <;> norm_num

theorem apply_calls_bounded {G : Type} (ag : QLearningAgent G) (calls : List AgentCall)
    (hp : profile_parameters ag) (ht : ag.q_table.bounded (-500) 200) :
    (apply_calls ag calls).q_table.bounded (-500) 200 := by
  induction calls generalizing ag with
  | nil => exact ht
  | cons c rest ih =>
    cases c with
    | difficulty level =>
      apply ih
      · cases level
        · exact Or.inl ⟨rfl, rfl⟩
        · exact Or.inr (Or.inl ⟨rfl, rfl⟩)
        · exact Or.inr (Or.inr ⟨rfl, rfl⟩)
      · rw [set_difficulty_q_table]
        exact ht
    | learn s a e h m s' =>
      apply ih
      · exact hp
      · have hr := calculateReward_range e h m
        rcases hp with ⟨h1, h2⟩ | ⟨h1, h2⟩ | ⟨h1, h2⟩ <;>
        · apply update_q_value_interval _ _ _ _ _ _ _ (by norm_num) (by norm_num) _ _ _ _ _ ht
          · rw [h1]; norm_num
          · rw [h1]; norm_num
          · rw [h2]; norm_num
          · rw [h2]; linarith [hr.1]
          · rw [h2]; linarith [hr.2]

theorem one_entry_agent_bounded :
    one_entry_agent.q_table.bounded (min 0 (-25) / (1 - one_entry_agent.gamma))
      (max 0 10 / (1 - one_entry_agent.gamma)) := by
  unfold QTable.bounded
  decide!

/-! ## Fields of a saved line -/

theorem isdigit_ne_space (c : Char) (h : isdigit c = true) : c ≠ ' ' := by
  rintro rfl
  revert h
  decide

theorem format_int_no_space (x : Int) : ' ' ∉ format_int x := by
  intro hc
  simp only [format_int] at hc
  split_ifs at hc
  · rcases List.mem_cons.mp hc with h | hc
    · revert h; decide
    · exact isdigit_ne_space _ (format_nat_isdigit _ _ hc) rfl
  · exact isdigit_ne_space _ (format_nat_isdigit _ _ hc) rfl

theorem format_fixed_no_space (m w : Nat) : ' ' ∉ format_fixed m w := by
  intro hc
  simp only [format_fixed, List.mem_append] at hc
  rcases hc with hc | hc
  · exact isdigit_ne_space _ (format_nat_isdigit _ _ hc) rfl
  · split_ifs at hc
    · simp at hc
    · rcases List.mem_cons.mp hc with h | hc
      · revert h; decide
      · exact isdigit_ne_space _ (fraction_digits_isdigit _ _ _ hc) rfl

theorem format_exponent_no_space (X : Int) : ' ' ∉ format_exponent X := by
  intro hc
  simp only [format_exponent] at hc
  rcases List.mem_cons.mp hc with h | hc
  · split_ifs at h <;> revert h <;> decide
  · split_ifs at hc
    · rcases List.mem_cons.mp hc with h | hc
      · revert h; decide
      · exact isdigit_ne_space _ (format_nat_isdigit _ _ hc) rfl
    · exact isdigit_ne_space _ (format_nat_isdigit _ _ hc) rfl

theorem format_double_no_space (x : ℚ) : ' ' ∉ format_double x := by
  have hbody : ' ' ∉ (if -4 ≤ (six_digits x.num.natAbs x.den).2 ∧
        (six_digits x.num.natAbs x.den).2 < (PRECISION : Int) then
          format_fixed (six_digits x.num.natAbs x.den).1
            ((PRECISION : Int) - 1 - (six_digits x.num.natAbs x.den).2).toNat
        else format_fixed (six_digits x.num.natAbs x.den).1 (PRECISION - 1) ++
          'e' :: format_exponent (six_digits x.num.natAbs x.den).2) := by
    intro hc
    split_ifs at hc
    · exact format_fixed_no_space _ _ hc
    · rcases List.mem_append.mp hc with hc | hc
      · exact format_fixed_no_space _ _ hc
      · rcases List.mem_cons.mp hc with h | hc
        · revert h; decide
        · exact format_exponent_no_space _ hc
  intro hc
  by_cases h0 : x = 0
  · simp only [format_double, h0, if_true, List.mem_singleton] at hc
    revert hc; decide
  · simp only [format_double, h0, if_false] at hc
    by_cases hneg : x < 0
    · rw [if_pos hneg] at hc
      rcases List.mem_cons.mp hc with h | hc
      · revert h; decide
      · exact hbody hc
    · rw [if_neg hneg] at hc
      exact hbody hc

theorem format_int_ne_nil (x : Int) : format_int x ≠ [] := by
  simp only [format_int]
  split_ifs
  · simp
  · exact format_nat_ne_nil _

theorem format_fixed_ne_nil (m w : Nat) : format_fixed m w ≠ [] := by
  simp only [format_fixed]
  intro h
  exact format_nat_ne_nil _ (List.append_eq_nil.mp h).1

theorem format_double_ne_nil (x : ℚ) : format_double x ≠ [] := by
  by_cases h0 : x = 0
  · simp [format_double, h0]
  · simp only [format_double, h0, if_false]
    have hbody : (if -4 ≤ (six_digits x.num.natAbs x.den).2 ∧
        (six_digits x.num.natAbs x.den).2 < (PRECISION : Int) then
          format_fixed (six_digits x.num.natAbs x.den).1
            ((PRECISION : Int) - 1 - (six_digits x.num.natAbs x.den).2).toNat
        else format_fixed (six_digits x.num.natAbs x.den).1 (PRECISION - 1) ++
          'e' :: format_exponent (six_digits x.num.natAbs x.den).2) ≠ [] := by
      split_ifs
      · exact format_fixed_ne_nil _ _
      · simp
    by_cases hneg : x < 0
    · rw [if_pos hneg]; simp
    · rw [if_neg hneg]; exact hbody

/-- Each of the nine fields of a saved line is a non-empty word without a space. -/
theorem fields_of_words (s : State) (q : QValues) :
    ∀ f ∈ fields_of s q, f ≠ [] ∧ ' ' ∉ f := by
  intro f hf
  simp only [fields_of, List.mem_cons, List.mem_singleton, List.not_mem_nil, or_false] at hf
  rcases hf with rfl | rfl | rfl | rfl | rfl | rfl | rfl | rfl | rfl
  all_goals first
    | exact ⟨format_int_ne_nil _, format_int_no_space _⟩
    | exact ⟨format_double_ne_nil _, format_double_no_space _⟩

theorem scoringStep_fst {G : Type} (g : Game G) (scoreEvent : Int) (direction : ℚ × ℚ) :
    (scoringStep g scoreEvent direction).1 = scoringBlock g scoreEvent direction := by
  unfold scoringStep scoringBlock
  simp only []
  split_ifs <;> rfl

theorem playerMovement_frame {G : Type} (g : Game G) (inp : FrameInput) :
    (playerMovement g inp).ball = g.ball ∧
    (playerMovement g inp).playerScore = g.playerScore ∧
    (playerMovement g inp).cpuScore = g.cpuScore ∧
    (playerMovement g inp).currentState = g.currentState ∧
    (playerMovement g inp).aiStateInitialized = g.aiStateInitialized ∧
    (playerMovement g inp).previousAiState = g.previousAiState ∧
    (playerMovement g inp).lastAiAction = g.lastAiAction := by
  unfold playerMovement
  simp only []
  split_ifs <;> exact ⟨rfl, rfl, rfl, rfl, rfl, rfl, rfl⟩

theorem updateAI_calls {G : Type} (R : RandomSource G) (g : Game G) (seconds : ℚ) :
    (updateAI R g seconds).2 =
      if g.aiStateInitialized = true then
        [(g.previousAiState, g.lastAiAction,
          calculateReward 0 false
            (decide (g.lastAiAction ≠ Action.STAY ∧ (getCurrentStateForAI g).ball_vx_category < 0)),
          getCurrentStateForAI g)]
      else [] := by
  unfold updateAI
  simp only []
  split_ifs <;> rfl

theorem scoringStep_frame {G : Type} (g : Game G) (e : Int) (d : ℚ × ℚ) :
    (scoringStep g e d).1.playerScore = (if e = -1 then g.playerScore - 1 else g.playerScore) ∧
    (scoringStep g e d).1.cpuScore = (if e = 1 then g.cpuScore - 1 else g.cpuScore) ∧
    (scoringStep g e d).1.currentState = g.currentState ∧
    (scoringStep g e d).1.previousAiState = g.previousAiState ∧
    (scoringStep g e d).1.lastAiAction = g.lastAiAction ∧
    (scoringStep g e d).1.aiStateInitialized =
      (if e = 1 ∨ e = -1 then false else g.aiStateInitialized) := by
  by_cases h1 : e = 1
  · subst h1
    cases hi : g.aiStateInitialized <;> simp [scoringStep, hi]
  · by_cases h2 : e = -1
    · subst h2
      cases hi : g.aiStateInitialized <;> simp [scoringStep, hi]
    · simp [scoringStep, h1, h2]

theorem scoringStep_calls {G : Type} (g : Game G) (e : Int) (d : ℚ × ℚ) :
    (scoringStep g e d).2 =
      if (e = 1 ∨ e = -1) ∧ g.aiStateInitialized = true then
        [(g.previousAiState, g.lastAiAction, calculateReward e false false,
          getCurrentStateForAI (scoringStep g e d).1)]
      else [] := by
  unfold scoringStep
  by_cases h1 : e = 1
  · subst h1
    by_cases hi : g.aiStateInitialized = true
    · simp [hi]
      rfl
    · simp [hi]
  · by_cases h2 : e = -1
    · subst h2
      by_cases hi : g.aiStateInitialized = true
      · simp [hi]
        rfl
      · simp [hi]
    · simp [h1, h2]

theorem learningStep_frame {G : Type} (g : Game G) (scored hit : Bool) :
    (learningStep g scored hit).1.playerScore = g.playerScore ∧
    (learningStep g scored hit).1.cpuScore = g.cpuScore ∧
    (learningStep g scored hit).1.currentState = g.currentState ∧
    (learningStep g scored hit).1.previousAiState = g.previousAiState ∧
    (learningStep g scored hit).1.lastAiAction = g.lastAiAction ∧
    (learningStep g scored hit).1.aiStateInitialized = g.aiStateInitialized ∧
    (learningStep g scored hit).1.ball = g.ball := by
  unfold learningStep
  simp only []
  split_ifs <;> exact ⟨rfl, rfl, rfl, rfl, rfl, rfl, rfl⟩

theorem updateAI_ball {G : Type} (R : RandomSource G) (g : Game G) (inp : FrameInput) :
    (updateAI R (playerMovement g inp) inp.seconds).1.ball = g.ball :=
  (playerMovement_frame g inp).1

/-- The scores and the state after one call of `updatePlaying`. -/
theorem updatePlaying_scores {G : Type} (R : RandomSource G) (g : Game G) (inp : FrameInput) :
    (updatePlaying R g inp).1.playerScore =
      (if frameScoreEvent g inp = -1 then g.playerScore - 1 else g.playerScore) ∧
    (updatePlaying R g inp).1.cpuScore =
      (if frameScoreEvent g inp = 1 then g.cpuScore - 1 else g.cpuScore) ∧
    (updatePlaying R g inp).1.currentState =
      (if (frameScoreEvent g inp = 1 ∨ frameScoreEvent g inp = -1) ∧
          ((if frameScoreEvent g inp = -1 then g.playerScore - 1 else g.playerScore) ≤ 0 ∨
           (if frameScoreEvent g inp = 1 then g.cpuScore - 1 else g.cpuScore) ≤ 0)
       then GameState.GameOver else g.currentState) := by
  have hball := updateAI_ball R g inp
  obtain ⟨-, hp, hc, hs, -, -, -⟩ := playerMovement_frame g inp
  unfold updatePlaying frameScoreEvent
  simp only []
  rw [hball]
  generalize hg2 : ({ (updateAI R (playerMovement g inp) inp.seconds).1 with
    ball := (g.ball.update inp.seconds inp.updateDirection).2 } : Game G) = g2
  have hp2 : g2.playerScore = g.playerScore := by rw [← hg2]; exact hp
  have hc2 : g2.cpuScore = g.cpuScore := by rw [← hg2]; exact hc
  have hs2 : g2.currentState = g.currentState := by rw [← hg2]; exact hs
  generalize (g.ball.update inp.seconds inp.updateDirection).1 = e
  obtain ⟨sp, scc, ss, -, -, -⟩ := scoringStep_frame g2 e inp.resetDirection
  rw [hp2] at sp
  rw [hc2] at scc
  rw [hs2] at ss
  generalize scoringStep g2 e inp.resetDirection = sc at sp scc ss ⊢
  simp only [scoreToWin, Bool.or_eq_true, decide_eq_true_eq]
  by_cases hgo : (e = 1 ∨ e = -1) ∧ (sc.1.playerScore ≤ 0 ∨ sc.1.cpuScore ≤ 0)
  · have hgo' := hgo
    rw [sp, scc] at hgo'
    rw [if_pos hgo, if_pos hgo']
    exact ⟨sp, scc, rfl⟩
  · have hgo' := hgo
    rw [sp, scc] at hgo'
    rw [if_neg hgo, if_neg hgo']
    obtain ⟨l1, l2, l3, -, -, -, -⟩ :=
      learningStep_frame (paddleCollision sc.1 inp.ballHitsPlayer inp.ballHitsCpu).1
        (decide (e = 1) || decide (e = -1))
        (paddleCollision sc.1 inp.ballHitsPlayer inp.ballHitsCpu).2
    exact ⟨l1.trans sp, l2.trans scc, l3.trans ss⟩

theorem resetGame_scores_ok {G : Type} (g : Game G) (d : ℚ × ℚ) (s : GameState) :
    Game.scores_ok { resetGame g d with currentState := s } := by
  simp [Game.scores_ok, resetGame, startingScore]

theorem scores_ok_menu {G : Type} (g : Game G) (h : g.scores_ok) (s : GameState)
    (hs : s ≠ GameState.Playing) (hs' : s ≠ GameState.Paused) :
    Game.scores_ok { g with currentState := s } := by
  obtain ⟨h1, h2, -⟩ := h
  refine ⟨h1, h2, ?_⟩
  rintro (h | h)
  · exact absurd h hs
  · exact absurd h hs'

theorem handleMenuInput_scores_ok {G : Type} (g : Game G) (key : Key) (idx : Int)
    (d : ℚ × ℚ) (h : g.scores_ok) : (handleMenuInput g key idx d).scores_ok := by
  unfold handleMenuInput
  by_cases hp : g.currentState = GameState.Playing
  · rw [if_pos hp]
    exact h
  rw [if_neg hp]
  by_cases h1 : key = Key.Up ∨ key = Key.W
  · rw [if_pos h1]
    exact h
  rw [if_neg h1]
  by_cases h2 : key = Key.Down ∨ key = Key.S
  · rw [if_pos h2]
    exact h
  rw [if_neg h2]
  by_cases h3 : key = Key.Return
  · rw [if_pos h3]
    cases hs : g.currentState with
    | MainMenu =>
      simp only []
      split_ifs
      · exact resetGame_scores_ok g d _
      · exact scores_ok_menu g h _ (by decide) (by decide)
      · exact h
    | OptionsMenu =>
      simp only []
      split_ifs
      all_goals first
        | exact h
        | exact scores_ok_menu g h _ (by decide) (by decide)
    | Playing => exact absurd hs hp
    | Paused =>
      simp only []
      split_ifs
      · obtain ⟨a, b, c⟩ := h
        exact ⟨a, b, fun _ => c (Or.inr hs)⟩
      · exact scores_ok_menu g h _ (by decide) (by decide)
      · exact h
    | GameOver =>
      simp only []
      split_ifs
      · exact resetGame_scores_ok g d _
      · exact scores_ok_menu g h _ (by decide) (by decide)
      · exact h
  rw [if_neg h3]
  split_ifs
  · exact scores_ok_menu g h _ (by decide) (by decide)
  · exact h
  · exact h

theorem processKeyPressed_scores_ok {G : Type} (g : Game G) (key : Key) (idx : Int)
    (d : ℚ × ℚ) (h : g.scores_ok) : (processKeyPressed g key idx d).scores_ok := by
  unfold processKeyPressed
  split_ifs with hp hk
  · obtain ⟨a, b, c⟩ := h
    exact ⟨a, b, fun _ => c (Or.inl hp)⟩
  · exact h
  · exact handleMenuInput_scores_ok g key idx d h

theorem updatePlaying_scores_ok {G : Type} (R : RandomSource G) (g : Game G) (inp : FrameInput)
    (h : g.scores_ok) (hp : g.currentState = GameState.Playing) :
    (updatePlaying R g inp).1.scores_ok := by
  obtain ⟨e1, e2, e3⟩ := updatePlaying_scores R g inp
  obtain ⟨⟨a1, a2⟩, ⟨b1, b2⟩, c⟩ := h
  obtain ⟨c1, c2⟩ := c (Or.inl hp)
  generalize frameScoreEvent g inp = e at e1 e2 e3
  unfold Game.scores_ok
  rw [e1, e2, e3]
  by_cases h1 : e = 1
  · subst h1
    have hn : ¬ ((1 : Int) = -1) := by decide
    rw [if_neg hn, if_pos rfl]
    refine ⟨⟨a1, a2⟩, ⟨by omega, by omega⟩, ?_⟩
    by_cases hz : g.cpuScore - 1 ≤ 0
    · rw [if_pos ⟨Or.inl rfl, Or.inr hz⟩]
      rintro (h | h) <;> exact absurd h (by decide)
    · rw [if_neg (fun x => by rcases x.2 with h | h <;> omega)]
      intro _
      exact ⟨c1, by omega⟩
  · by_cases h2 : e = -1
    · subst h2
      rw [if_pos rfl, if_neg h1]
      refine ⟨⟨by omega, by omega⟩, ⟨b1, b2⟩, ?_⟩
      by_cases hz : g.playerScore - 1 ≤ 0
      · rw [if_pos ⟨Or.inr rfl, Or.inl hz⟩]
        rintro (h | h) <;> exact absurd h (by decide)
      · rw [if_neg (fun x => by rcases x.2 with h | h <;> omega)]
        intro _
        exact ⟨by omega, c2⟩
    · rw [if_neg h2, if_neg h1, if_neg (fun x => x.1.elim h1 h2)]
      exact ⟨⟨a1, a2⟩, ⟨b1, b2⟩, fun _ => ⟨c1, c2⟩⟩

theorem game_step_scores_ok {G : Type} (R : RandomSource G) (g : Game G) (i : GameInput)
    (h : g.scores_ok) : (game_step R g i).1.scores_ok := by
  cases i with
  | keyPressed key idx d => exact processKeyPressed_scores_ok g key idx d h
  | frame inp =>
    show (update R g inp).1.scores_ok
    unfold update
    cases hs : g.currentState with
    | Playing => exact updatePlaying_scores_ok R g inp h hs
    | MainMenu => exact h
    | OptionsMenu => exact h
    | Paused => exact h
    | GameOver => exact h

theorem run_inputs_scores_ok {G : Type} (R : RandomSource G) (g : Game G)
    (inputs : List GameInput) (h : g.scores_ok) : (run_inputs R g inputs).1.scores_ok := by
  induction inputs generalizing g with
  | nil => exact h
  | cons i rest ih => exact ih _ (game_step_scores_ok R g i h)

theorem Game.new_scores_ok {G : Type} (seed : G) (d : ℚ × ℚ) (infile : Option (List Char)) :
    (Game.new seed d infile).scores_ok := by
  simp [Game.scores_ok, Game.new, startingScore]


theorem scoringStep_no_score {G : Type} (g : Game G) (e : Int) (d : ℚ × ℚ) (h1 : e ≠ 1)
    (h2 : e ≠ -1) : scoringStep g e d = (g, []) := by
  simp [scoringStep, h1, h2]

theorem scoringStep_score {G : Type} (g : Game G) (e : Int) (d : ℚ × ℚ) (h : e = 1 ∨ e = -1)
    (hi : g.aiStateInitialized = true) :
    (scoringStep g e d).2 =
      [(g.previousAiState, g.lastAiAction, calculateReward e false false,
        getCurrentStateForAI (scoringStep g e d).1)] := by
  rw [scoringStep_calls, if_pos ⟨h, hi⟩]

theorem learningStep_scored {G : Type} (g : Game G) (hit : Bool) :
    learningStep g true hit = (g, []) := by
  simp [learningStep]

/-- The calls of a frame in which the ball passes no side wall: the call of
`updateAI`, then the call of the learning block on the pair `updateAI` has just
recorded. -/
theorem updatePlaying_calls_no_score {G : Type} (R : RandomSource G) (g : Game G)
    (inp : FrameInput) (h1 : frameScoreEvent g inp ≠ 1) (h2 : frameScoreEvent g inp ≠ -1) :
    updatePlaying R g inp =
      ({ (collided R g inp).1 with
          aiAgent := update_q_value (collided R g inp).1.aiAgent
            (updateAI R (playerMovement g inp) inp.seconds).1.previousAiState
            (updateAI R (playerMovement g inp) inp.seconds).1.lastAiAction
            (calculateReward 0 (collided R g inp).2
              (decide ((updateAI R (playerMovement g inp) inp.seconds).1.lastAiAction ≠ Action.STAY ∧
                (collided R g inp).1.ball.velocity.1 < 0)))
            (getCurrentStateForAI (collided R g inp).1) },
       (updateAI R (playerMovement g inp) inp.seconds).2 ++
        [((updateAI R (playerMovement g inp) inp.seconds).1.previousAiState,
          (updateAI R (playerMovement g inp) inp.seconds).1.lastAiAction,
          calculateReward 0 (collided R g inp).2
            (decide ((updateAI R (playerMovement g inp) inp.seconds).1.lastAiAction ≠ Action.STAY ∧
              (collided R g inp).1.ball.velocity.1 < 0)),
          getCurrentStateForAI (collided R g inp).1)]) := by
  have hball := updateAI_ball R g inp
  unfold frameScoreEvent at h1 h2
  unfold updatePlaying collided
  simp only []
  rw [hball, scoringStep_no_score _ _ _ h1 h2]
  have hsc : (decide ((g.ball.update inp.seconds inp.updateDirection).1 = 1) ||
      decide ((g.ball.update inp.seconds inp.updateDirection).1 = -1)) = false := by
    simp [h1, h2]
  rw [hsc]
  simp only [Bool.false_eq_true, false_and, if_false, List.append_nil]
  unfold learningStep
  rw [if_pos ⟨rfl, rfl⟩]
  rfl

/-- The calls of a frame in which the ball passes a side wall: the call of
`updateAI`, then the call of the scoring block on the pair `updateAI` has just
recorded, with the reward of the score event alone. -/
theorem updatePlaying_calls_score {G : Type} (R : RandomSource G) (g : Game G)
    (inp : FrameInput) (h : frameScoreEvent g inp = 1 ∨ frameScoreEvent g inp = -1) :
    ∃ next : State, (updatePlaying R g inp).2 =
      (updateAI R (playerMovement g inp) inp.seconds).2 ++
        [((updateAI R (playerMovement g inp) inp.seconds).1.previousAiState,
          (updateAI R (playerMovement g inp) inp.seconds).1.lastAiAction,
          calculateReward (frameScoreEvent g inp) false false, next)] := by
  have hball := updateAI_ball R g inp
  unfold frameScoreEvent at h ⊢
  unfold updatePlaying
  simp only []
  rw [hball]
  have hsc : (decide ((g.ball.update inp.seconds inp.updateDirection).1 = 1) ||
      decide ((g.ball.update inp.seconds inp.updateDirection).1 = -1)) = true := by
    simpa using h
  rw [hsc, learningStep_scored]
  generalize hg2 : ({ (updateAI R (playerMovement g inp) inp.seconds).1 with
    ball := (g.ball.update inp.seconds inp.updateDirection).2 } : Game G) = g2
  have hi : g2.aiStateInitialized = true := by rw [← hg2]; rfl
  have hps : g2.previousAiState = (updateAI R (playerMovement g inp) inp.seconds).1.previousAiState := by
    rw [← hg2]
  have hla : g2.lastAiAction = (updateAI R (playerMovement g inp) inp.seconds).1.lastAiAction := by
    rw [← hg2]
  rw [scoringStep_score g2 _ _ h hi, hps, hla]
  refine ⟨getCurrentStateForAI
    (scoringStep g2 (g.ball.update inp.seconds inp.updateDirection).1 inp.resetDirection).1, ?_⟩
  split_ifs
  · rfl
  · simp only [List.append_nil]

/-- The pending pair after a frame: the pair `updateAI` recorded, still pending
exactly when the ball passed no side wall. -/
theorem updatePlaying_pending {G : Type} (R : RandomSource G) (g : Game G) (inp : FrameInput) :
    (updatePlaying R g inp).1.previousAiState = (recordedPair R g inp).1 ∧
    (updatePlaying R g inp).1.lastAiAction = (recordedPair R g inp).2 ∧
    (updatePlaying R g inp).1.aiStateInitialized =
      (if frameScoreEvent g inp = 1 ∨ frameScoreEvent g inp = -1 then false else true) := by
  have hball := updateAI_ball R g inp
  unfold updatePlaying frameScoreEvent recordedPair
  simp only []
  rw [hball]
  generalize hg2 : ({ (updateAI R (playerMovement g inp) inp.seconds).1 with
    ball := (g.ball.update inp.seconds inp.updateDirection).2 } : Game G) = g2
  have hi : g2.aiStateInitialized = true := by rw [← hg2]; rfl
  have hps : g2.previousAiState = (updateAI R (playerMovement g inp) inp.seconds).1.previousAiState := by
    rw [← hg2]
  have hla : g2.lastAiAction = (updateAI R (playerMovement g inp) inp.seconds).1.lastAiAction := by
    rw [← hg2]
  generalize (g.ball.update inp.seconds inp.updateDirection).1 = e
  obtain ⟨-, -, -, sps, sla, sai⟩ := scoringStep_frame g2 e inp.resetDirection
  rw [hps] at sps
  rw [hla] at sla
  rw [hi] at sai
  generalize scoringStep g2 e inp.resetDirection = sc at sps sla sai ⊢
  by_cases hgo : (decide (e = 1) || decide (e = -1)) = true ∧
      (sc.1.playerScore ≤ scoreToWin ∨ sc.1.cpuScore ≤ scoreToWin)
  · rw [if_pos hgo]
    exact ⟨sps, sla, sai⟩
  · rw [if_neg hgo]
    obtain ⟨-, -, -, l1, l2, l3, -⟩ :=
      learningStep_frame (paddleCollision sc.1 inp.ballHitsPlayer inp.ballHitsCpu).1
        (decide (e = 1) || decide (e = -1))
        (paddleCollision sc.1 inp.ballHitsPlayer inp.ballHitsCpu).2
    exact ⟨l1.trans sps, l2.trans sla, l3.trans sai⟩

theorem updateAI_call_pairs {G : Type} (R : RandomSource G) (g : Game G) (inp : FrameInput) :
    call_pairs (updateAI R (playerMovement g inp) inp.seconds).2 =
      if g.aiStateInitialized = true then [(g.previousAiState, g.lastAiAction)] else [] := by
  obtain ⟨-, -, -, -, hi, hps, hla⟩ := playerMovement_frame g inp
  rw [updateAI_calls, hi, hps, hla]
  split_ifs <;> rfl

/-- The pairs a frame of play passes to `update_q_value`: the pair pending before
the frame, if any, then the pair recorded in the frame. -/
theorem updatePlaying_call_pairs {G : Type} (R : RandomSource G) (g : Game G)
    (inp : FrameInput) :
    call_pairs (updatePlaying R g inp).2 =
      (if g.aiStateInitialized = true then [(g.previousAiState, g.lastAiAction)] else []) ++
        [recordedPair R g inp] := by
  rw [← updateAI_call_pairs R g inp]
  by_cases h : frameScoreEvent g inp = 1 ∨ frameScoreEvent g inp = -1
  · obtain ⟨next, hn⟩ := updatePlaying_calls_score R g inp h
    rw [hn]
    simp only [call_pairs, List.map_append, List.map_cons, List.map_nil, recordedPair]
  · have h1 : frameScoreEvent g inp ≠ 1 := fun e => h (Or.inl e)
    have h2 : frameScoreEvent g inp ≠ -1 := fun e => h (Or.inr e)
    rw [updatePlaying_calls_no_score R g inp h1 h2]
    simp only [call_pairs, List.map_append, List.map_cons, List.map_nil, recordedPair]

/-- A frame of play makes at least one learning call. -/
theorem updatePlaying_calls_ne_nil {G : Type} (R : RandomSource G) (g : Game G)
    (inp : FrameInput) : (updatePlaying R g inp).2 ≠ [] := by
  intro h
  have h2 := updatePlaying_call_pairs R g inp
  rw [h] at h2
  simp [call_pairs] at h2

/-- A key event leaves the recorded pair as it is, and clears the flag exactly
when it restarts the game ("Start Game" in the main menu, "Restart" after game
over). -/
theorem processKeyPressed_pending {G : Type} (g : Game G) (key : Key) (idx : Int)
    (d : ℚ × ℚ) :
    (processKeyPressed g key idx d).previousAiState = g.previousAiState ∧
    (processKeyPressed g key idx d).lastAiAction = g.lastAiAction ∧
    (processKeyPressed g key idx d).aiStateInitialized =
      (if (g.currentState = GameState.MainMenu ∨ g.currentState = GameState.GameOver) ∧
          key = Key.Return ∧ idx = 0 then false else g.aiStateInitialized) := by
  unfold processKeyPressed handleMenuInput
  cases hs : g.currentState <;> cases key <;> simp [resetGame] <;> split_ifs <;> simp_all

/-- Outside play `Game::update` does nothing. -/
theorem update_of_not_playing {G : Type} (R : RandomSource G) (g : Game G) (inp : FrameInput)
    (h : g.currentState ≠ GameState.Playing) : update R g inp = (g, []) := by
  unfold update
  cases hs : g.currentState <;> simp_all

/-- During play `Game::update` is `updatePlaying`. -/
theorem update_of_playing {G : Type} (R : RandomSource G) (g : Game G) (inp : FrameInput)
    (h : g.currentState = GameState.Playing) : update R g inp = updatePlaying R g inp := by
  unfold update
  rw [h]

/-- Inputs during which no learning call is made (key events, frames outside
play) leave the recorded pair as it is and never set the flag. -/
theorem run_inputs_no_calls {G : Type} (R : RandomSource G) (mid : List GameInput) :
    ∀ g : Game G, (run_inputs R g mid).2 = [] →
      (run_inputs R g mid).1.previousAiState = g.previousAiState ∧
      (run_inputs R g mid).1.lastAiAction = g.lastAiAction ∧
      ((run_inputs R g mid).1.aiStateInitialized = true → g.aiStateInitialized = true) := by
  induction mid with
  | nil =>
    intro g _
    exact ⟨rfl, rfl, fun h => h⟩
  | cons i rest ih =>
    intro g h
    simp only [run_inputs] at h ⊢
    obtain ⟨h1, h2⟩ := List.append_eq_nil.mp h
    obtain ⟨a, b, c⟩ := ih _ h2
    cases i with
    | keyPressed key idx d =>
      obtain ⟨p1, p2, p3⟩ := processKeyPressed_pending g key idx d
      simp only [game_step] at a b c ⊢
      refine ⟨a.trans p1, b.trans p2, fun hf => ?_⟩
      have hc := c hf
      rw [p3] at hc
      by_cases hr : (g.currentState = GameState.MainMenu ∨ g.currentState = GameState.GameOver) ∧
          key = Key.Return ∧ idx = 0
      · rw [if_pos hr] at hc
        exact absurd hc (by decide)
      · rw [if_neg hr] at hc
        exact hc
    | frame inp =>
      simp only [game_step] at a b c h1 ⊢
      by_cases hp : g.currentState = GameState.Playing
      · rw [update_of_playing R g inp hp] at h1
        exact absurd h1 (updatePlaying_calls_ne_nil R g inp)
      · rw [update_of_not_playing R g inp hp] at a b c ⊢
        exact ⟨a, b, c⟩

/-- A CPU hit leaves the ball moving away from the CPU side. -/
theorem paddleCollision_velocity {G : Type} (g : Game G) (hp hc : Bool)
    (h : (paddleCollision g hp hc).2 = true) : (paddleCollision g hp hc).1.ball.velocity.1 < 0 := by
  unfold paddleCollision at h ⊢
  simp only [] at h ⊢
  generalize (if hp = true ∧ g.ball.velocity.1 < 0 then
      (g.ball.bounceX.increaseSpeed DEFAULT_FACTOR).setPosition
        (g.playerPaddle.position.1 + g.playerPaddle.size.1 + g.ball.radius + 1) g.ball.position.2
    else g.ball) = ball1 at h ⊢
  rw [if_pos h]
  simp only [decide_eq_true_eq] at h
  have hv : ball1.velocity.1 > 0 := h.2
  show -ball1.velocity.1 * DEFAULT_FACTOR < 0
  have hf : (0 : ℚ) < DEFAULT_FACTOR := by
    unfold DEFAULT_FACTOR
    norm_num
  nlinarith

theorem collided_velocity {G : Type} (R : RandomSource G) (g : Game G) (inp : FrameInput)
    (h : (collided R g inp).2 = true) : (collided R g inp).1.ball.velocity.1 < 0 :=
  paddleCollision_velocity _ _ _ h

/-! ## Claims -/

/-- C1: after `update_q_value(s, a, r, s')` the value stored for `(s, a)` is
`old + alpha * (r + gamma * best - old)`, with `old` the value of `(s, a)` before
the call (0 for an unseen `s`) and `best` the maximum of the three values stored
for `s'` before the call (0 for an unseen `s'`); `s' = s` is included. -/
theorem update_q_value_formula {G : Type} (ag : QLearningAgent G) (s s' : State) (a : Action)
    (r : ℚ) :
    get_q_value (update_q_value ag s a r s') s a.toIndex =
      (match ag.q_table.find s with
       | some q => q.get a.toIndex
       | none => 0) +
      ag.alpha * (r + ag.gamma * (match ag.q_table.find s' with
                                  | some q => max (max q.v0 q.v1) q.v2
                                  | none => 0) -
                  (match ag.q_table.find s with
                   | some q => q.get a.toIndex
                   | none => 0)) := by
  have hq := find_old_state_update_q_value ag s a r s'
  have hget : get_q_value (update_q_value ag s a r s') s a.toIndex =
      get_q_value ag s a.toIndex + ag.alpha *
          (r + ag.gamma * (match ag.q_table.find s' with
                           | some q => q.get (max_element q)
                           | none => 0) - get_q_value ag s a.toIndex) := by
    rw [get_q_value, hq]
    exact QValues.get_set_self _ _ _
  rw [hget]
  have hold : get_q_value ag s a.toIndex =
      (match ag.q_table.find s with
       | some q => q.get a.toIndex
       | none => 0) := rfl
  rw [hold]
  cases hs' : ag.q_table.find s' with
  | none => rfl
  | some q' => simp only [get_max_element]

/-- C2 (amended): starting from a table in which `s` is unseen, with
`0 < alpha < 1` and `0 <= gamma < 1`, the values stored for `(s, a)` by repeated
calls `update_q_value(s, a, R, s)` are non-decreasing and converge to
`R / (1 - gamma)` when `R >= 0`; when `R < 0` they are non-increasing and
converge to `R`, because the two other slots of `s` stay 0 and so the best
future value stays 0. -/
theorem repeated_update_converges {G : Type} (ag : QLearningAgent G) (s : State) (a : Action)
    (R : ℚ) (hs : ag.q_table.find s = none) (hα0 : 0 < ag.alpha) (hα1 : ag.alpha < 1)
    (hγ0 : 0 ≤ ag.gamma) (hγ1 : ag.gamma < 1) :
    (if 0 ≤ R then Monotone (repeated_value ag s a R) else Antitone (repeated_value ag s a R)) ∧
    Filter.Tendsto (fun n : Nat => ((repeated_value ag s a R n : ℚ) : ℝ)) Filter.atTop
      (nhds (((if 0 ≤ R then R / (1 - ag.gamma) else R : ℚ)) : ℝ)) := by
  have hg : 0 < 1 - ag.gamma := by linarith
  by_cases hR : 0 ≤ R
  · have hc0 : 0 ≤ 1 - ag.alpha * (1 - ag.gamma) := by nlinarith
    have hc1 : 1 - ag.alpha * (1 - ag.gamma) < 1 := by nlinarith
    have hcf := repeated_value_of_nonneg ag s a R hs hα0.le hα1.le hγ0 hγ1 hR
    simp only [hR, if_true]
    constructor
    · refine monotone_nat_of_le_succ (fun n => ?_)
      rw [hcf n, hcf (n + 1)]
      have hp : (1 - ag.alpha * (1 - ag.gamma)) ^ (n + 1) ≤ (1 - ag.alpha * (1 - ag.gamma)) ^ n :=
        pow_le_pow_of_le_one hc0 hc1.le (Nat.le_succ n)
      exact mul_le_mul_of_nonneg_left (by linarith) (div_nonneg hR hg.le)
    · refine (tendsto_geometric_defect (R / (1 - ag.gamma)) _ hc0 hc1).congr ?_
      intro n
      rw [hcf n]
  · have hR' : R ≤ 0 := (not_le.mp hR).le
    have hc0 : 0 ≤ 1 - ag.alpha := by linarith
    have hc1 : 1 - ag.alpha ≤ 1 := by linarith
    have hcf := repeated_value_of_nonpos ag s a R hs hα0.le hα1.le hR'
    simp only [hR, if_false]
    constructor
    · refine antitone_nat_of_succ_le (fun n => ?_)
      rw [hcf n, hcf (n + 1)]
      have hp : (1 - ag.alpha) ^ (n + 1) ≤ (1 - ag.alpha) ^ n :=
        pow_le_pow_of_le_one hc0 hc1 (Nat.le_succ n)
      exact mul_le_mul_of_nonpos_left (by linarith) hR'
    · exact repeated_value_tendsto_of_nonpos ag s a R hs hα0 hα1.le hR'

/-- C2, witness: the EASY agent on an empty table with reward 10: the values
rise to `10 / (1 - 0.9) = 100`. -/
theorem repeated_update_converges_witness :
    Monotone (repeated_value (QLearningAgent.new ()) {} Action.STAY 10) ∧
    Filter.Tendsto
      (fun n : Nat => ((repeated_value (QLearningAgent.new ()) {} Action.STAY 10 n : ℚ) : ℝ))
      Filter.atTop (nhds (100 : ℝ)) := by
  have h := repeated_update_converges (QLearningAgent.new ()) {} Action.STAY 10 rfl
    (by norm_num [QLearningAgent.new, set_difficulty])
    (by norm_num [QLearningAgent.new, set_difficulty])
    (by norm_num [QLearningAgent.new, set_difficulty])
    (by norm_num [QLearningAgent.new, set_difficulty])
  norm_num [QLearningAgent.new, set_difficulty] at h
  exact h

/-- C2, counterexample: the EASY agent (`alpha = 0.1`, `gamma = 0.9`) on an empty
table with the reward `-5`: the values do not converge to `-5 / (1 - 0.9) = -50`
(they converge to `-5`). -/
theorem repeated_update_negative_reward :
    ¬ Filter.Tendsto
      (fun n : Nat => ((repeated_value (QLearningAgent.new ()) {} Action.STAY (-5) n : ℚ) : ℝ))
      Filter.atTop
      (nhds ((((-5 : ℚ) / (1 - (QLearningAgent.new ()).gamma) : ℚ)) : ℝ)) := by
  intro h
  have h2 := repeated_value_tendsto_of_nonpos (QLearningAgent.new ()) {} Action.STAY (-5) rfl
    (by norm_num [QLearningAgent.new, set_difficulty])
    (by norm_num [QLearningAgent.new, set_difficulty]) (by norm_num)
  have h3 := tendsto_nhds_unique h h2
  norm_num [QLearningAgent.new, set_difficulty] at h3

/-- C3 (amended): for every table built from the empty table by a finite
sequence of `update_q_value` calls on states made of `int` values, with stored
values that are finite `double` values, saving it and loading the written text
(into any agent) succeeds with no parse error and one line read per state, and
yields for every state of the original table an entry whose three values are the original values rounded to six significant decimal
digits (`round6`, the default precision of the stream), which differ from the
originals by at most five millionths of their magnitude; states that were not in
the table stay absent. -/
theorem save_load_round_trip {G : Type} (ag prior : QLearningAgent G) (updates : List Transition)
    (h0 : ag.q_table = [])
    (hr : ∀ u ∈ updates, u.1.in_int_range ∧ u.2.2.2.in_int_range)
    (hv : (apply_updates ag updates).q_table.values_in_double_range) :
    (load_q_table prior (save_q_table (apply_updates ag updates) true).2).ok = true ∧
    (load_q_table prior (save_q_table (apply_updates ag updates) true).2).errors = 0 ∧
    (load_q_table prior (save_q_table (apply_updates ag updates) true).2).lines_read =
      get_explored_state_count (apply_updates ag updates) ∧
    (∀ s, (load_q_table prior (save_q_table (apply_updates ag updates) true).2).agent.q_table.find s
      = ((apply_updates ag updates).q_table.find s).map QValues.as_saved) ∧
    ∀ v : ℚ, |round6 v - v| ≤ |v| / 200000 := by
  have hwf : (apply_updates ag updates).q_table.well_formed :=
    apply_updates_well_formed ag updates (by rw [h0]; exact ⟨List.nodup_nil, by simp [QTable.keys]⟩) hr
  rw [load_saved_table _ prior hwf (QTable.values_fit_double_of_range _ hv)]
  refine ⟨rfl, rfl, rfl, ?_, round6_close⟩
  intro s
  exact QTable.find_map_values _ _ s

/-- C3, witness: after the four sample updates the value `3.940399` of
`((2,5,-1,1,3,3), STAY)` is read back as `round6 3.940399`, the two zeros as
zeros. -/
theorem save_load_round_trip_witness :
    (load_q_table one_entry_agent
      (save_q_table (apply_updates (QLearningAgent.new ()) sample_updates) true).2).agent.q_table.find
        ⟨2, 5, -1, 1, 3, 3⟩ =
      ((apply_updates (QLearningAgent.new ()) sample_updates).q_table.find
        ⟨2, 5, -1, 1, 3, 3⟩).map QValues.as_saved :=
  (save_load_round_trip (QLearningAgent.new ()) one_entry_agent sample_updates rfl
    (by decide) (by decide!)).2.2.2.1 ⟨2, 5, -1, 1, 3, 3⟩

/-- C3, counterexample: the EASY agent after four calls
`update_q_value((2,5,-1,1,3,3), STAY, 10, (2,5,-1,1,3,3))` stores `3.940399`;
`save_q_table` writes `3.9404`, and after `load_q_table` the stored value is
`3.9404`. -/
theorem save_load_truncates :
    get_q_value (apply_updates (QLearningAgent.new ()) sample_updates) ⟨2, 5, -1, 1, 3, 3⟩ 0 =
      3940399 / 1000000 ∧
    save_text (apply_updates (QLearningAgent.new ()) sample_updates).q_table =
      "2 5 -1 1 3 3 3.9404 0 0".toList ++ [newline] ∧
    get_q_value
      (load_q_table (QLearningAgent.new ())
        (save_q_table (apply_updates (QLearningAgent.new ()) sample_updates) true).2).agent
      ⟨2, 5, -1, 1, 3, 3⟩ 0 = 39404 / 10000 ∧
    get_q_value
      (load_q_table (QLearningAgent.new ())
        (save_q_table (apply_updates (QLearningAgent.new ()) sample_updates) true).2).agent
      ⟨2, 5, -1, 1, 3, 3⟩ 0 ≠
    get_q_value (apply_updates (QLearningAgent.new ()) sample_updates) ⟨2, 5, -1, 1, 3, 3⟩ 0 := by
  decide!

/-- C5: the code at the two score events. A ball passing the right wall (the
CPU paddle's side) gives score event 1, for which `calculateReward(1, false,
false)` is 0 and the scoring block leaves the value of the pending pair at 0; a
ball passing the left wall gives score event -1, for which the reward is -20 and
the value of the pending pair becomes `0.1 * -20 = -2`. -/
theorem conceded_point_reward :
    (Ball.update (sampleGame (790, 300) (300, 0)).ball (1 / 60) (7 / 10, 7 / 10)).1 = 1 ∧
    calculateReward 1 false false = 0 ∧
    get_q_value (scoringBlock (sampleGame (790, 300) (300, 0)) 1 (7 / 10, 7 / 10)).aiAgent
      ⟨9, 5, 1, 1, 4, 4⟩ Action.UP.toIndex = 0 ∧
    (Ball.update (sampleGame (10, 300) (-300, 0)).ball (1 / 60) (7 / 10, 7 / 10)).1 = -1 ∧
    calculateReward (-1) false false = -20 ∧
    get_q_value (scoringBlock (sampleGame (10, 300) (-300, 0)) (-1) (7 / 10, 7 / 10)).aiAgent
      ⟨9, 5, 1, 1, 4, 4⟩ Action.UP.toIndex = -2 := by
  decide!

/-- C6 (as the code behaves): `calculateReward(e, hit, moved)` is the sum of 10
if `hit`, -20 if `e = -1`, and -5 if `moved`, a function of its three arguments
only. The event -1 is the one `Ball::update` returns when the ball ends beyond
the left wall; the conceded event, the ball beyond the right wall on the side of
the CPU paddle, is 1, for which the scoring block takes one from `cpuScore`. So
for the event of a ball update the -20 is included exactly when the ball passed
the left wall, and at the conceded event 1 the result is the sum of the `hit`
and `moved` components alone, without the -20. -/
theorem calculateReward_components :
    (∀ (e : Int) (hit moved : Bool), calculateReward e hit moved =
      (if hit then 10 else 0) + (if e = -1 then -20 else 0) + (if moved then -5 else 0)) ∧
    (∀ (b : Ball) (dt : ℚ) (direction : ℚ × ℚ),
      ((Ball.update b dt direction).1 = 1 ↔
        0 ≤ b.position.1 + b.velocity.1 * dt - b.radius ∧
          (b.windowBounds.1 : ℚ) < b.position.1 + b.velocity.1 * dt + b.radius) ∧
      ((Ball.update b dt direction).1 = -1 ↔
        b.position.1 + b.velocity.1 * dt - b.radius < 0)) ∧
    (∀ (b : Ball) (dt : ℚ) (direction : ℚ × ℚ) (hit moved : Bool),
      calculateReward (Ball.update b dt direction).1 hit moved =
        (if hit then 10 else 0) +
        (if b.position.1 + b.velocity.1 * dt - b.radius < 0 then -20 else 0) +
        (if moved then -5 else 0)) ∧
    (∀ (G : Type) (g : Game G) (direction : ℚ × ℚ),
      (scoringBlock g 1 direction).cpuScore = g.cpuScore - 1 ∧
      (scoringBlock g 1 direction).playerScore = g.playerScore) ∧
    (∀ hit moved : Bool, calculateReward 1 hit moved =
      (if hit then 10 else 0) + (if moved then -5 else 0)) := by
  have hev : ∀ (b : Ball) (dt : ℚ) (direction : ℚ × ℚ),
      ((Ball.update b dt direction).1 = 1 ↔
        0 ≤ b.position.1 + b.velocity.1 * dt - b.radius ∧
          (b.windowBounds.1 : ℚ) < b.position.1 + b.velocity.1 * dt + b.radius) ∧
      ((Ball.update b dt direction).1 = -1 ↔
        b.position.1 + b.velocity.1 * dt - b.radius < 0) := by
    intro b dt direction
    rw [Ball.update_event]
    by_cases h1 : b.position.1 + b.velocity.1 * dt - b.radius < 0
    · rw [if_pos h1]
      exact ⟨⟨fun h => absurd h (by decide), fun h => absurd h1 (not_lt.mpr h.1)⟩,
        fun _ => h1, fun _ => rfl⟩
    · rw [if_neg h1]
      by_cases h2 : b.position.1 + b.velocity.1 * dt + b.radius > (b.windowBounds.1 : ℚ)
      · rw [if_pos h2]
        exact ⟨⟨fun _ => ⟨not_lt.mp h1, h2⟩, fun _ => rfl⟩,
          fun h => absurd h (by decide), fun h => absurd h h1⟩
      · rw [if_neg h2]
        exact ⟨⟨fun h => absurd h (by decide), fun h => absurd h.2 h2⟩,
          fun h => absurd h (by decide), fun h => absurd h h1⟩
  refine ⟨calculateReward_sum, hev, ?_, ?_, ?_⟩
  · intro b dt direction hit moved
    rw [calculateReward_sum]
    have h := (hev b dt direction).2
    by_cases h1 : b.position.1 + b.velocity.1 * dt - b.radius < 0
    · rw [if_pos (h.mpr h1), if_pos h1]
    · rw [if_neg (fun h2 => h1 (h.mp h2)), if_neg h1]
  · intro G g direction
    cases hi : g.aiStateInitialized <;> simp [scoringBlock, hi]
  · intro hit moved
    rw [calculateReward_sum]
    simp

/-- C7 (as the code behaves): in the 800 x 600 window, for every ball position,
velocity and paddle positions, the state `getCurrentStateForAI` produces has its
four buckets in `[0, 9]` and its two velocity signs in `{-1, 0, 1}`, hence lies
in a grid of at most 90,000 states. A ball coordinate `<= 0` gives bucket 0. A
ball coordinate `>=` the window dimension gives bucket 9 as long as the quotient
by the cell size is at most 2147483520, the largest `float` below `2 ^ 31`; when
the quotient reaches `2 ^ 31` the conversion to `int` is out of range and the
bucket is 0. -/
theorem getCurrentStateForAI_range {G : Type} (g : Game G)
    (hw : g.windowSize = (WINDOW_WIDTH, WINDOW_HEIGHT)) :
    ((getCurrentStateForAI g).ball_x_grid ∈ Finset.Icc (0 : Int) 9 ∧
      (getCurrentStateForAI g).ball_y_grid ∈ Finset.Icc (0 : Int) 9 ∧
      (getCurrentStateForAI g).cpu_paddle_y_grid ∈ Finset.Icc (0 : Int) 9 ∧
      (getCurrentStateForAI g).player_paddle_y_grid ∈ Finset.Icc (0 : Int) 9 ∧
      (getCurrentStateForAI g).ball_vx_category ∈ Finset.Icc (-1 : Int) 1 ∧
      (getCurrentStateForAI g).ball_vy_category ∈ Finset.Icc (-1 : Int) 1) ∧
    (getCurrentStateForAI g ∈ state_grid ∧ state_grid.card ≤ 90000) ∧
    (g.ball.position.1 ≤ 0 → (getCurrentStateForAI g).ball_x_grid = 0) ∧
    ((WINDOW_WIDTH : ℚ) ≤ g.ball.position.1 → g.ball.position.1 ≤ 80 * INT_FLOAT_MAX →
      (getCurrentStateForAI g).ball_x_grid = 9) ∧
    (80 * 2147483648 ≤ g.ball.position.1 → (getCurrentStateForAI g).ball_x_grid = 0) ∧
    (g.ball.position.2 ≤ 0 → (getCurrentStateForAI g).ball_y_grid = 0) ∧
    ((WINDOW_HEIGHT : ℚ) ≤ g.ball.position.2 → g.ball.position.2 ≤ 60 * INT_FLOAT_MAX →
      (getCurrentStateForAI g).ball_y_grid = 9) ∧
    (60 * 2147483648 ≤ g.ball.position.2 → (getCurrentStateForAI g).ball_y_grid = 0) := by
  have hr : (getCurrentStateForAI g).ball_x_grid ∈ Finset.Icc (0 : Int) 9 ∧
      (getCurrentStateForAI g).ball_y_grid ∈ Finset.Icc (0 : Int) 9 ∧
      (getCurrentStateForAI g).cpu_paddle_y_grid ∈ Finset.Icc (0 : Int) 9 ∧
      (getCurrentStateForAI g).player_paddle_y_grid ∈ Finset.Icc (0 : Int) 9 ∧
      (getCurrentStateForAI g).ball_vx_category ∈ Finset.Icc (-1 : Int) 1 ∧
      (getCurrentStateForAI g).ball_vy_category ∈ Finset.Icc (-1 : Int) 1 := by
    simp only [getCurrentStateForAI, GRID_X_DIVISIONS, GRID_Y_DIVISIONS, PADDLE_Y_DIVISIONS,
      Finset.mem_Icc]
    exact ⟨max_min_range _, max_min_range _, max_min_range _, max_min_range _,
      Finset.mem_Icc.mp (sign_range _), Finset.mem_Icc.mp (sign_range _)⟩
  refine ⟨hr, ⟨?_, ?_⟩, ?_, ?_, ?_, ?_, ?_, ?_⟩
  · obtain ⟨h1, h2, h3, h4, h5, h6⟩ := hr
    simp only [state_grid, Finset.mem_image, Finset.mem_product]
    exact ⟨(_, _, _, _, _, _), ⟨h1, h2, h5, h6, h3, h4⟩, rfl⟩
  · refine le_trans Finset.card_image_le ?_
    simp [Finset.card_product]
  · intro h
    rw [getCurrentStateForAI_ball_x g hw]
    exact bucket_of_nonpos _ 80 (by norm_num) h
  · intro h hb
    rw [getCurrentStateForAI_ball_x g hw]
    exact bucket_of_beyond _ 80 (by norm_num) (by norm_num [WINDOW_WIDTH] at h ⊢; linarith) hb
  · intro h
    rw [getCurrentStateForAI_ball_x g hw]
    exact bucket_of_overflow _ 80 (by norm_num) h
  · intro h
    rw [getCurrentStateForAI_ball_y g hw]
    exact bucket_of_nonpos _ 60 (by norm_num) h
  · intro h hb
    rw [getCurrentStateForAI_ball_y g hw]
    exact bucket_of_beyond _ 60 (by norm_num) (by norm_num [WINDOW_HEIGHT] at h ⊢; linarith) hb
  · intro h
    rw [getCurrentStateForAI_ball_y g hw]
    exact bucket_of_overflow _ 60 (by norm_num) h

/-- C7, witness: a ball at `(900, -5)`, right of and above the window, is put in
the buckets 9 and 0. -/
theorem getCurrentStateForAI_range_witness :
    (sampleGame (900, -5) (300, -300)).windowSize = (WINDOW_WIDTH, WINDOW_HEIGHT) ∧
    (getCurrentStateForAI (sampleGame (900, -5) (300, -300))).ball_x_grid = 9 ∧
    (getCurrentStateForAI (sampleGame (900, -5) (300, -300))).ball_y_grid = 0 ∧
    getCurrentStateForAI (sampleGame (900, -5) (300, -300)) ∈ state_grid :=
  ⟨rfl,
   (getCurrentStateForAI_range (sampleGame (900, -5) (300, -300)) rfl).2.2.2.1
     (by norm_num [sampleGame, WINDOW_WIDTH]) (by norm_num [sampleGame, INT_FLOAT_MAX]),
   (getCurrentStateForAI_range (sampleGame (900, -5) (300, -300)) rfl).2.2.2.2.2.1
     (by norm_num [sampleGame]),
   (getCurrentStateForAI_range (sampleGame (900, -5) (300, -300)) rfl).2.1.1⟩

/-- C7 as stated fails: the ball coordinate `999999995904` (the `float` nearest to
`1e12`) is beyond the window width, the quotient by 80 does not fit an `int`, and
the bucket is 0, not 9. -/
theorem getCurrentStateForAI_far_right :
    (WINDOW_WIDTH : ℚ) ≤ (sampleGame (999999995904, 300) (300, 0)).ball.position.1 ∧
    round_float 999999995904 = 999999995904 ∧
    (getCurrentStateForAI (sampleGame (999999995904, 300) (300, 0))).ball_x_grid = 0 := by
  decide!

/-- C8 (as the code behaves): in the 800 x 600 window, for `float` ball
coordinates and coordinates up to `2 ^ 36`, `getCurrentStateForAI` equals the
reference discretizer applied to the ball position, the velocity, and the paddle
centres as the `float` addition `top + 40` rounds them; it equals the reference
discretizer of the exact centres whenever the two additions are exact. For a ball
coordinate inside the window no clamping occurs and the coordinate lies in
`[w * b, w * (b + 1))` for the returned bucket `b` (`w = 80` for x, 60 for y). -/
theorem getCurrentStateForAI_eq_reference {G : Type} (g : Game G)
    (hw : g.windowSize = (WINDOW_WIDTH, WINDOW_HEIGHT))
    (hx : round_float g.ball.position.1 = g.ball.position.1)
    (hy : round_float g.ball.position.2 = g.ball.position.2)
    (bx : g.ball.position.1 ≤ COORDINATE_MAX) (bY : g.ball.position.2 ≤ COORDINATE_MAX)
    (bc : g.cpuPaddle.position.2 + 40 ≤ COORDINATE_MAX)
    (bp : g.playerPaddle.position.2 + 40 ≤ COORDINATE_MAX) :
    getCurrentStateForAI g =
      reference_discretizer g.ball.position.1 g.ball.position.2 g.ball.velocity.1
        g.ball.velocity.2 (round_float (g.cpuPaddle.position.2 + 40) - 40)
        (round_float (g.playerPaddle.position.2 + 40) - 40) ∧
    (round_float (g.cpuPaddle.position.2 + 40) = g.cpuPaddle.position.2 + 40 →
      round_float (g.playerPaddle.position.2 + 40) = g.playerPaddle.position.2 + 40 →
      getCurrentStateForAI g =
        reference_discretizer g.ball.position.1 g.ball.position.2 g.ball.velocity.1
          g.ball.velocity.2 g.cpuPaddle.position.2 g.playerPaddle.position.2) ∧
    (0 ≤ g.ball.position.1 ∧ g.ball.position.1 < 800 →
      (getCurrentStateForAI g).ball_x_grid = Int.floor (g.ball.position.1 / 80) ∧
      80 * ((getCurrentStateForAI g).ball_x_grid : ℚ) ≤ g.ball.position.1 ∧
      g.ball.position.1 < 80 * (((getCurrentStateForAI g).ball_x_grid : ℚ) + 1)) ∧
    (0 ≤ g.ball.position.2 ∧ g.ball.position.2 < 600 →
      (getCurrentStateForAI g).ball_y_grid = Int.floor (g.ball.position.2 / 60) ∧
      60 * ((getCurrentStateForAI g).ball_y_grid : ℚ) ≤ g.ball.position.2 ∧
      g.ball.position.2 < 60 * (((getCurrentStateForAI g).ball_y_grid : ℚ) + 1)) := by
  have ex : (getCurrentStateForAI g).ball_x_grid = reference_bucket g.ball.position.1 800 10 := by
    have h := bucket_eq_reference_80 g.ball.position.1 (by rw [hx]; exact bx)
    rw [hx] at h
    rw [getCurrentStateForAI_ball_x g hw]
    exact h
  have ey : (getCurrentStateForAI g).ball_y_grid = reference_bucket g.ball.position.2 600 10 := by
    have h := bucket_eq_reference_60 g.ball.position.2 (by rw [hy]; exact bY)
    rw [hy] at h
    rw [getCurrentStateForAI_ball_y g hw]
    exact h
  have ec : (getCurrentStateForAI g).cpu_paddle_y_grid =
      reference_bucket (round_float (g.cpuPaddle.position.2 + 40)) 600 10 := by
    rw [getCurrentStateForAI_cpu g hw]
    exact bucket_eq_reference_60 _ (round_float_le_coordinate_max _ bc)
  have ep : (getCurrentStateForAI g).player_paddle_y_grid =
      reference_bucket (round_float (g.playerPaddle.position.2 + 40)) 600 10 := by
    rw [getCurrentStateForAI_player g hw]
    exact bucket_eq_reference_60 _ (round_float_le_coordinate_max _ bp)
  have hmain : getCurrentStateForAI g =
      reference_discretizer g.ball.position.1 g.ball.position.2 g.ball.velocity.1
        g.ball.velocity.2 (round_float (g.cpuPaddle.position.2 + 40) - 40)
        (round_float (g.playerPaddle.position.2 + 40) - 40) := by
    apply State.ext
    · exact ex
    · exact ey
    · exact sign_eq_reference _
    · exact sign_eq_reference _
    · rw [ec]
      show _ = reference_bucket (round_float (g.cpuPaddle.position.2 + 40) - 40 + 40) 600 10
      rw [sub_add_cancel]
    · rw [ep]
      show _ = reference_bucket (round_float (g.playerPaddle.position.2 + 40) - 40 + 40) 600 10
      rw [sub_add_cancel]
  refine ⟨hmain, ?_, ?_, ?_⟩
  · intro h1 h2
    rw [hmain, h1, h2, add_sub_cancel_right, add_sub_cancel_right]
  · rintro ⟨h0, h1⟩
    obtain ⟨f0, f9, flo, fhi⟩ :=
      floor_bucket_inside g.ball.position.1 80 (by norm_num) h0 (by linarith)
    have hb : (getCurrentStateForAI g).ball_x_grid = Int.floor (g.ball.position.1 / 80) := by
      rw [ex, reference_bucket_800, min_eq_right f9, max_eq_right f0]
    rw [hb]
    exact ⟨rfl, flo, fhi⟩
  · rintro ⟨h0, h1⟩
    obtain ⟨f0, f9, flo, fhi⟩ :=
      floor_bucket_inside g.ball.position.2 60 (by norm_num) h0 (by linarith)
    have hb : (getCurrentStateForAI g).ball_y_grid = Int.floor (g.ball.position.2 / 60) := by
      rw [ey, reference_bucket_600, min_eq_right f9, max_eq_right f0]
    rw [hb]
    exact ⟨rfl, flo, fhi⟩

/-- C8, witness: the ball at `(790, 300)` falls in the buckets 9 and 5, with
`720 <= 790 < 800`; the paddle centres `260 + 40` are exact. -/
theorem getCurrentStateForAI_eq_reference_witness :
    (sampleGame (790, 300) (300, 0)).windowSize = (WINDOW_WIDTH, WINDOW_HEIGHT) ∧
    round_float 790 = 790 ∧ round_float 300 = 300 ∧ round_float (260 + 40) = 260 + 40 ∧
    getCurrentStateForAI (sampleGame (790, 300) (300, 0)) =
      reference_discretizer 790 300 300 0 260 260 ∧
    (getCurrentStateForAI (sampleGame (790, 300) (300, 0))).ball_x_grid =
      Int.floor ((790 : ℚ) / 80) ∧
    80 * ((getCurrentStateForAI (sampleGame (790, 300) (300, 0))).ball_x_grid : ℚ) ≤ 790 ∧
    (790 : ℚ) < 80 * (((getCurrentStateForAI (sampleGame (790, 300) (300, 0))).ball_x_grid : ℚ) + 1) :=
  ⟨rfl, by decide!, by decide!, by decide!,
   (getCurrentStateForAI_eq_reference (sampleGame (790, 300) (300, 0)) rfl (by decide!)
     (by decide!) (by decide!) (by decide!) (by decide!) (by decide!)).2.1 (by decide!)
     (by decide!),
   (getCurrentStateForAI_eq_reference (sampleGame (790, 300) (300, 0)) rfl (by decide!)
     (by decide!) (by decide!) (by decide!) (by decide!) (by decide!)).2.2.1
     (by norm_num [sampleGame])⟩

/-- C8 as stated fails: with the CPU paddle's top at the `float`
`10485759 / 524288 = 19.999998...` the sum `top + 40` rounds to the `float` 60, so
the code puts the paddle in bucket 1, while the centre `59.999998...` is in the
reference bucket 0. -/
theorem paddle_centre_rounded_up :
    round_float (10485759 / 524288) = 10485759 / 524288 ∧
    round_float (10485759 / 524288 + 40) = 60 ∧
    (getCurrentStateForAI
      (sampleGameWithCpu (400, 300) (300, 0) (10485759 / 524288))).cpu_paddle_y_grid = 1 ∧
    (reference_discretizer 400 300 300 0 (10485759 / 524288) 260).cpu_paddle_y_grid = 0 := by
  decide!

/-- C9: for every table, every state without an entry and every action index,
`get_q_value` returns 0; on a freshly constructed agent this holds for every
state. The function is total: it returns a value on every input. -/
theorem get_q_value_unseen {G : Type} (ag : QLearningAgent G) (s : State) (action_index : Fin 3)
    (h : ag.q_table.find s = none) (seed : G) :
    get_q_value ag s action_index = 0 ∧
    get_q_value (QLearningAgent.new seed) s action_index = 0 := by
  constructor
  · simp [get_q_value, h]
  · rfl

/-- C9, witness: a table holding `(1,1,1,1,1,1)` only, read at `(0,0,0,0,0,0)`. -/
theorem get_q_value_unseen_witness :
    one_entry_agent.q_table.find {} = none ∧
    get_q_value one_entry_agent {} 2 = 0 ∧
    get_q_value (QLearningAgent.new ()) {} 2 = 0 :=
  ⟨by decide, get_q_value_unseen one_entry_agent {} 2 (by decide) ()⟩

/-- C10: for every table, state and random source, `choose_action` and
`get_best_action_index` return an agent whose table is the one they were given,
so `get_explored_state_count()` is unchanged; `get_q_value` is a `const` lookup
that returns a value only. -/
theorem lookups_do_not_insert {G : Type} (R : RandomSource G) (ag : QLearningAgent G)
    (s : State) :
    (choose_action R ag s).2.q_table = ag.q_table ∧
    (get_best_action_index R ag s).2.q_table = ag.q_table ∧
    get_explored_state_count (choose_action R ag s).2 = get_explored_state_count ag ∧
    get_explored_state_count (get_best_action_index R ag s).2 = get_explored_state_count ag := by
  have hb : ∀ a : QLearningAgent G, (get_best_action_index R a s).2.q_table = a.q_table := by
    intro a
    unfold get_best_action_index
    cases a.q_table.find s <;> rfl
  have hc : (choose_action R ag s).2.q_table = ag.q_table := by
    unfold choose_action
    simp only []
    split_ifs
    · rfl
    · rw [hb]
  refine ⟨hc, hb ag, ?_, ?_⟩
  · rw [get_explored_state_count, hc, get_explored_state_count]
  · rw [get_explored_state_count, hb, get_explored_state_count]

/-- C11: after `update_q_value(s, a, r, s')` the state `s'` has an entry; when
`s'` differs from `s`, its array is `(0, 0, 0)` if `s'` had no entry before the
call, and is the array it had if it had one. -/
theorem update_q_value_new_state {G : Type} (ag : QLearningAgent G) (s s' : State) (a : Action)
    (r : ℚ) :
    (∃ q, (update_q_value ag s a r s').q_table.find s' = some q) ∧
    (s' ≠ s → ag.q_table.find s' = none →
      (update_q_value ag s a r s').q_table.find s' = some QValues.zero) ∧
    (s' ≠ s → ∀ q, ag.q_table.find s' = some q →
      (update_q_value ag s a r s').q_table.find s' = some q) := by
  refine ⟨?_, ?_, ?_⟩
  · by_cases h : s' = s
    · subst h
      exact ⟨_, find_old_state_update_q_value ag s' a r s'⟩
    · rw [find_other_state_update_q_value ag s a r s' s' h]
      cases hf : ag.q_table.find s' with
      | none => exact ⟨QValues.zero, by simp⟩
      | some q => exact ⟨q, by simp⟩
  · intro h hf
    rw [find_other_state_update_q_value ag s a r s' s' h, if_pos ⟨rfl, hf⟩]
  · intro h q hf
    rw [find_other_state_update_q_value ag s a r s' s' h, hf]
    simp

/-- C11, witness: on the table holding `(1,1,1,1,1,1)` with `(1, 2, 3)`, an
update of `(0,0,0,0,0,0)` leading to `(1,1,1,1,1,1)` keeps `(1, 2, 3)`, and one
leading to the unseen `(2,2,2,2,2,2)` inserts it with `(0, 0, 0)`. -/
theorem update_q_value_new_state_witness :
    (update_q_value one_entry_agent {} Action.UP 10 ⟨1, 1, 1, 1, 1, 1⟩).q_table.find
      ⟨1, 1, 1, 1, 1, 1⟩ = some ⟨1, 2, 3⟩ ∧
    (update_q_value one_entry_agent {} Action.UP 10 ⟨2, 2, 2, 2, 2, 2⟩).q_table.find
      ⟨2, 2, 2, 2, 2, 2⟩ = some QValues.zero :=
  ⟨(update_q_value_new_state one_entry_agent {} ⟨1, 1, 1, 1, 1, 1⟩ Action.UP 10).2.2
      (by decide) ⟨1, 2, 3⟩ (by decide),
   (update_q_value_new_state one_entry_agent {} ⟨2, 2, 2, 2, 2, 2⟩ Action.UP 10).2.1
      (by decide) (by decide)⟩

/-- C12: `update_q_value(s, a, r, s')` writes only the slot `(s, a)`: in the
entry of `s` after the call the two other action values are those `s` had before
(0 when `s` had no entry), every state other than `s` and `s'` has the lookup it
had before (absent stays absent, present keeps its three values), and `alpha`,
`gamma`, `epsilon` are unchanged. -/
theorem update_q_value_frame {G : Type} (ag : QLearningAgent G) (s s' : State) (a : Action)
    (r : ℚ) :
    (∃ q', (update_q_value ag s a r s').q_table.find s = some q' ∧
      ∀ i : Fin 3, i ≠ a.toIndex →
        q'.get i = (match ag.q_table.find s with
                    | some q => q.get i
                    | none => 0)) ∧
    (∀ k, k ≠ s → k ≠ s' → (update_q_value ag s a r s').q_table.find k = ag.q_table.find k) ∧
    (update_q_value ag s a r s').alpha = ag.alpha ∧
    (update_q_value ag s a r s').gamma = ag.gamma ∧
    (update_q_value ag s a r s').epsilon = ag.epsilon := by
  refine ⟨⟨_, find_old_state_update_q_value ag s a r s', ?_⟩, ?_, rfl, rfl, rfl⟩
  · intro i hi
    rw [QValues.get_set_of_ne _ _ _ _ hi, QTable.subscript]
    cases ag.q_table.find s with
    | none => fin_cases i <;> rfl
    | some q => rfl
  · intro k hk hk'
    rw [find_other_state_update_q_value ag s a r s' k hk, if_neg (fun h => hk' h.1)]

/-- C12, witness: on the table holding `(1,1,1,1,1,1)` with `(1, 2, 3)`, the
update `((1,1,1,1,1,1), UP, 10, (2,2,2,2,2,2))` leaves the unseen state
`(3,3,3,3,3,3)` absent. -/
theorem update_q_value_frame_witness :
    (update_q_value one_entry_agent ⟨1, 1, 1, 1, 1, 1⟩ Action.UP 10
      ⟨2, 2, 2, 2, 2, 2⟩).q_table.find ⟨3, 3, 3, 3, 3, 3⟩ =
      one_entry_agent.q_table.find ⟨3, 3, 3, 3, 3, 3⟩ :=
  (update_q_value_frame one_entry_agent ⟨1, 1, 1, 1, 1, 1⟩ ⟨2, 2, 2, 2, 2, 2⟩ Action.UP 10).2.1
    ⟨3, 3, 3, 3, 3, 3⟩ (by decide) (by decide)

/-- C14 (amended): when the file cannot be opened, `load_q_table` returns false
and leaves the agent exactly as it was, table included; the table is empty
afterwards when it was empty before, as for the freshly constructed agent. -/
theorem load_q_table_unopened {G : Type} (ag : QLearningAgent G) (seed : G) :
    (load_q_table ag none).ok = false ∧
    (load_q_table ag none).agent = ag ∧
    (load_q_table (QLearningAgent.new seed) none).agent.q_table = [] :=
  ⟨rfl, rfl, rfl⟩

/-- C14, counterexample: an agent holding one state that fails to open the file
still holds that state after `load_q_table`. -/
theorem load_q_table_unopened_keeps_table :
    (load_q_table one_entry_agent none).ok = false ∧
    get_explored_state_count (load_q_table one_entry_agent none).agent = 1 ∧
    (load_q_table one_entry_agent none).agent.q_table ≠ [] := by
  decide

/-- C15 (amended): `load_q_table` accepts a line exactly when six `int` and then
three `double` values can be extracted from its beginning; what follows the
ninth number is not read. So an accepted line stays accepted, with the same
entry, when more fields are appended; every accepted line carries six values in
the `int` range and three values below the overflow threshold of `double`; and
the nine fields of a saved line whose values fit their types are accepted. A
line cut after fewer than nine such fields, or in which the next of the first
nine fields begins with a character that cannot begin a number, or whose first
value does not fit a `double`, is rejected. A rejected line inserts no entry and
adds one to `errors`, an accepted line stores its entry and adds one to
`lines_read`, and in both cases loading continues with the next line. -/
theorem load_q_table_line_acceptance :
    (∀ line rest t lr er, parse_line line = none →
      load_loop (line :: rest) t lr er = load_loop rest t lr (er + 1)) ∧
    (∀ line s q rest t lr er, parse_line line = some (s, q) →
      load_loop (line :: rest) t lr er = load_loop rest (t.assign s q) (lr + 1) er) ∧
    (∀ line v extra, parse_line line = some v → parse_line (line ++ ' ' :: extra) = some v) ∧
    (∀ line s q, parse_line line = some (s, q) →
      s.in_int_range ∧ |q.v0| < DBL_OVERFLOW ∧ |q.v1| < DBL_OVERFLOW ∧ |q.v2| < DBL_OVERFLOW) ∧
    (∀ s q, s.in_int_range → q.fits_double →
      parse_line (join_fields (fields_of s q)) = some (s, q.as_saved)) ∧
    (∀ s q k, s.in_int_range → q.fits_double → k < 9 →
      parse_line (join_fields ((fields_of s q).take k)) = none) ∧
    (∀ s q k c junk, s.in_int_range → q.fits_double → k < 9 → number_start c = false →
      isspace c = false →
      parse_line (join_fields ((fields_of s q).take k ++ [c :: junk])) = none) ∧
    (∀ s q, s.in_int_range → DBL_OVERFLOW ≤ |round6 q.v0| →
      parse_line (join_fields (fields_of s q)) = none) := by
  refine ⟨?_, ?_, ?_, ?_, ?_, ?_, ?_, ?_⟩
  · intro line rest t lr er h
    simp only [load_loop, h]
  · intro line s q rest t lr er h
    simp only [load_loop, h]
  · intro line v extra h
    exact parse_line_append_space line extra v h
  · intro line s q h
    exact parse_line_fits line s q h
  · intro s q hs hq
    rw [← format_line_eq_join]
    exact parse_line_format_line s q hs hq
  · intro s q k hs hq hk
    exact parse_line_truncated s q hs hq k hk
  · intro s q k c junk hs hq hk hc hsp
    exact parse_line_bad_field s q hs hq k hk c junk hc hsp
  · intro s q hs hbig
    rw [← format_line_eq_join]
    exact parse_line_overflow s q hs hbig

/-- C15, witness: the line `1 2 0 0 3 3 1 2 3` followed by a tenth field is
accepted with the entry of the first nine fields; the saved line of the state
`(0,0,0,0,0,0)` cut after eight fields, and the same followed by the field `x1`,
are rejected; so is the saved line with the first value `1e400`. -/
theorem load_q_table_line_acceptance_witness :
    parse_line ("1 2 0 0 3 3 1 2 3".toList ++ ' ' :: "4".toList) =
      some (⟨1, 2, 0, 0, 3, 3⟩, ⟨1, 2, 3⟩) ∧
    parse_line (join_fields ((fields_of {} QValues.zero).take 8)) = none ∧
    parse_line (join_fields ((fields_of {} QValues.zero).take 8 ++ ['x' :: ['1']])) = none ∧
    parse_line (join_fields (fields_of {} ⟨10 ^ 400, 0, 0⟩)) = none :=
  ⟨load_q_table_line_acceptance.2.2.1 _ _ _ (by decide!),
   load_q_table_line_acceptance.2.2.2.2.2.1 {} QValues.zero 8 (by decide) (by decide!)
     (by decide),
   load_q_table_line_acceptance.2.2.2.2.2.2.1 {} QValues.zero 8 'x' ['1'] (by decide)
     (by decide!) (by decide) (by decide) (by decide),
   load_q_table_line_acceptance.2.2.2.2.2.2.2 {} ⟨10 ^ 400, 0, 0⟩ (by decide) (by decide!)⟩

/-- C15, counterexample: the line `1 2 0 0 3 3 1 2 3 4`, with a tenth field after
the ninth, is accepted: loading a file made of this line reads one line, counts
no error and stores the entry `(1,2,0,0,3,3)` with the values `(1, 2, 3)`. The
range of `double` is part of the test: a line with the value `1e400` is rejected,
a line with the largest `double` is accepted. -/
theorem ten_field_line_accepted :
    valid_line ten_field_line = true ∧
    (load_q_table (QLearningAgent.new ()) (some (ten_field_line ++ [newline]))).lines_read = 1 ∧
    (load_q_table (QLearningAgent.new ()) (some (ten_field_line ++ [newline]))).errors = 0 ∧
    (load_q_table (QLearningAgent.new ())
      (some (ten_field_line ++ [newline]))).agent.q_table.find ⟨1, 2, 0, 0, 3, 3⟩ =
      some ⟨1, 2, 3⟩ ∧
    parse_line "0 0 0 0 0 0 1e400 0 0".toList = none ∧
    parse_line "0 0 0 0 0 0 1.7976931348623157e308 0 0".toList =
      some ({}, ⟨17976931348623157 * 10 ^ 292, 0, 0⟩) := by
  decide!

/-- C16: `save_q_table` returns false exactly when the destination cannot be
opened and true otherwise; when it opens, the text written is the saved form of
the table. The method is `const`: it returns a flag and writes a file, and the
agent (table, `alpha`, `gamma`, `epsilon`) is the same value after the call. -/
theorem save_q_table_result {G : Type} (ag : QLearningAgent G) (can_open : Bool) :
    ((save_q_table ag can_open).1 = false ↔ can_open = false) ∧
    ((save_q_table ag can_open).1 = true ↔ can_open = true) ∧
    (save_q_table ag can_open).2 = (if can_open then some (save_text ag.q_table) else none) := by
  cases can_open <;> simp [save_q_table]

/-- C17: for every table and profile, `set_difficulty` leaves the table unchanged
and sets `(alpha, gamma, epsilon)` to the triple of the profile, EASY
`(0.1, 0.9, 0.1)`, MEDIUM `(0.2, 0.9, 0.2)`, HARD `(0.2, 0.95, 0.4)`, whatever
they were before; after any sequence of calls the table is still unchanged and
the parameters are those of the last profile. -/
theorem set_difficulty_profile {G : Type} (ag ag' : QLearningAgent G) (level : DifficultyLevel)
    (levels : List DifficultyLevel) :
    (set_difficulty ag level).q_table = ag.q_table ∧
    (set_difficulty ag level).parameters =
      (match level with
       | DifficultyLevel.EASY => ((0.1 : ℚ), (0.9 : ℚ), (0.1 : ℚ))
       | DifficultyLevel.MEDIUM => ((0.2 : ℚ), (0.9 : ℚ), (0.2 : ℚ))
       | DifficultyLevel.HARD => ((0.2 : ℚ), (0.95 : ℚ), (0.4 : ℚ))) ∧
    (apply_difficulties ag (levels ++ [level])).q_table = ag.q_table ∧
    (apply_difficulties ag (levels ++ [level])).parameters =
      (set_difficulty ag' level).parameters := by
  refine ⟨set_difficulty_q_table ag level, ?_, apply_difficulties_q_table ag _, ?_⟩
  · cases level <;> norm_num [set_difficulty, QLearningAgent.parameters]
  · simp only [apply_difficulties, List.foldl_append, List.foldl_cons, List.foldl_nil]
    exact set_difficulty_parameters _ _ level

/-- C18: for every sample `r` in `[0, 1)`: with `epsilon = 0`, `choose_action`
takes the exploitation branch, and on a seen state whose values have a single
maximum it returns the action of that maximum; with `epsilon = 1` it takes the
exploration branch and returns the action drawn from the action distribution,
whatever the table and the state. -/
theorem choose_action_epsilon_bounds {G : Type} (R : RandomSource G) (ag : QLearningAgent G)
    (s : State) (hr0 : 0 ≤ R.exploration_value ag.rng) (hr1 : R.exploration_value ag.rng < 1) :
    (ag.epsilon = 0 →
      choose_action R ag s =
        (Action.ofIndex (get_best_action_index R { ag with rng := R.advance ag.rng } s).1,
         (get_best_action_index R { ag with rng := R.advance ag.rng } s).2) ∧
      ∀ q i, ag.q_table.find s = some q → (∀ j, j ≠ i → q.get j < q.get i) →
        (choose_action R ag s).1 = Action.ofIndex i) ∧
    (ag.epsilon = 1 →
      choose_action R ag s =
        (Action.ofIndex (R.action_value (R.advance ag.rng)),
         { ag with rng := R.advance (R.advance ag.rng) }) ∧
      ∀ t s', (choose_action R { ag with q_table := t } s').1 =
        Action.ofIndex (R.action_value (R.advance ag.rng))) := by
  constructor
  · intro he
    have hno : ¬ R.exploration_value ag.rng < ag.epsilon := by
      rw [he]
      exact not_lt.mpr hr0
    refine ⟨choose_action_exploit R ag s hno, ?_⟩
    intro q i hq hmax
    rw [choose_action_exploit R ag s hno]
    simp only [get_best_action_index, hq, max_element_unique q i hmax]
  · intro he
    have hyes : R.exploration_value ag.rng < ag.epsilon := by
      rw [he]
      exact hr1
    refine ⟨choose_action_explore R ag s hyes, ?_⟩
    intro t s'
    rw [choose_action_explore R { ag with q_table := t } s' hyes]

/-- C18, witness: with the sample `1/2`, the agent holding `(1,1,1,1,1,1)` with
`(1, 2, 3)` returns DOWN for that state when `epsilon = 0`, and the drawn action
(index `1 mod 3`, UP) when `epsilon = 1`. -/
theorem choose_action_epsilon_bounds_witness :
    (choose_action sample_source (sample_agent 0) ⟨1, 1, 1, 1, 1, 1⟩).1 = Action.DOWN ∧
    (choose_action sample_source (sample_agent 1) ⟨1, 1, 1, 1, 1, 1⟩).1 = Action.UP :=
  ⟨((choose_action_epsilon_bounds sample_source (sample_agent 0) ⟨1, 1, 1, 1, 1, 1⟩
      (by norm_num [sample_source]) (by norm_num [sample_source])).1 rfl).2 ⟨1, 2, 3⟩ 2 rfl
      (by decide!),
   ((choose_action_epsilon_bounds sample_source (sample_agent 1) ⟨1, 1, 1, 1, 1, 1⟩
      (by norm_num [sample_source]) (by norm_num [sample_source])).2 rfl).1 ▸ rfl⟩

/-- C19: for every seen state, `get_best_action_index` returns an index whose
stored value is the maximum of the three values of the state, the lowest such
index among equal maxima; it leaves the agent unchanged and its result depends
on the table only, so every call on the same table returns the same index. -/
theorem get_best_action_index_seen {G : Type} (R R' : RandomSource G) (ag ag' : QLearningAgent G)
    (s : State) (q : QValues) (h : ag.q_table.find s = some q)
    (h' : ag'.q_table = ag.q_table) :
    q.get (get_best_action_index R ag s).1 = max (max q.v0 q.v1) q.v2 ∧
    (∀ j, q.get j ≤ q.get (get_best_action_index R ag s).1) ∧
    (∀ j, q.get j = q.get (get_best_action_index R ag s).1 →
      (get_best_action_index R ag s).1 ≤ j) ∧
    (get_best_action_index R ag s).2 = ag ∧
    (get_best_action_index R' ag' s).1 = (get_best_action_index R ag s).1 := by
  have hi : (get_best_action_index R ag s).1 = max_element q := by
    simp only [get_best_action_index, h]
  have hi' : (get_best_action_index R' ag' s).1 = max_element q := by
    simp only [get_best_action_index, h', h]
  refine ⟨?_, ?_, ?_, ?_, ?_⟩
  · rw [hi]
    exact get_max_element q
  · intro j
    rw [hi]
    exact max_element_ge q j
  · intro j hj
    rw [hi] at hj ⊢
    exact max_element_first q j hj
  · simp only [get_best_action_index, h]
  · rw [hi, hi']

/-- C19, witness: on the values `(3, 3, 1)` of a tie between STAY and UP the
index returned is 0 (STAY). -/
theorem get_best_action_index_seen_witness :
    (get_best_action_index sample_source
      { sample_agent 0 with q_table := [(⟨1, 1, 1, 1, 1, 1⟩, ⟨3, 3, 1⟩)] } ⟨1, 1, 1, 1, 1, 1⟩).1 ≤ 1 :=
  (get_best_action_index_seen sample_source sample_source
    { sample_agent 0 with q_table := [(⟨1, 1, 1, 1, 1, 1⟩, ⟨3, 3, 1⟩)] }
    { sample_agent 0 with q_table := [(⟨1, 1, 1, 1, 1, 1⟩, ⟨3, 3, 1⟩)] }
    ⟨1, 1, 1, 1, 1, 1⟩ ⟨3, 3, 1⟩ rfl rfl).2.2.1 1 (by decide!)

/-- C20: when `choose_action` exploits (`r >= epsilon`) on a state without entry,
the action returned is the action drawn from the action distribution; each of
the three actions is returned for some draw. -/
theorem choose_action_unseen_exploit {G : Type} (R : RandomSource G) (ag : QLearningAgent G)
    (s : State) (hs : ag.q_table.find s = none)
    (hr : ¬ R.exploration_value ag.rng < ag.epsilon) :
    (choose_action R ag s).1 = Action.ofIndex (R.action_value (R.advance ag.rng)) ∧
    ∀ a : Action, ∃ R' : RandomSource G,
      ¬ R'.exploration_value ag.rng < ag.epsilon ∧ (choose_action R' ag s).1 = a := by
  have key : ∀ R' : RandomSource G, ¬ R'.exploration_value ag.rng < ag.epsilon →
      (choose_action R' ag s).1 = Action.ofIndex (R'.action_value (R'.advance ag.rng)) := by
    intro R' hr'
    rw [choose_action_exploit R' ag s hr']
    simp only [get_best_action_index, hs, RandomSource.action_distribution]
  refine ⟨key R hr, ?_⟩
  intro a
  refine ⟨⟨id, fun _ => ag.epsilon, fun _ => a.toIndex⟩, lt_irrefl _, ?_⟩
  rw [key _ (lt_irrefl _)]
  exact Action.ofIndex_toIndex a

/-- C20, witness: with the sample `1/2` and `epsilon = 0.1`, on the unseen state
`(0,0,0,0,0,0)` the action returned is the drawn one (index `1 mod 3`, UP). -/
theorem choose_action_unseen_exploit_witness :
    (choose_action sample_source (sample_agent (1 / 10)) {}).1 = Action.UP :=
  (choose_action_unseen_exploit sample_source (sample_agent (1 / 10)) {} rfl
    (by norm_num [sample_source, sample_agent])).1 ▸ rfl

/-- C21 (as the code behaves): `choose_action` changes nothing but the engine. It
draws twice when it explores and also when it exploits on a state that is not in
the table (the exploration sample, then the random action of
`get_best_action_index`); it draws once when it exploits on a stored state. -/
theorem choose_action_draws {G : Type} (R : RandomSource G) (ag : QLearningAgent G)
    (s : State) :
    (choose_action R ag s).2 =
      if R.exploration_value ag.rng < ag.epsilon ∨ ag.q_table.find s = none then
        { ag with rng := R.advance (R.advance ag.rng) }
      else { ag with rng := R.advance ag.rng } := by
  by_cases h : R.exploration_value ag.rng < ag.epsilon
  · rw [choose_action_explore R ag s h, if_pos (Or.inl h)]
  · rw [choose_action_exploit R ag s h]
    cases hf : ag.q_table.find s with
    | none =>
      rw [if_pos (Or.inr rfl)]
      simp only [get_best_action_index, hf, RandomSource.action_distribution]
    | some q =>
      rw [if_neg (by simp [h])]
      simp only [get_best_action_index, hf]

/-- C21 as stated fails: with exploration rate 0 the agent exploits, and on the
unseen state `(0,0,0,0,0,0)` the engine has advanced twice, not once. -/
theorem choose_action_exploit_second_draw :
    ¬ (sample_source.exploration_value (sample_agent 0).rng < (sample_agent 0).epsilon) ∧
    (sample_agent 0).q_table.find {} = none ∧
    (choose_action sample_source (sample_agent 0) {}).2.rng =
      sample_source.advance (sample_source.advance (sample_agent 0).rng) ∧
    (choose_action sample_source (sample_agent 0) {}).2.rng ≠
      sample_source.advance (sample_agent 0).rng := by
  decide!

/-- C24: on an empty table with the EASY profile, `update_q_value` with the prior
state `(2,5,-1,1,3,3)`, any action `a`, reward 10 and any resulting state stores
exactly 1 for `a`, leaves the two other actions of the prior state at 0, and the
table then holds the prior state and the resulting state. -/
theorem update_q_value_scenario {G : Type} (ag : QLearningAgent G) (a : Action) (s' : State)
    (h : ag.q_table = []) :
    get_q_value (update_q_value (set_difficulty ag DifficultyLevel.EASY) scenario_state a 10 s')
        scenario_state a.toIndex = 1 ∧
    (∀ j, j ≠ a.toIndex →
      get_q_value (update_q_value (set_difficulty ag DifficultyLevel.EASY) scenario_state a 10 s')
        scenario_state j = 0) ∧
    (update_q_value (set_difficulty ag DifficultyLevel.EASY) scenario_state a 10 s').q_table.keys =
      if s' = scenario_state then [scenario_state] else [scenario_state, s'] := by
  have ht := update_q_value_empty (set_difficulty ag DifficultyLevel.EASY) scenario_state a 10 s'
    (by rw [set_difficulty_q_table]; exact h)
  have h1 : (set_difficulty ag DifficultyLevel.EASY).alpha * 10 = 1 := by
    show (1 / 10 : ℚ) * 10 = 1
    norm_num
  rw [h1] at ht
  have hfind : (update_q_value (set_difficulty ag DifficultyLevel.EASY) scenario_state a 10
      s').q_table.find scenario_state = some (QValues.zero.set a.toIndex 1) := by
    rw [ht]
    split_ifs <;> simp [QTable.find]
  refine ⟨?_, ?_, ?_⟩
  · simp only [get_q_value, hfind, QValues.get_set_self]
  · intro j hj
    simp only [get_q_value, hfind]
    rw [QValues.get_set_of_ne _ _ _ _ hj]
    fin_cases j <;> rfl
  · rw [ht]
    split_ifs <;> rfl

/-- C24 at the freshly constructed agent, the action UP and the resulting state
`(3,5,-1,1,3,3)`. -/
theorem update_q_value_scenario_witness :
    (QLearningAgent.new ()).q_table = [] ∧
    get_q_value (update_q_value (set_difficulty (QLearningAgent.new ()) DifficultyLevel.EASY)
        scenario_state Action.UP 10 ⟨3, 5, -1, 1, 3, 3⟩) scenario_state Action.UP.toIndex = 1 ∧
    (∀ j, j ≠ Action.UP.toIndex →
      get_q_value (update_q_value (set_difficulty (QLearningAgent.new ()) DifficultyLevel.EASY)
        scenario_state Action.UP 10 ⟨3, 5, -1, 1, 3, 3⟩) scenario_state j = 0) ∧
    (update_q_value (set_difficulty (QLearningAgent.new ()) DifficultyLevel.EASY)
        scenario_state Action.UP 10 ⟨3, 5, -1, 1, 3, 3⟩).q_table.keys =
      if (⟨3, 5, -1, 1, 3, 3⟩ : State) = scenario_state then [scenario_state]
      else [scenario_state, ⟨3, 5, -1, 1, 3, 3⟩] :=
  ⟨rfl, update_q_value_scenario (QLearningAgent.new ()) Action.UP ⟨3, 5, -1, 1, 3, 3⟩ rfl⟩

/-- C28: the table only grows under learning. Every state present before
`update_q_value(s, a, r, s')` is present after it, and
`get_explored_state_count()` increases by the number of distinct states among
`s` and `s'` that were absent before the call. -/
theorem update_q_value_grows {G : Type} (ag : QLearningAgent G) (s : State) (a : Action)
    (r : ℚ) (s' : State) :
    (∀ k, ag.q_table.find k ≠ none → (update_q_value ag s a r s').q_table.find k ≠ none) ∧
    get_explored_state_count (update_q_value ag s a r s') =
      get_explored_state_count ag +
        (({s, s'} : Finset State).filter (fun k => (ag.q_table.find k).isNone)).card := by
  constructor
  · intro k hk
    by_cases hks : k = s
    · subst hks
      rw [find_old_state_update_q_value]
      simp
    · rw [find_other_state_update_q_value _ _ _ _ _ _ hks, if_neg (fun h => hk h.2)]
      exact hk
  · simp only [get_explored_state_count, QTable.size, update_q_value]
    have hcard : (({s, s'} : Finset State).filter (fun k => (ag.q_table.find k).isNone)).card =
        (if s ∈ ag.q_table.keys then 0 else 1) +
          (if s' ∈ ag.q_table.keys ∨ s' = s then 0 else 1) := by
      have hiff : ∀ k, (ag.q_table.find k).isNone = true ↔ k ∉ ag.q_table.keys := by
        intro k
        rw [Option.isNone_iff_eq_none, QTable.find_eq_none_iff]
      by_cases e : s' = s
      · subst e
        by_cases h1 : s' ∈ ag.q_table.keys
        · simp [Finset.filter_singleton, hiff, h1]
        · simp [Finset.filter_singleton, hiff, h1]
      · have e' : s ≠ s' := fun x => e x.symm
        by_cases h1 : s ∈ ag.q_table.keys <;> by_cases h2 : s' ∈ ag.q_table.keys
        · simp [Finset.filter_insert, Finset.filter_singleton, hiff, h1, h2, e]
        · simp [Finset.filter_insert, Finset.filter_singleton, hiff, h1, h2, e]
        · simp [Finset.filter_insert, Finset.filter_singleton, hiff, h1, h2, e]
        · simp [Finset.filter_insert, Finset.filter_singleton, hiff, h1, h2, e, e']
    rw [hcard, ← add_assoc]
    exact QTable.length_assign_pair _ _ _ _

/-- C22: `save_q_table` writes one line per stored state, as many lines as
`get_explored_state_count()`; each line is nine words without a space, joined by
single spaces, in the order ball x, ball y, ball vx sign, ball vy sign, CPU paddle
bucket, player paddle bucket, then the values at the ordinals of STAY, UP and
DOWN. -/
theorem save_q_table_lines {G : Type} (ag : QLearningAgent G) :
    (save_q_table ag true).2 = some (save_text ag.q_table) ∧
    (getlines (save_text ag.q_table)).length = get_explored_state_count ag ∧
    getlines (save_text ag.q_table) = ag.q_table.map (fun e => join_fields
      [format_int e.1.ball_x_grid, format_int e.1.ball_y_grid, format_int e.1.ball_vx_category,
       format_int e.1.ball_vy_category, format_int e.1.cpu_paddle_y_grid,
       format_int e.1.player_paddle_y_grid, format_double (e.2.get Action.STAY.toIndex),
       format_double (e.2.get Action.UP.toIndex), format_double (e.2.get Action.DOWN.toIndex)]) ∧
    (∀ e ∈ ag.q_table, (fields_of e.1 e.2).length = 9 ∧
      ∀ f ∈ [format_int e.1.ball_x_grid, format_int e.1.ball_y_grid,
        format_int e.1.ball_vx_category, format_int e.1.ball_vy_category,
        format_int e.1.cpu_paddle_y_grid, format_int e.1.player_paddle_y_grid,
        format_double (e.2.get Action.STAY.toIndex), format_double (e.2.get Action.UP.toIndex),
        format_double (e.2.get Action.DOWN.toIndex)], f ≠ [] ∧ ' ' ∉ f) := by
  refine ⟨rfl, ?_, ?_, ?_⟩
  · rw [getlines_save_text, List.length_map]
    rfl
  · rw [getlines_save_text]
    apply List.map_congr_left
    intro e _
    exact format_line_eq_join e.1 e.2
  · intro e _
    exact ⟨rfl, fields_of_words e.1 e.2⟩


/-- C27: bounded values. With `0 <= alpha <= 1`, `0 <= gamma < 1` and a reward in
`[Rmin, Rmax]`, put `L = min(0, Rmin) / (1 - gamma)` and
`U = max(0, Rmax) / (1 - gamma)`: when every stored value lies in `[L, U]` (true
of the empty table) it still does after `update_q_value`. Every reward of
`calculateReward` lies in `[-25, 10]`, and from the constructed agent every
sequence of difficulty changes and learning calls with such rewards keeps all
stored values in `[-500, 200]`. -/
theorem update_q_value_bounded :
    (∀ (G : Type) (ag : QLearningAgent G) (s : State) (a : Action) (r : ℚ) (s' : State)
      (Rmin Rmax : ℚ), 0 ≤ ag.alpha → ag.alpha ≤ 1 → 0 ≤ ag.gamma → ag.gamma < 1 →
      Rmin ≤ r → r ≤ Rmax →
      ag.q_table.bounded (min 0 Rmin / (1 - ag.gamma)) (max 0 Rmax / (1 - ag.gamma)) →
      (update_q_value ag s a r s').q_table.bounded (min 0 Rmin / (1 - ag.gamma))
        (max 0 Rmax / (1 - ag.gamma))) ∧
    (∀ L U : ℚ, QTable.bounded [] L U) ∧
    (∀ (e : Int) (h m : Bool), -25 ≤ calculateReward e h m ∧ calculateReward e h m ≤ 10) ∧
    (∀ (G : Type) (seed : G) (calls : List AgentCall),
      (apply_calls (QLearningAgent.new seed) calls).q_table.bounded (-500) 200) := by
  refine ⟨?_, ?_, calculateReward_range, ?_⟩
  · intro G ag s a r s' Rmin Rmax hα0 hα1 hγ0 hγ1 hr1 hr2 ht
    have hpos : 0 < 1 - ag.gamma := by linarith
    have hL : min 0 Rmin / (1 - ag.gamma) ≤ 0 :=
      div_nonpos_of_nonpos_of_nonneg (min_le_left _ _) hpos.le
    have hU : 0 ≤ max 0 Rmax / (1 - ag.gamma) := div_nonneg (le_max_left _ _) hpos.le
    have eL : min 0 Rmin / (1 - ag.gamma) =
        min 0 Rmin + ag.gamma * (min 0 Rmin / (1 - ag.gamma)) := by
      field_simp
      ring
    have eU : max 0 Rmax / (1 - ag.gamma) =
        max 0 Rmax + ag.gamma * (max 0 Rmax / (1 - ag.gamma)) := by
      field_simp
      ring
    refine update_q_value_interval ag s a r s' _ _ hL hU hα0 hα1 hγ0 ?_ ?_ ht
    · have : min 0 Rmin ≤ r := le_trans (min_le_right _ _) hr1
      linarith
    · have : r ≤ max 0 Rmax := le_trans hr2 (le_max_right _ _)
      linarith
  · intro L U e he
    simp at he
  · intro G seed calls
    refine apply_calls_bounded _ calls (Or.inl ⟨rfl, rfl⟩) ?_
    intro e he
    simp [QLearningAgent.new, set_difficulty] at he

/-- C27 at the one-entry table `(1, 2, 3)` with gamma 0.9 and the reward range
`[-25, 10]`: the values stay in `[-250, 100]` after a call with reward 10. -/
theorem update_q_value_bounded_witness :
    one_entry_agent.q_table.bounded (min 0 (-25) / (1 - one_entry_agent.gamma))
      (max 0 10 / (1 - one_entry_agent.gamma)) ∧
    (update_q_value one_entry_agent ⟨1, 1, 1, 1, 1, 1⟩ Action.UP 10 {}).q_table.bounded
      (min 0 (-25) / (1 - one_entry_agent.gamma)) (max 0 10 / (1 - one_entry_agent.gamma)) :=
  ⟨one_entry_agent_bounded,
   update_q_value_bounded.1 Unit one_entry_agent ⟨1, 1, 1, 1, 1, 1⟩ Action.UP 10 {} (-25) 10
     (by decide!) (by decide!) (by decide!) (by decide!) (by decide!) (by decide!)
     one_entry_agent_bounded⟩

/-- C25 (as the code behaves): in every frame of play `update_q_value` is called
on the pair that was pending before the frame (by `updateAI`, when one was
pending) and then on the pair `updateAI` has just recorded (by the scoring block
or by the learning block). The recorded pair stays pending exactly when the ball
passed no side wall. A key event makes no call and leaves the recorded pair as
it is; it clears the flag `aiStateInitialized` exactly when it runs `resetGame`
(Return on the first item of the main menu or of the game-over menu). A call of
`Game::update` outside play does nothing. So after any inputs during which no
call is made, the next frame of play passes the recorded pair a second time
exactly when the flag is still set at its start, which requires a frame without
score, and passes nothing but its own pair otherwise. -/
theorem updatePlaying_pending_pair {G : Type} (R : RandomSource G) (g : Game G)
    (inp : FrameInput) :
    call_pairs (updatePlaying R g inp).2 =
      (if g.aiStateInitialized = true then [(g.previousAiState, g.lastAiAction)] else []) ++
        [recordedPair R g inp] ∧
    ((updatePlaying R g inp).1.previousAiState, (updatePlaying R g inp).1.lastAiAction) =
      recordedPair R g inp ∧
    (updatePlaying R g inp).1.aiStateInitialized =
      (if frameScoreEvent g inp = 1 ∨ frameScoreEvent g inp = -1 then false else true) ∧
    (∀ (key : Key) (idx : Int) (d : ℚ × ℚ),
      (game_step R g (GameInput.keyPressed key idx d)).2 = [] ∧
      (processKeyPressed g key idx d).previousAiState = g.previousAiState ∧
      (processKeyPressed g key idx d).lastAiAction = g.lastAiAction ∧
      (processKeyPressed g key idx d).aiStateInitialized =
        (if (g.currentState = GameState.MainMenu ∨ g.currentState = GameState.GameOver) ∧
            key = Key.Return ∧ idx = 0 then false else g.aiStateInitialized)) ∧
    (g.currentState ≠ GameState.Playing → update R g inp = (g, [])) ∧
    (g.currentState = GameState.Playing → update R g inp = updatePlaying R g inp) ∧
    (∀ (mid : List GameInput) (inp' : FrameInput),
      (run_inputs R (updatePlaying R g inp).1 mid).2 = [] →
      call_pairs (updatePlaying R (run_inputs R (updatePlaying R g inp).1 mid).1 inp').2 =
        (if (run_inputs R (updatePlaying R g inp).1 mid).1.aiStateInitialized = true
          then [recordedPair R g inp] else []) ++
          [recordedPair R (run_inputs R (updatePlaying R g inp).1 mid).1 inp'] ∧
      ((run_inputs R (updatePlaying R g inp).1 mid).1.aiStateInitialized = true →
        frameScoreEvent g inp ≠ 1 ∧ frameScoreEvent g inp ≠ -1)) := by
  obtain ⟨p1, p2, p3⟩ := updatePlaying_pending R g inp
  refine ⟨updatePlaying_call_pairs R g inp, Prod.ext p1 p2, p3, ?_,
    update_of_not_playing R g inp, update_of_playing R g inp, ?_⟩
  · intro key idx d
    exact ⟨rfl, processKeyPressed_pending g key idx d⟩
  · intro mid inp' hmid
    obtain ⟨a, b, c⟩ := run_inputs_no_calls R mid _ hmid
    refine ⟨?_, fun hf => ?_⟩
    · rw [updatePlaying_call_pairs, a, b, p1, p2]
    · have := c hf
      rw [p3] at this
      by_cases hs : frameScoreEvent g inp = 1 ∨ frameScoreEvent g inp = -1
      · rw [if_pos hs] at this
        exact absurd this (by decide)
      · exact ⟨fun e => hs (Or.inl e), fun e => hs (Or.inr e)⟩

/-- C25 at the sample game: after "Start Game" and one quiet frame, Escape, "Main
Menu" and "Start Game" make no call and clear the flag, so the next frame passes
only its own pair and the pair `((5,5,1,1,5,5), UP)` has been passed once; with
Escape and "Resume" instead, the next frame passes it a second time. -/
theorem updatePlaying_pending_pair_witness :
    (run_inputs still_source
      (updatePlaying still_source (played still_source () (7 / 10, 7 / 10) none [start_input])
        quiet_frame).1 leave_restart).2 = [] ∧
    (call_pairs (updatePlaying still_source (run_inputs still_source
      (updatePlaying still_source (played still_source () (7 / 10, 7 / 10) none [start_input])
        quiet_frame).1 leave_restart).1 quiet_frame).2 =
      (if (run_inputs still_source
          (updatePlaying still_source (played still_source () (7 / 10, 7 / 10) none [start_input])
            quiet_frame).1 leave_restart).1.aiStateInitialized = true
        then [recordedPair still_source
          (played still_source () (7 / 10, 7 / 10) none [start_input]) quiet_frame] else []) ++
        [recordedPair still_source (run_inputs still_source
          (updatePlaying still_source (played still_source () (7 / 10, 7 / 10) none [start_input])
            quiet_frame).1 leave_restart).1 quiet_frame]) ∧
    (run_inputs still_source
      (updatePlaying still_source (played still_source () (7 / 10, 7 / 10) none [start_input])
        quiet_frame).1 leave_restart).1.aiStateInitialized = false ∧
    call_pairs (run_inputs still_source (Game.new () (7 / 10, 7 / 10) none)
      (start_input :: GameInput.frame quiet_frame :: leave_restart ++
        [GameInput.frame quiet_frame])).2 =
      [(⟨5, 5, 1, 1, 5, 5⟩, Action.UP), (⟨5, 5, 1, 1, 5, 5⟩, Action.STAY)] ∧
    call_pairs (run_inputs still_source (Game.new () (7 / 10, 7 / 10) none)
      (start_input :: GameInput.frame quiet_frame :: pause_resume ++
        [GameInput.frame quiet_frame])).2 =
      [(⟨5, 5, 1, 1, 5, 5⟩, Action.UP), (⟨5, 5, 1, 1, 5, 5⟩, Action.UP),
       (⟨5, 5, 1, 1, 4, 5⟩, Action.STAY)] :=
  ⟨by decide!,
   ((updatePlaying_pending_pair still_source
      (played still_source () (7 / 10, 7 / 10) none [start_input]) quiet_frame).2.2.2.2.2.2
      leave_restart quiet_frame (by decide!)).1,
   by decide!, by decide!, by decide!⟩

/-- C25 as stated fails: after "Start Game" and one quiet frame the pair
`((5,5,1,1,5,5), UP)` is pending; the learning block of that frame has passed it
to `update_q_value`, and `updateAI` of the next frame passes it again before
replacing it. -/
theorem pending_pair_passed_twice :
    (played still_source () (7 / 10, 7 / 10) none
      [start_input, GameInput.frame quiet_frame]).aiStateInitialized = true ∧
    (played still_source () (7 / 10, 7 / 10) none
      [start_input, GameInput.frame quiet_frame]).previousAiState = ⟨5, 5, 1, 1, 5, 5⟩ ∧
    (played still_source () (7 / 10, 7 / 10) none
      [start_input, GameInput.frame quiet_frame]).lastAiAction = Action.UP ∧
    call_pairs (run_inputs still_source (Game.new () (7 / 10, 7 / 10) none)
      [start_input, GameInput.frame quiet_frame, GameInput.frame quiet_frame]).2 =
      [(⟨5, 5, 1, 1, 5, 5⟩, Action.UP), (⟨5, 5, 1, 1, 5, 5⟩, Action.UP),
       (⟨5, 5, 1, 1, 4, 5⟩, Action.STAY)] := by
  decide!

/-- C26 (as the code behaves): the "moved" flag is taken from the ball at the time
of the call, not from `previousAiState`. In `updateAI` it is set when
`lastAiAction` is not STAY and the velocity sign of the state just observed is
negative; in the learning block of a frame without score it is set when the
recorded action is not STAY and the ball moves left after the paddle collisions.
A CPU hit leaves the ball moving left, so after a move that returned the ball the
reward is `10 - 5 = 5`. In a frame with score the scoring block passes the
recorded pair with `calculateReward(scoreEvent, false, false)`, which is -20 or
0 and never contains the -5. -/
theorem unnecessary_move_penalty {G : Type} (R : RandomSource G) (g : Game G)
    (inp : FrameInput) :
    (updateAI R g inp.seconds).2 =
      (if g.aiStateInitialized = true then
        [(g.previousAiState, g.lastAiAction,
          calculateReward 0 false
            (decide (g.lastAiAction ≠ Action.STAY ∧ (getCurrentStateForAI g).ball_vx_category < 0)),
          getCurrentStateForAI g)]
      else []) ∧
    (frameScoreEvent g inp ≠ 1 → frameScoreEvent g inp ≠ -1 →
      (updatePlaying R g inp).2 =
        (updateAI R (playerMovement g inp) inp.seconds).2 ++
          [((recordedPair R g inp).1, (recordedPair R g inp).2,
            calculateReward 0 (collided R g inp).2
              (decide ((recordedPair R g inp).2 ≠ Action.STAY ∧
                (collided R g inp).1.ball.velocity.1 < 0)),
            getCurrentStateForAI (collided R g inp).1)]) ∧
    ((collided R g inp).2 = true → (recordedPair R g inp).2 ≠ Action.STAY →
      calculateReward 0 (collided R g inp).2
        (decide ((recordedPair R g inp).2 ≠ Action.STAY ∧
          (collided R g inp).1.ball.velocity.1 < 0)) = 5) ∧
    (frameScoreEvent g inp = 1 ∨ frameScoreEvent g inp = -1 →
      (∃ next : State, (updatePlaying R g inp).2 =
        (updateAI R (playerMovement g inp) inp.seconds).2 ++
          [((recordedPair R g inp).1, (recordedPair R g inp).2,
            calculateReward (frameScoreEvent g inp) false false, next)]) ∧
      calculateReward (frameScoreEvent g inp) false false =
        (if frameScoreEvent g inp = -1 then -20 else 0)) := by
  refine ⟨updateAI_calls R g inp.seconds, ?_, ?_, ?_⟩
  · intro h1 h2
    rw [updatePlaying_calls_no_score R g inp h1 h2]
    rfl
  · intro hhit hmove
    have hv := collided_velocity R g inp hhit
    have hd : decide ((recordedPair R g inp).2 ≠ Action.STAY ∧
        (collided R g inp).1.ball.velocity.1 < 0) = true := decide_eq_true ⟨hmove, hv⟩
    rw [hhit, hd]
    simp only [calculateReward]
    norm_num
  · intro h
    refine ⟨updatePlaying_calls_score R g inp h, ?_⟩
    rw [calculateReward_sum]
    simp

/-- C26 at the sample game with the ball at the CPU paddle: the action recorded
is UP, the CPU hits the ball, and the reward of the learning block is 5. -/
theorem unnecessary_move_penalty_witness :
    (collided exploring_source (sampleGame (760, 300) (212, 212)) hit_frame).2 = true ∧
    (recordedPair exploring_source (sampleGame (760, 300) (212, 212)) hit_frame).2 ≠
      Action.STAY ∧
    calculateReward 0 (collided exploring_source (sampleGame (760, 300) (212, 212)) hit_frame).2
      (decide ((recordedPair exploring_source (sampleGame (760, 300) (212, 212)) hit_frame).2 ≠
          Action.STAY ∧
        (collided exploring_source (sampleGame (760, 300) (212, 212)) hit_frame).1.ball.velocity.1
          < 0)) = 5 :=
  ⟨by decide!, by decide!,
   (unnecessary_move_penalty exploring_source (sampleGame (760, 300) (212, 212)) hit_frame).2.2.1
     (by decide!) (by decide!)⟩

/-- C26 as stated fails: the ball moves towards the CPU paddle (velocity sign 1)
when the agent chooses UP in the state `(9,5,1,1,5,5)`; the paddle returns the
ball in the same frame, and the reward passed for that pair is `10 - 5 = 5`. -/
theorem returned_ball_penalised :
    (updatePlaying exploring_source (sampleGame (760, 300) (212, 212)) hit_frame).2 =
      [(⟨9, 5, 1, 1, 4, 4⟩, Action.UP, 0, ⟨9, 5, 1, 1, 5, 5⟩),
       (⟨9, 5, 1, 1, 5, 5⟩, Action.UP, 5, ⟨9, 5, -1, 1, 4, 5⟩)] ∧
    (collided exploring_source (sampleGame (760, 300) (212, 212)) hit_frame).2 = true ∧
    calculateReward 0 true true = 10 - 5 := by
  decide!

/-- C29: from construction and through every sequence of key events and frames,
both scores stay in `[0, 10]`, and are in `[1, 10]` whenever the state is
Playing. In the Playing state a frame with score event 1 decrements the CPU score
alone, a frame with score event -1 the player score alone, any other frame
neither; after the frame the state is GameOver exactly when a score is 0, and
Playing otherwise. -/
theorem score_invariant {G : Type} (R : RandomSource G) (seed : G) (direction : ℚ × ℚ)
    (infile : Option (List Char)) (inputs : List GameInput) :
    ((0 ≤ (played R seed direction infile inputs).playerScore ∧
      (played R seed direction infile inputs).playerScore ≤ 10) ∧
     (0 ≤ (played R seed direction infile inputs).cpuScore ∧
      (played R seed direction infile inputs).cpuScore ≤ 10)) ∧
    ((played R seed direction infile inputs).currentState = GameState.Playing →
      (1 ≤ (played R seed direction infile inputs).playerScore ∧
       1 ≤ (played R seed direction infile inputs).cpuScore) ∧
      ∀ inp : FrameInput,
        (frameScoreEvent (played R seed direction infile inputs) inp = 1 →
          (update R (played R seed direction infile inputs) inp).1.cpuScore =
            (played R seed direction infile inputs).cpuScore - 1 ∧
          (update R (played R seed direction infile inputs) inp).1.playerScore =
            (played R seed direction infile inputs).playerScore) ∧
        (frameScoreEvent (played R seed direction infile inputs) inp = -1 →
          (update R (played R seed direction infile inputs) inp).1.playerScore =
            (played R seed direction infile inputs).playerScore - 1 ∧
          (update R (played R seed direction infile inputs) inp).1.cpuScore =
            (played R seed direction infile inputs).cpuScore) ∧
        (frameScoreEvent (played R seed direction infile inputs) inp ≠ 1 →
          frameScoreEvent (played R seed direction infile inputs) inp ≠ -1 →
          (update R (played R seed direction infile inputs) inp).1.playerScore =
            (played R seed direction infile inputs).playerScore ∧
          (update R (played R seed direction infile inputs) inp).1.cpuScore =
            (played R seed direction infile inputs).cpuScore) ∧
        ((update R (played R seed direction infile inputs) inp).1.currentState =
            GameState.GameOver ↔
          ((update R (played R seed direction infile inputs) inp).1.playerScore = 0 ∨
           (update R (played R seed direction infile inputs) inp).1.cpuScore = 0)) ∧
        ((update R (played R seed direction infile inputs) inp).1.currentState ≠
            GameState.GameOver →
          (update R (played R seed direction infile inputs) inp).1.currentState =
            GameState.Playing)) := by
  have hok : (played R seed direction infile inputs).scores_ok :=
    run_inputs_scores_ok R _ inputs (Game.new_scores_ok seed direction infile)
  generalize played R seed direction infile inputs = g at hok ⊢
  obtain ⟨⟨a1, a2⟩, ⟨b1, b2⟩, c⟩ := hok
  refine ⟨⟨⟨a1, a2⟩, ⟨b1, b2⟩⟩, ?_⟩
  intro hp
  obtain ⟨c1, c2⟩ := c (Or.inl hp)
  refine ⟨⟨c1, c2⟩, ?_⟩
  intro inp
  have hu : update R g inp = updatePlaying R g inp := by
    unfold update
    rw [hp]
  rw [hu]
  obtain ⟨e1, e2, e3⟩ := updatePlaying_scores R g inp
  rw [e1, e2, e3, hp]
  generalize frameScoreEvent g inp = e
  by_cases h1 : e = 1
  · subst h1
    have hn : ¬ ((1 : Int) = -1) := by decide
    rw [if_neg hn, if_pos rfl]
    refine ⟨fun _ => ⟨rfl, rfl⟩, fun h => absurd h hn, fun h => absurd rfl h, ?_, ?_⟩
    · by_cases hz : g.cpuScore - 1 ≤ 0
      · rw [if_pos ⟨Or.inl rfl, Or.inr hz⟩]
        exact ⟨fun _ => Or.inr (by omega), fun _ => rfl⟩
      · rw [if_neg (fun x => by rcases x.2 with h | h <;> omega)]
        exact ⟨fun h => absurd h (by decide), fun h => by omega⟩
    · by_cases hz : g.cpuScore - 1 ≤ 0
      · rw [if_pos ⟨Or.inl rfl, Or.inr hz⟩]
        exact fun h => absurd rfl h
      · rw [if_neg (fun x => by rcases x.2 with h | h <;> omega)]
        exact fun _ => rfl
  · by_cases h2 : e = -1
    · subst h2
      rw [if_pos rfl, if_neg h1]
      refine ⟨fun h => absurd h h1, fun _ => ⟨rfl, rfl⟩, fun _ h => absurd rfl h, ?_, ?_⟩
      · by_cases hz : g.playerScore - 1 ≤ 0
        · rw [if_pos ⟨Or.inr rfl, Or.inl hz⟩]
          exact ⟨fun _ => Or.inl (by omega), fun _ => rfl⟩
        · rw [if_neg (fun x => by rcases x.2 with h | h <;> omega)]
          exact ⟨fun h => absurd h (by decide), fun h => by omega⟩
      · by_cases hz : g.playerScore - 1 ≤ 0
        · rw [if_pos ⟨Or.inr rfl, Or.inl hz⟩]
          exact fun h => absurd rfl h
        · rw [if_neg (fun x => by rcases x.2 with h | h <;> omega)]
          exact fun _ => rfl
    · rw [if_neg h2, if_neg h1, if_neg (fun x => x.1.elim h1 h2)]
      exact ⟨fun h => absurd h h1, fun h => absurd h h2, fun _ _ => ⟨rfl, rfl⟩,
        ⟨fun h => absurd h (by decide), fun h => by omega⟩, fun _ => rfl⟩

/-- C29 at the game right after "Start Game": the state is Playing and both
scores are at least 1. -/
theorem score_invariant_witness :
    (played still_source () (7 / 10, 7 / 10) none [start_input]).currentState =
      GameState.Playing ∧
    1 ≤ (played still_source () (7 / 10, 7 / 10) none [start_input]).playerScore ∧
    1 ≤ (played still_source () (7 / 10, 7 / 10) none [start_input]).cpuScore :=
  ⟨by decide!,
   ((score_invariant still_source () (7 / 10, 7 / 10) none [start_input]).2 (by decide!)).1⟩

end Qpong


